import Mathlib

/-! # BusTub buffer pool: ARC replacer and count-min sketch

A shallow embedding of `src/buffer/arc_replacer.cpp` and
`src/primer/count_min_sketch.cpp`, followed by theorems about the embedded
functions.

Conventions of the embedding.

* `size_t` values are natural numbers; every `++`, `--`, `+=`, `-=` on a
  `size_t` field is written with an explicit reduction modulo `2 ^ 64`.
* A `std::list` is a `List` with the front of the list at the head.
* A `std::unordered_map` whose values are list iterators is the finite set of
  its keys.  Every write of such a map in the source has the form
  `l.emplace_front(k); m[k] = l.begin()`, so the iterator stored under `k`
  designates the node of `k` nearest the front, and `l.erase(m[k])` is
  `List.erase l k`.
* A `std::unordered_map` to `shared_ptr<FrameStatus>` is an association list;
  the binding of a key is the first pair carrying it.  No two keys ever share a
  `FrameStatus` object in the source (each one is created by `make_shared` for
  one key and only ever moved), so the pointers are replaced by their values.
* A member function returns an `Outcome`: either it returns normally with a
  value and the state it leaves, or it raises, with the state at that moment.
  Behaviour the C++ standard leaves undefined (dereferencing an absent map
  entry, `back()` of an empty list, division by zero) is the fault
  `Fault.undefined`.
* Output to `std::cout` (`DumpState`, the "hit ghost" trace) is not modelled.
* List sizes are the lengths of the lists; sums of list sizes are not reduced
  modulo `2 ^ 64`, since a list of `2 ^ 63` nodes does not fit in memory.
-/

/-- Number of values of a `size_t` (64-bit). -/
def SIZE_MOD : Nat := 2 ^ 64

/-- The operator `++x` on a `size_t`. -/
def sizeIncr (x : Nat) : Nat := (x + 1) % SIZE_MOD

/-- The operator `--x` on a `size_t`. -/
def sizeDecr (x : Nat) : Nat := (x + (SIZE_MOD - 1)) % SIZE_MOD

/-- The operator `x += y` on `size_t` operands. -/
def sizeAdd (x y : Nat) : Nat := (x + y) % SIZE_MOD

/-- The operator `x -= y` on `size_t` operands. -/
def sizeSub (x y : Nat) : Nat := (x + (SIZE_MOD - y % SIZE_MOD)) % SIZE_MOD

/-- Frame identifiers (`frame_id_t`). -/
abbrev frame_id_t := Int

/-- Page identifiers (`page_id_t`). -/
abbrev page_id_t := Int

/-- Modelled from the spec: `frame_id_t` is declared in `common/config.h`, which
is not among the sources; the spec calls a frame id a small integer, and BusTub
declares it as the 32-bit signed integer type.  This is its range. -/
def validFrameId (f : frame_id_t) : Prop := -(2 ^ 31 : Int) ≤ f ∧ f < (2 ^ 31 : Int)

instance (f : frame_id_t) : Decidable (validFrameId f) := by
  unfold validFrameId; infer_instance

/-- Residency tags used by the source. -/
inductive ArcStatus where
  | MRU
  | MFU
  deriving DecidableEq

/-- Access kinds handed to `RecordAccess`; the replacer ignores them. -/
inductive AccessType where
  | Unknown
  | Lookup
  | Scan
  | Index
  deriving DecidableEq

/-- The record `FrameStatus(page_id, frame_id, evictable, arc_status)`. -/
structure FrameStatus where
  page_id_ : page_id_t
  frame_id_ : frame_id_t
  evictable_ : Bool
  arc_status_ : ArcStatus
  deriving DecidableEq

/-- A `std::unordered_map` with integer keys, as an association list. -/
abbrev HMap (β : Type) := List (Int × β)

namespace HMap

/-- The value bound to a key by `m.find(k)`, if any. -/
def find {β : Type} : HMap β → Int → Option β
  | [], _ => none
  | (k', v) :: t, k => if k' = k then some v else find t k

/-- The map after `m.erase(k)`. -/
def erase {β : Type} (m : HMap β) (k : Int) : HMap β :=
  m.filter (fun e => decide (e.1 ≠ k))

/-- The map after `m[k] = v`. -/
def insert {β : Type} (m : HMap β) (k : Int) (v : β) : HMap β :=
  (k, v) :: erase m k

/-- The map after the object bound to `k` is updated in place by `g`. -/
def modify {β : Type} (m : HMap β) (k : Int) (g : β → β) : HMap β :=
  m.map (fun e => if e.1 = k then (e.1, g e.2) else e)

end HMap

/-- Modelled from the spec: the class declaration (`buffer/arc_replacer.h`) is
not among the sources; the fields are the members that `arc_replacer.cpp`
reads and writes.  `mru_` is `T1`, `mfu_` is `T2`, `mru_ghost_` is `B1`,
`mfu_ghost_` is `B2`, `mru_target_size_` is `p`, `replacer_size_` is `C`. -/
structure ArcReplacer where
  replacer_size_ : Nat
  mru_ : List frame_id_t
  mfu_ : List frame_id_t
  mru_ghost_ : List page_id_t
  mfu_ghost_ : List page_id_t
  mru_map_ : Finset frame_id_t
  mfu_map_ : Finset frame_id_t
  mru_ghost_map_ : Finset page_id_t
  mfu_ghost_map_ : Finset page_id_t
  alive_map_ : HMap FrameStatus
  ghost_map_ : HMap FrameStatus
  curr_size_ : Nat
  mru_target_size_ : Nat
  deriving DecidableEq

/-- Ways a member function of the replacer fails: the `std::runtime_error`
messages "Unexpected state(n)" and undefined behaviour. -/
inductive Fault where
  | state1
  | state2
  | state3
  | state5
  | state6
  | state7
  | undefined
  deriving DecidableEq

/-- Result of a member function: normal return with a value, or a failure;
both carry the replacer state at that moment. -/
inductive Outcome (α : Type) where
  | ok (val : α) (post : ArcReplacer)
  | raise (fault : Fault) (post : ArcReplacer)
  deriving DecidableEq

/-- The resident list an operation works on: `mru_` or `mfu_` together with
its ghost list and maps (the reference parameters of the private helpers). -/
inductive Side where
  | mru
  | mfu
  deriving DecidableEq

namespace ArcReplacer

/-- The constructor `ArcReplacer(num_frames)`: empty lists, target size 0. -/
def new (num_frames : Nat) : ArcReplacer :=
  { replacer_size_ := num_frames
    mru_ := []
    mfu_ := []
    mru_ghost_ := []
    mfu_ghost_ := []
    mru_map_ := ∅
    mfu_map_ := ∅
    mru_ghost_map_ := ∅
    mfu_ghost_map_ := ∅
    alive_map_ := []
    ghost_map_ := []
    curr_size_ := 0
    mru_target_size_ := 0 }

/-- The member `Size()`. -/
abbrev Size (s : ArcReplacer) : Nat := s.curr_size_

/-- The resident list of a side. -/
def residentList (s : ArcReplacer) : Side → List frame_id_t
  | .mru => s.mru_
  | .mfu => s.mfu_

/-- The member `LookUp(frame_id, page_id)`. -/
def LookUp (s : ArcReplacer) (frame_id : frame_id_t) (page_id : page_id_t) :
    Option FrameStatus :=
  match s.alive_map_.find frame_id with
  | some st => if st.page_id_ = page_id then some st else none
  | none => none

/-- The member `LookUpGhost(frame_id, page_id)`: the frame id is not used. -/
def LookUpGhost (s : ArcReplacer) (_frame_id : frame_id_t) (page_id : page_id_t) :
    Option FrameStatus :=
  s.ghost_map_.find page_id

/-- The loop of `TryGetEvictableFrom`, over the list read from its tail:
`alive_map_[f]->evictable_` of an absent frame dereferences a null pointer. -/
def scanEvictable (alive : HMap FrameStatus) :
    List frame_id_t → Except Fault (Option frame_id_t)
  | [] => .ok none
  | f :: rest =>
    match alive.find f with
    | none => .error Fault.undefined
    | some st => if st.evictable_ then .ok (some f) else scanEvictable alive rest

/-- The member `TryGetEvictableFrom(list_)`: scan from `rbegin()` to `rend()`. -/
def TryGetEvictableFrom (s : ArcReplacer) (list_ : List frame_id_t) :
    Except Fault (Option frame_id_t) :=
  scanEvictable s.alive_map_ list_.reverse

/-- The member `Move2Ghost(frame_id, page_id, l, mp)`, where `l`, `mp` are the
ghost list and ghost position map of `side`.  `Evict` calls it only for a frame
whose `FrameStatus` it has just read; for an absent frame the source would move
a null pointer, which this model marks as undefined. -/
def Move2Ghost (s : ArcReplacer) (frame_id : frame_id_t) (page_id : page_id_t)
    (side : Side) : Outcome Unit :=
  if (s.ghost_map_.find page_id).isSome then
    .raise Fault.state7 s
  else
    match s.alive_map_.find frame_id with
    | none => .raise Fault.undefined s
    | some st =>
      match side with
      | .mru =>
        .ok () { s with
          mru_ghost_ := page_id :: s.mru_ghost_
          mru_ghost_map_ := insert page_id s.mru_ghost_map_
          ghost_map_ := s.ghost_map_.insert page_id st
          alive_map_ := s.alive_map_.erase frame_id }
      | .mfu =>
        .ok () { s with
          mfu_ghost_ := page_id :: s.mfu_ghost_
          mfu_ghost_map_ := insert page_id s.mfu_ghost_map_
          ghost_map_ := s.ghost_map_.insert page_id st
          alive_map_ := s.alive_map_.erase frame_id }

/-- The member `RemoveFrom(frame_id, l, mp)`, where `l`, `mp` are the resident
list and position map of `side`; `mp.find(frame_id)->second` of an absent key
is undefined. -/
def RemoveFrom (s : ArcReplacer) (frame_id : frame_id_t) (side : Side) : Outcome Unit :=
  match side with
  | .mru =>
    if frame_id ∈ s.mru_map_ then
      .ok () { s with
        mru_ := s.mru_.erase frame_id
        mru_map_ := s.mru_map_.erase frame_id }
    else .raise Fault.undefined s
  | .mfu =>
    if frame_id ∈ s.mfu_map_ then
      .ok () { s with
        mfu_ := s.mfu_.erase frame_id
        mfu_map_ := s.mfu_map_.erase frame_id }
    else .raise Fault.undefined s

/-- The block that `Evict` runs once a victim is chosen on `side`:
read its page id, `Move2Ghost`, `RemoveFrom`, then `--curr_size_` and return
the victim. -/
def evictVictim (s : ArcReplacer) (removed : frame_id_t) (side : Side) :
    Outcome (Option frame_id_t) :=
  match s.alive_map_.find removed with
  | none => .raise Fault.undefined s
  | some st =>
    match Move2Ghost s removed st.page_id_ side with
    | .raise e s1 => .raise e s1
    | .ok _ s1 =>
      match RemoveFrom s1 removed side with
      | .raise e s2 => .raise e s2
      | .ok _ s2 => .ok (some removed) { s2 with curr_size_ := sizeDecr s2.curr_size_ }

/-- The member `Evict()`. -/
def Evict (s : ArcReplacer) : Outcome (Option frame_id_t) :=
  if s.mru_.length < s.mru_target_size_ then
    match TryGetEvictableFrom s s.mfu_ with
    | .error e => .raise e s
    | .ok (some removed) => evictVictim s removed Side.mfu
    | .ok none =>
      match TryGetEvictableFrom s s.mru_ with
      | .error e => .raise e s
      | .ok none => .ok none s
      | .ok (some removed) => evictVictim s removed Side.mru
  else
    match TryGetEvictableFrom s s.mru_ with
    | .error e => .raise e s
    | .ok (some removed) => evictVictim s removed Side.mru
    | .ok none =>
      match TryGetEvictableFrom s s.mfu_ with
      | .error e => .raise e s
      | .ok none => .ok none s
      | .ok (some removed) => evictVictim s removed Side.mfu

/-- The member `Move2First(frame_id)`. -/
def Move2First (s : ArcReplacer) (frame_id : frame_id_t) : Outcome Unit :=
  if frame_id ∈ s.mru_map_ then
    .ok () { s with
      mru_ := s.mru_.erase frame_id
      mru_map_ := s.mru_map_.erase frame_id
      mfu_ := frame_id :: s.mfu_
      mfu_map_ := insert frame_id s.mfu_map_ }
  else if frame_id ∈ s.mfu_map_ then
    .ok () { s with
      mfu_ := frame_id :: s.mfu_.erase frame_id
      mfu_map_ := insert frame_id (s.mfu_map_.erase frame_id) }
  else .raise Fault.state1 s

/-- The member `MoveGhost2First(frame_id, page_id)`. -/
def MoveGhost2First (s : ArcReplacer) (frame_id : frame_id_t) (page_id : page_id_t) :
    Outcome Unit :=
  if page_id ∈ s.mru_ghost_map_ then
    .ok () { s with
      mru_ghost_ := s.mru_ghost_.erase page_id
      mfu_ := frame_id :: s.mfu_
      mfu_map_ := insert frame_id s.mfu_map_
      alive_map_ := s.alive_map_.insert frame_id ⟨page_id, frame_id, true, ArcStatus.MFU⟩
      curr_size_ := sizeIncr s.curr_size_
      ghost_map_ := s.ghost_map_.erase page_id
      mru_ghost_map_ := s.mru_ghost_map_.erase page_id }
  else if page_id ∈ s.mfu_ghost_map_ then
    .ok () { s with
      mfu_ghost_ := s.mfu_ghost_.erase page_id
      mfu_ := frame_id :: s.mfu_
      mfu_map_ := insert frame_id s.mfu_map_
      alive_map_ := s.alive_map_.insert frame_id ⟨page_id, frame_id, true, ArcStatus.MFU⟩
      curr_size_ := sizeIncr s.curr_size_
      ghost_map_ := s.ghost_map_.erase page_id
      mfu_ghost_map_ := s.mfu_ghost_map_.erase page_id }
  else .raise Fault.state1 s

/-- The end of both miss branches of `RecordAccess`: the frame goes to the front
of `mru_` with a fresh evictable `FrameStatus` tagged MRU, then `++curr_size_`. -/
def pushMru (s : ArcReplacer) (frame_id : frame_id_t) (page_id : page_id_t) : ArcReplacer :=
  { s with
    mru_ := frame_id :: s.mru_
    mru_map_ := insert frame_id s.mru_map_
    alive_map_ := s.alive_map_.insert frame_id ⟨page_id, frame_id, true, ArcStatus.MRU⟩
    curr_size_ := sizeIncr s.curr_size_ }

/-- The member `RecordAccess(frame_id, page_id, access_type)`. -/
def RecordAccess (s : ArcReplacer) (frame_id : frame_id_t) (page_id : page_id_t)
    (_access_type : AccessType) : Outcome Unit :=
  if (LookUp s frame_id page_id).isSome then
    Move2First s frame_id
  else if (LookUpGhost s frame_id page_id).isSome then
    if page_id ∈ s.mru_ghost_map_ then
      if s.mru_ghost_.length ≥ s.mfu_ghost_.length then
        MoveGhost2First { s with mru_target_size_ := sizeIncr s.mru_target_size_ }
          frame_id page_id
      else if s.mru_ghost_.length = 0 then
        .raise Fault.undefined s
      else
        let p1 := sizeAdd s.mru_target_size_ (s.mfu_ghost_.length / s.mru_ghost_.length)
        let p2 := if p1 > s.replacer_size_ then s.replacer_size_ else p1
        MoveGhost2First { s with mru_target_size_ := p2 } frame_id page_id
    else if page_id ∈ s.mfu_ghost_map_ then
      if s.mfu_ghost_.length ≥ s.mru_ghost_.length then
        MoveGhost2First { s with mru_target_size_ := sizeDecr s.mru_target_size_ }
          frame_id page_id
      else if s.mfu_ghost_.length = 0 then
        .raise Fault.undefined s
      else
        let p1 := sizeSub s.mru_target_size_ (s.mru_ghost_.length / s.mfu_ghost_.length)
        let p2 := if p1 ≤ 0 then 0 else p1
        MoveGhost2First { s with mru_target_size_ := p2 } frame_id page_id
    else .raise Fault.state2 s
  else if s.mru_.length + s.mru_ghost_.length = s.replacer_size_ then
    match s.mru_ghost_.getLast? with
    | none => .raise Fault.undefined s
    | some last_page_id =>
      .ok () (pushMru { s with
        mru_ghost_ := s.mru_ghost_.dropLast
        mru_ghost_map_ := s.mru_ghost_map_.erase last_page_id
        ghost_map_ := s.ghost_map_.erase last_page_id } frame_id page_id)
  else if s.mru_.length + s.mru_ghost_.length < s.replacer_size_ then
    let allSize := s.mru_.length + s.mru_ghost_.length + s.mfu_.length + s.mfu_ghost_.length
    if allSize = (2 * s.replacer_size_) % SIZE_MOD then
      match s.mfu_ghost_.getLast? with
      | none => .raise Fault.undefined s
      | some last_page_id =>
        .ok () (pushMru { s with
          mfu_ghost_ := s.mfu_ghost_.dropLast
          mfu_ghost_map_ := s.mfu_ghost_map_.erase last_page_id
          ghost_map_ := s.ghost_map_.erase last_page_id } frame_id page_id)
    else .ok () (pushMru s frame_id page_id)
  else .raise Fault.state3 s

/-- The member `SetEvictable(frame_id, set_evictable)`. -/
def SetEvictable (s : ArcReplacer) (frame_id : frame_id_t) (set_evictable : Bool) :
    Outcome Unit :=
  match s.alive_map_.find frame_id with
  | some st =>
    let size1 :=
      if st.evictable_ = false ∧ set_evictable = true then sizeIncr s.curr_size_
      else if st.evictable_ = true ∧ set_evictable = false then sizeDecr s.curr_size_
      else s.curr_size_
    .ok () { s with
      curr_size_ := size1
      alive_map_ := s.alive_map_.modify frame_id
        (fun st0 => { st0 with evictable_ := set_evictable }) }
  | none => .raise Fault.state5 s

/-- The member `Remove(frame_id)`. -/
def Remove (s : ArcReplacer) (frame_id : frame_id_t) : Outcome Unit :=
  match s.alive_map_.find frame_id with
  | some st =>
    if st.evictable_ = false then .raise Fault.state6 s
    else
      let s1 := { s with
        curr_size_ := sizeDecr s.curr_size_
        alive_map_ := s.alive_map_.erase frame_id }
      if frame_id ∈ s1.mru_map_ then
        .ok () { s1 with
          mru_ := s1.mru_.erase frame_id
          mru_map_ := s1.mru_map_.erase frame_id }
      else if frame_id ∈ s1.mfu_map_ then
        .ok () { s1 with
          mfu_ := s1.mfu_.erase frame_id
          mfu_map_ := s1.mfu_map_.erase frame_id }
      else .ok () s1
  | none => .ok () s

end ArcReplacer

/-! ## Sequences of public calls and state predicates -/

/-- A call of one of the public operations that change the replacer. -/
inductive Op where
  | RecordAccess (frame_id : frame_id_t) (page_id : page_id_t) (access_type : AccessType)
  | SetEvictable (frame_id : frame_id_t) (set_evictable : Bool)
  | Evict
  | Remove (frame_id : frame_id_t)
  deriving DecidableEq

namespace ArcReplacer

/-- The state after a call that completes without raising; `none` if it raises. -/
def call (s : ArcReplacer) : Op → Option ArcReplacer
  | .RecordAccess f p a =>
    match RecordAccess s f p a with
    | .ok _ s1 => some s1
    | .raise _ _ => none
  | .SetEvictable f b =>
    match SetEvictable s f b with
    | .ok _ s1 => some s1
    | .raise _ _ => none
  | .Evict =>
    match Evict s with
    | .ok _ s1 => some s1
    | .raise _ _ => none
  | .Remove f =>
    match Remove s f with
    | .ok _ s1 => some s1
    | .raise _ _ => none

/-- The state after a sequence of calls all of which complete without raising. -/
def run (s : ArcReplacer) : List Op → Option ArcReplacer
  | [] => some s
  | op :: rest =>
    match call s op with
    | some s1 => run s1 rest
    | none => none

/-- The evictable flag a `FrameStatus` map records for a frame (false if absent). -/
def flagOf (alive : HMap FrameStatus) (f : frame_id_t) : Bool :=
  match alive.find f with
  | some st => st.evictable_
  | none => false

/-- The evictable flag recorded for a frame in `alive_map_` (false if absent). -/
def isEvictable (s : ArcReplacer) (f : frame_id_t) : Bool :=
  flagOf s.alive_map_ f

/-- Number of distinct frame ids in `mru_ ∪ mfu_` whose `FrameStatus` in
`alive_map_` has the evictable flag true. -/
def evictableCount (s : ArcReplacer) : Nat :=
  ((s.mru_ ++ s.mfu_).dedup.filter (isEvictable s)).length

/-- The frame/page pairing of a call: `RecordAccess(F, P)` is not issued while
`F` is resident holding a page other than `P`. -/
def pairedCall (s : ArcReplacer) : Op → Prop
  | .RecordAccess f p _ =>
    match s.alive_map_.find f with
    | some st => st.page_id_ = p
    | none => True
  | _ => True

instance (s : ArcReplacer) (op : Op) : Decidable (pairedCall s op) := by
  cases op <;> simp only [pairedCall] <;> try infer_instance
  split <;> infer_instance

/-- Every call of the sequence, issued in the state its predecessors leave,
respects the frame/page pairing. -/
def pairedRun (s : ArcReplacer) : List Op → Prop
  | [] => True
  | op :: rest =>
    pairedCall s op ∧
      match call s op with
      | some s1 => pairedRun s1 rest
      | none => True

/-- The frame id a call names, if any, is a 32-bit signed integer. -/
def frameInRange : Op → Prop
  | .RecordAccess f _ _ => validFrameId f
  | .SetEvictable f _ => validFrameId f
  | .Evict => True
  | .Remove f => validFrameId f

instance (op : Op) : Decidable (frameInRange op) := by
  cases op <;> simp only [frameInRange] <;> infer_instance

/-- Well-formed replacer states: the lists hold distinct identifiers, every
position map has the elements of its list as keys, `alive_map_` has exactly the
listed frames as keys and `ghost_map_` exactly the listed ghost pages, and
`curr_size_` is a `size_t` counting the evictable resident frames. -/
structure WellFormed (s : ArcReplacer) : Prop where
  frames_nodup : (s.mru_ ++ s.mfu_).Nodup
  ghosts_nodup : (s.mru_ghost_ ++ s.mfu_ghost_).Nodup
  mru_keys : s.mru_map_ = s.mru_.toFinset
  mfu_keys : s.mfu_map_ = s.mfu_.toFinset
  mru_ghost_keys : s.mru_ghost_map_ = s.mru_ghost_.toFinset
  mfu_ghost_keys : s.mfu_ghost_map_ = s.mfu_ghost_.toFinset
  alive_has : ∀ f ∈ s.mru_ ++ s.mfu_, (s.alive_map_.find f).isSome = true
  alive_only : ∀ e ∈ s.alive_map_, e.1 ∈ s.mru_ ++ s.mfu_
  ghost_has : ∀ p ∈ s.mru_ghost_ ++ s.mfu_ghost_, (s.ghost_map_.find p).isSome = true
  ghost_only : ∀ e ∈ s.ghost_map_, e.1 ∈ s.mru_ghost_ ++ s.mfu_ghost_
  size_counts : s.curr_size_ = evictableCount s
  size_word : s.curr_size_ < SIZE_MOD

/-- Accounting of a list of resident frames against a `FrameStatus` map and a
counter: distinct 32-bit frame ids, exactly the keys of the map, and the counter
is the number of listed frames flagged evictable. -/
structure Accounted (frames : List frame_id_t) (alive : HMap FrameStatus) (size : Nat) :
    Prop where
  nodup : frames.Nodup
  has : ∀ f ∈ frames, (alive.find f).isSome = true
  only : ∀ e ∈ alive, e.1 ∈ frames
  valid : ∀ f ∈ frames, validFrameId f
  counts : size = frames.countP (flagOf alive)

/-- The part of well-formedness that concerns resident frames, with frame ids
in the range of `frame_id_t`. -/
structure ResidentInv (s : ArcReplacer) : Prop where
  core : Accounted (s.mru_ ++ s.mfu_) s.alive_map_ s.curr_size_
  mru_keys : s.mru_map_ = s.mru_.toFinset
  mfu_keys : s.mfu_map_ = s.mfu_.toFinset

instance (s : ArcReplacer) : Decidable (WellFormed s) :=
  decidable_of_iff
    ((s.mru_ ++ s.mfu_).Nodup ∧ (s.mru_ghost_ ++ s.mfu_ghost_).Nodup ∧
      s.mru_map_ = s.mru_.toFinset ∧ s.mfu_map_ = s.mfu_.toFinset ∧
      s.mru_ghost_map_ = s.mru_ghost_.toFinset ∧ s.mfu_ghost_map_ = s.mfu_ghost_.toFinset ∧
      (∀ f ∈ s.mru_ ++ s.mfu_, (s.alive_map_.find f).isSome = true) ∧
      (∀ e ∈ s.alive_map_, e.1 ∈ s.mru_ ++ s.mfu_) ∧
      (∀ p ∈ s.mru_ghost_ ++ s.mfu_ghost_, (s.ghost_map_.find p).isSome = true) ∧
      (∀ e ∈ s.ghost_map_, e.1 ∈ s.mru_ghost_ ++ s.mfu_ghost_) ∧
      s.curr_size_ = evictableCount s ∧ s.curr_size_ < SIZE_MOD)
    ⟨fun ⟨a, b, c, d, e, f, g, h, i, j, k, l⟩ => ⟨a, b, c, d, e, f, g, h, i, j, k, l⟩,
     fun ⟨a, b, c, d, e, f, g, h, i, j, k, l⟩ => ⟨a, b, c, d, e, f, g, h, i, j, k, l⟩⟩

end ArcReplacer

/-! ## The victim the specification describes, and concrete states -/

namespace ArcReplacer

instance decPairedRun : (ops : List Op) → (s : ArcReplacer) → Decidable (pairedRun s ops)
  | [], _ => isTrue trivial
  | op :: rest, s =>
    match h : call s op with
    | some s1 =>
      haveI := decPairedRun rest s1
      decidable_of_iff (pairedCall s op ∧ pairedRun s1 rest) (by simp [pairedRun, h])
    | none => decidable_of_iff (pairedCall s op) (by simp [pairedRun, h])

/-- The evictable frame nearest the tail of a list of frames, if there is one. -/
def nearestTailEvictable (s : ArcReplacer) (l : List frame_id_t) : Option frame_id_t :=
  l.reverse.find? (isEvictable s)

/-- The preferred victim side in the words of the specification: `T2` if
`|T1| < p`, and `T1` otherwise. -/
def specPreferredSide (s : ArcReplacer) : Side :=
  if s.mru_.length < s.mru_target_size_ then Side.mfu else Side.mru

/-- The side that is not the given one. -/
def otherSide : Side → Side
  | .mru => .mfu
  | .mfu => .mru

/-- The result of `Evict` in the words of the specification: the evictable
frame nearest the tail of the preferred side if one exists, otherwise the
evictable frame nearest the tail of the other side if one exists, otherwise
none. -/
def specEvict (s : ArcReplacer) : Option frame_id_t :=
  match nearestTailEvictable s (s.residentList (specPreferredSide s)) with
  | some f => some f
  | none => nearestTailEvictable s (s.residentList (otherSide (specPreferredSide s)))

/-- A sequence of calls on a replacer of capacity 3 that exercises a miss, a
pin, a hit, an eviction, a ghost hit and a removal. -/
def sampleCalls : List Op :=
  [Op.RecordAccess 1 1 AccessType.Unknown, Op.RecordAccess 2 2 AccessType.Lookup,
   Op.RecordAccess 3 3 AccessType.Scan, Op.SetEvictable 2 false,
   Op.RecordAccess 1 1 AccessType.Index, Op.Evict,
   Op.RecordAccess 4 3 AccessType.Unknown, Op.Remove 1]

/-- The state `sampleCalls` leads to: frame 2 pinned in `T1`, frame 4 in `T2`. -/
def sampleFinal : ArcReplacer :=
  { replacer_size_ := 3
    mru_ := [2]
    mfu_ := [4]
    mru_ghost_ := []
    mfu_ghost_ := []
    mru_map_ := {2}
    mfu_map_ := {4}
    mru_ghost_map_ := ∅
    mfu_ghost_map_ := ∅
    alive_map_ := [(4, ⟨3, 4, true, ArcStatus.MFU⟩), (2, ⟨2, 2, false, ArcStatus.MRU⟩)]
    ghost_map_ := []
    curr_size_ := 1
    mru_target_size_ := 1 }

/-- The state after the first six calls of `sampleCalls`: frame 2 pinned in
`T1`, frame 1 in `T2`, page 3 in `B1`. -/
def sampleMid : ArcReplacer :=
  { replacer_size_ := 3
    mru_ := [2]
    mfu_ := [1]
    mru_ghost_ := [3]
    mfu_ghost_ := []
    mru_map_ := {2}
    mfu_map_ := {1}
    mru_ghost_map_ := {3}
    mfu_ghost_map_ := ∅
    alive_map_ := [(2, ⟨2, 2, false, ArcStatus.MRU⟩), (1, ⟨1, 1, true, ArcStatus.MRU⟩)]
    ghost_map_ := [(3, ⟨3, 3, true, ArcStatus.MRU⟩)]
    curr_size_ := 1
    mru_target_size_ := 0 }

/-- The state after `RecordAccess(1, 1)` then `RecordAccess(1, 2)` on a fresh
replacer of capacity 2: frame 1 is listed twice. -/
def reusedFrameState : ArcReplacer :=
  { replacer_size_ := 2
    mru_ := [1, 1]
    mfu_ := []
    mru_ghost_ := []
    mfu_ghost_ := []
    mru_map_ := {1}
    mfu_map_ := ∅
    mru_ghost_map_ := ∅
    mfu_ghost_map_ := ∅
    alive_map_ := [(1, ⟨2, 1, true, ArcStatus.MRU⟩)]
    ghost_map_ := []
    curr_size_ := 2
    mru_target_size_ := 0 }

/-- The state after `RecordAccess(1, 1)`, `RecordAccess(2, 1)`, `Evict()` on a
fresh replacer of capacity 3: frame 2 holds page 1, which is also in `B1`. -/
def ghostedPageState : ArcReplacer :=
  { replacer_size_ := 3
    mru_ := [2]
    mfu_ := []
    mru_ghost_ := [1]
    mfu_ghost_ := []
    mru_map_ := {2}
    mfu_map_ := ∅
    mru_ghost_map_ := {1}
    mfu_ghost_map_ := ∅
    alive_map_ := [(2, ⟨1, 2, true, ArcStatus.MRU⟩)]
    ghost_map_ := [(1, ⟨1, 1, true, ArcStatus.MRU⟩)]
    curr_size_ := 1
    mru_target_size_ := 0 }

end ArcReplacer

/-! ## Count-min sketch (`src/primer/count_min_sketch.cpp`)

The matrix `data_` is a `std::vector<std::vector<size_t>>`, here a list of rows
of natural numbers updated modulo `2 ^ 64`; `Count` returns a `uint32_t`.
Indexing a vector outside its bounds and `% 0` are undefined behaviour, the
fault `CmsFault.undefined`.  The row locks are not modelled. -/

/-- Number of values of a `uint32_t`. -/
def U32_MOD : Nat := 2 ^ 32

/-- The conversion of a `size_t` to `uint32_t`. -/
def toU32 (x : Nat) : Nat := x % U32_MOD

/-- Modelled from the spec: the class declaration (`primer/count_min_sketch.h`)
is not among the sources; the fields are the members that
`count_min_sketch.cpp` reads and writes. -/
structure CountMinSketch (Key : Type) where
  width_ : Nat
  depth_ : Nat
  data_ : List (List Nat)
  hash_functions_ : List (Key → Nat)

/-- Ways a member function of the sketch fails: `std::invalid_argument`, and
undefined behaviour. -/
inductive CmsFault where
  | invalid_argument
  | undefined
  deriving DecidableEq

/-- Result of a member function that mutates the sketch: normal return or a
failure, both with the sketch it leaves. -/
inductive CmsResult (Key : Type) where
  | ok (post : CountMinSketch Key)
  | raise (fault : CmsFault) (post : CountMinSketch Key)

namespace CountMinSketch

variable {Key : Type}

/-- The cell `data[i][j]`, or `none` when an index is out of range. -/
def cellAt (data : List (List Nat)) (i j : Nat) : Option Nat :=
  match data[i]? with
  | none => none
  | some row => row[j]?

/-- The matrix after `data[i][j] = v`. -/
def setCell (data : List (List Nat)) (i j v : Nat) : List (List Nat) :=
  match data[i]? with
  | none => data
  | some row => data.set i (row.set j v)

/-- The constructor `CountMinSketch(width, depth)`.  `HashFunction(i)`, which
the header declares, is a parameter: the hash function seeded with `i`. -/
def new (HashFunction : Nat → Key → Nat) (width depth : Nat) :
    Except CmsFault (CountMinSketch Key) :=
  if width ≤ 0 ∨ depth ≤ 0 then .error CmsFault.invalid_argument
  else .ok
    { width_ := width
      depth_ := depth
      data_ := List.replicate depth (List.replicate width 0)
      hash_functions_ := (List.range depth).map HashFunction }

/-- One iteration of the loop of `Insert`:
`data_[i][hash_functions_[i](item) % width_] += 1`. -/
def insertRow (item : Key) (data : List (List Nat)) (width : Nat)
    (hashes : List (Key → Nat)) (i : Nat) : Option (List (List Nat)) :=
  match hashes[i]? with
  | none => none
  | some h =>
    if width = 0 then none
    else
      match cellAt data i (h item % width) with
      | none => none
      | some x => some (setCell data i (h item % width) (sizeIncr x))

/-- The loop `for (i = from; i < from + n; i++)` of `Insert`. -/
def insertRows (item : Key) (width : Nat) (hashes : List (Key → Nat)) :
    Nat → Nat → List (List Nat) → Option (List (List Nat))
  | 0, _, data => some data
  | n + 1, i, data =>
    match insertRow item data width hashes i with
    | none => none
    | some data1 => insertRows item width hashes n (i + 1) data1

/-- The member `Insert(item)`. -/
def Insert (sk : CountMinSketch Key) (item : Key) : CmsResult Key :=
  match insertRows item sk.width_ sk.hash_functions_ sk.depth_ 0 sk.data_ with
  | none => .raise CmsFault.undefined sk
  | some data1 => .ok { sk with data_ := data1 }

/-- A sequence of `Insert` calls, stopping at the first failure. -/
def insertAll (sk : CountMinSketch Key) : List Key → CmsResult Key
  | [] => .ok sk
  | item :: rest =>
    match Insert sk item with
    | .ok sk1 => insertAll sk1 rest
    | .raise e sk1 => .raise e sk1

/-- The value `uint32_t result = data_[i][hash_functions_[i](item) % width_]`
that `Count` reads for row `i`. -/
def rowEstimate (sk : CountMinSketch Key) (item : Key) (i : Nat) : Option Nat :=
  match sk.hash_functions_[i]? with
  | none => none
  | some h =>
    match cellAt sk.data_ i (h item % sk.width_) with
    | none => none
    | some x => some (toU32 x)

/-- The loop `for (i = from; i < from + n; i++)` of `Count`, with the running
minimum. -/
def countRows (sk : CountMinSketch Key) (item : Key) : Nat → Nat → Nat → Option Nat
  | 0, _, min => some min
  | n + 1, i, min =>
    match rowEstimate sk item i with
    | none => none
    | some result => countRows sk item n (i + 1) (if result < min then result else min)

/-- The member `Count(item)`. -/
def Count (sk : CountMinSketch Key) (item : Key) : Except CmsFault Nat :=
  if sk.width_ ≤ 0 ∨ sk.depth_ ≤ 0 then .ok 0
  else
    match rowEstimate sk item 0 with
    | none => .error CmsFault.undefined
    | some min =>
      match countRows sk item (sk.depth_ - 1) 1 min with
      | none => .error CmsFault.undefined
      | some r => .ok r

/-- The inner loop of `Merge` on row `i`:
`for (j = from; j < from + n; j++) data_[i][j] += other.data_[i][j]`. -/
def mergeCols (other : List (List Nat)) (i : Nat) :
    Nat → Nat → List (List Nat) → Option (List (List Nat))
  | 0, _, data => some data
  | n + 1, j, data =>
    match cellAt data i j, cellAt other i j with
    | some x, some y => mergeCols other i n (j + 1) (setCell data i j (sizeAdd x y))
    | _, _ => none

/-- The outer loop of `Merge`: `for (i = from; i < from + n; i++)`. -/
def mergeRows (other : List (List Nat)) (width : Nat) :
    Nat → Nat → List (List Nat) → Option (List (List Nat))
  | 0, _, data => some data
  | n + 1, i, data =>
    match mergeCols other i width 0 data with
    | none => none
    | some data1 => mergeRows other width n (i + 1) data1

/-- The member `Merge(other)`. -/
def Merge (sk other : CountMinSketch Key) : CmsResult Key :=
  if sk.width_ ≠ other.width_ ∨ sk.depth_ ≠ other.depth_ then
    .raise CmsFault.invalid_argument sk
  else
    match mergeRows other.data_ sk.width_ sk.depth_ 0 sk.data_ with
    | none => .raise CmsFault.undefined sk
    | some data1 => .ok { sk with data_ := data1 }

/-- The loop of `TopK` over the candidates: `result.emplace_back(key, Count(key))`. -/
def countCandidates (sk : CountMinSketch Key) :
    List Key → List (Key × Nat) → Except CmsFault (List (Key × Nat))
  | [], result => .ok result
  | key :: rest, result =>
    match Count sk key with
    | .error e => .error e
    | .ok c => countCandidates sk rest (result ++ [(key, c)])

/-- The member `TopK(k, candidates)`.  The vector `result` starts with
`candidates.size()` value-initialised pairs (`dflt` is `KeyType()`, the count
is 0) and the counted candidates are appended to it.  `std::sort` with the
comparator `a.second > b.second` is the parameter `sort`; the order it gives to
entries of equal count is unspecified. -/
def TopK (sort : List (Key × Nat) → List (Key × Nat)) (dflt : Key)
    (sk : CountMinSketch Key) (k : Nat) (candidates : List Key) :
    Except CmsFault (List (Key × Nat)) :=
  match countCandidates sk candidates (List.replicate candidates.length (dflt, 0)) with
  | .error e => .error e
  | .ok result =>
    let sorted := sort result
    .ok (if k < sorted.length then sorted.take k else sorted)

/-- What `std::sort` with the comparator `a.second > b.second` guarantees: a
rearrangement of its input in non-increasing order of counts. -/
def IsCountSort (sort : List (Key × Nat) → List (Key × Nat)) : Prop :=
  ∀ l, (sort l).Perm l ∧ (sort l).Pairwise (fun a b => b.2 ≤ a.2)

/-- A `d × w` matrix of `size_t` cells. -/
def IsMatrix (d w : Nat) (data : List (List Nat)) : Prop :=
  data.length = d ∧ ∀ row ∈ data, row.length = w ∧ ∀ x ∈ row, x < SIZE_MOD

/-- The shape of a sketch: positive dimensions and a `depth_ × width_` matrix
of `size_t` cells. -/
structure Shaped (sk : CountMinSketch Key) : Prop where
  width_pos : 0 < sk.width_
  depth_pos : 0 < sk.depth_
  matrix : IsMatrix sk.depth_ sk.width_ sk.data_

/-- The hash functions of a sketch are those the constructor installs: row `i`
uses the function seeded with `i`. -/
def Seeded (HashFunction : Nat → Key → Nat) (sk : CountMinSketch Key) : Prop :=
  sk.hash_functions_ = (List.range sk.depth_).map HashFunction

/-- The sketch a result carries when the call returned normally. -/
def postOf : CmsResult Key → Option (CountMinSketch Key)
  | .ok sk => some sk
  | .raise _ _ => none

/-- A sample hash family on integer keys. -/
def sampleHash (seed : Nat) (key : Int) : Nat := key.natAbs * (seed + 1) + seed

/-- A sort of (key, count) pairs by non-increasing count. -/
def sampleSort (l : List (Int × Nat)) : List (Int × Nat) :=
  l.insertionSort (fun a b => b.2 ≤ a.2)

/-- The sketch of width 4 and depth 3 with the sample hash family after the
calls `Insert(5)`, `Insert(5)`, `Insert(7)`, `Insert(5)`. -/
def sampleSketch : CountMinSketch Int :=
  { width_ := 4
    depth_ := 3
    data_ := [[0, 3, 0, 1], [0, 0, 0, 4], [0, 3, 0, 1]]
    hash_functions_ := (List.range 3).map sampleHash }

/-- A sketch of width 1 and depth 1 whose only cell holds `2 ^ 64 - 1`. -/
def fullCellSketch : CountMinSketch Int :=
  { width_ := 1
    depth_ := 1
    data_ := [[18446744073709551615]]
    hash_functions_ := (List.range 1).map sampleHash }

/-- A sketch of width 1 and depth 1 whose only cell holds 1. -/
def unitCellSketch : CountMinSketch Int :=
  { width_ := 1
    depth_ := 1
    data_ := [[1]]
    hash_functions_ := (List.range 1).map sampleHash }

/-- A sketch of width 2 and depth 3, of another shape than `sampleSketch`. -/
def narrowSketch : CountMinSketch Int :=
  { width_ := 2
    depth_ := 3
    data_ := [[0, 1], [1, 0], [0, 1]]
    hash_functions_ := (List.range 3).map sampleHash }

instance (d w : Nat) (data : List (List Nat)) : Decidable (IsMatrix d w data) := by
  unfold IsMatrix; infer_instance

instance (sk : CountMinSketch Key) : Decidable (Shaped sk) :=
  decidable_of_iff (0 < sk.width_ ∧ 0 < sk.depth_ ∧ IsMatrix sk.depth_ sk.width_ sk.data_)
    ⟨fun ⟨a, b, c⟩ => ⟨a, b, c⟩, fun ⟨a, b, c⟩ => ⟨a, b, c⟩⟩

end CountMinSketch

/-! ## Count-min sketch: `Clear` and move assignment -/

namespace CountMinSketch

variable {Key : Type}

/-- The member `Clear()`: every cell of every row of `data_` is set to 0. -/
def Clear (sk : CountMinSketch Key) : CountMinSketch Key :=
  { sk with data_ := sk.data_.map (fun v => v.map (fun _ => 0)) }

/-- The loop of the move assignment, `for (i = from; i < from + n; i++)
hash_functions_.push_back(other.hash_functions_[i])`, on the vector `acc`. -/
def pushHashes (other : List (Key → Nat)) :
    Nat → Nat → List (Key → Nat) → Option (List (Key → Nat))
  | 0, _, acc => some acc
  | n + 1, i, acc =>
    match other[i]? with
    | none => none
    | some h => pushHashes other n (i + 1) (acc ++ [h])

/-- The move assignment `sk = std::move(other)`: width and depth are taken from
`other`, the first `depth_` hash functions of `other` are pushed onto the
hash functions `sk` already has, and `data_` is assigned from `other`.  The
result is `none` when `other.hash_functions_[i]` is read out of range. -/
def moveAssign (sk other : CountMinSketch Key) : Option (CountMinSketch Key) :=
  match pushHashes other.hash_functions_ other.depth_ 0 sk.hash_functions_ with
  | none => none
  | some hs =>
    some
      { width_ := other.width_
        depth_ := other.depth_
        data_ := other.data_
        hash_functions_ := hs }

/-- The fresh sketch of width 4 and depth 1 with the sample hash family. -/
def shallowSketch : CountMinSketch Int :=
  { width_ := 4
    depth_ := 1
    data_ := [[0, 0, 0, 0]]
    hash_functions_ := (List.range 1).map sampleHash }

/-- The sketch of width 4 and depth 2 with the sample hash family after
`Insert(5)`. -/
def deepSketch : CountMinSketch Int :=
  { width_ := 4
    depth_ := 2
    data_ := [[0, 1, 0, 0], [0, 0, 0, 1]]
    hash_functions_ := (List.range 2).map sampleHash }

end CountMinSketch

namespace CountMinSketch

variable {Key : Type}

/-- The inner loop of `Merge` when `other` is `*this` (the call `a.Merge(a)`):
`other.data_[i][j]` is read from the matrix that is being written. -/
def mergeColsSelf (i : Nat) : Nat → Nat → List (List Nat) → Option (List (List Nat))
  | 0, _, data => some data
  | n + 1, j, data =>
    match cellAt data i j, cellAt data i j with
    | some x, some y => mergeColsSelf i n (j + 1) (setCell data i j (sizeAdd x y))
    | _, _ => none

/-- The outer loop of `Merge` when `other` is `*this`. -/
def mergeRowsSelf (width : Nat) : Nat → Nat → List (List Nat) → Option (List (List Nat))
  | 0, _, data => some data
  | n + 1, i, data =>
    match mergeColsSelf i width 0 data with
    | none => none
    | some data1 => mergeRowsSelf width n (i + 1) data1

/-- The member `Merge(other)` called with `other` bound to `*this`. -/
def MergeSelf (sk : CountMinSketch Key) : CmsResult Key :=
  if sk.width_ ≠ sk.width_ ∨ sk.depth_ ≠ sk.depth_ then
    .raise CmsFault.invalid_argument sk
  else
    match mergeRowsSelf sk.width_ sk.depth_ 0 sk.data_ with
    | none => .raise CmsFault.undefined sk
    | some data1 => .ok { sk with data_ := data1 }

/-- What the reference `other` of `a.Merge(other)` is bound to: another object,
or the object `a` itself. -/
inductive MergeArg (Key : Type) where
  | object (b : CountMinSketch Key)
  | itself

/-- The state a call leaves in `*this`, whether it returned or raised. -/
def stateOf : CmsResult Key → CountMinSketch Key
  | .ok post => post
  | .raise _ post => post

/-- The call `a.Merge(other)` on objects: the result for `a`, and the state of
the object `other` is bound to after the call.  `Merge` writes only to
`this->data_`, so another object keeps its state, while `a` itself ends in the
state the call leaves. -/
def MergeCall (a : CountMinSketch Key) : MergeArg Key → CmsResult Key × CountMinSketch Key
  | .object b => (Merge a b, b)
  | .itself => (MergeSelf a, stateOf (MergeSelf a))

/-- A sketch of width 4 and depth 2 after `Insert(7)`. -/
def pairSketch : CountMinSketch Int :=
  { width_ := 4
    depth_ := 2
    data_ := [[0, 0, 0, 1], [0, 0, 0, 1]]
    hash_functions_ := (List.range 2).map sampleHash }

end CountMinSketch

/-! ## Further state predicates and concrete states of the replacer -/

namespace ArcReplacer

/-- The page id a `FrameStatus` map records for a frame, if the frame has an
entry. -/
def pageOf (alive : HMap FrameStatus) (f : frame_id_t) : Option page_id_t :=
  (alive.find f).map (fun st => st.page_id_)

/-- The residency tag recorded for a frame in `alive_map_`, if it has an entry. -/
def tagOf (s : ArcReplacer) (f : frame_id_t) : Option ArcStatus :=
  (s.alive_map_.find f).map (fun st => st.arc_status_)

/-- The page ids in a list of frames "via the frame's FrameStatus". -/
def pagesIn (s : ArcReplacer) (frames : List frame_id_t) : List page_id_t :=
  frames.filterMap (pageOf s.alive_map_)

/-- The page ids of `T1`, of `T2`, of `B1` and of `B2`, one after the other. -/
def allPages (s : ArcReplacer) : List page_id_t :=
  pagesIn s (s.mru_ ++ s.mfu_) ++ (s.mru_ghost_ ++ s.mfu_ghost_)

/-- The sum `|T1| + |T2| + |B1| + |B2|`. -/
def totalSize (s : ArcReplacer) : Nat :=
  s.mru_.length + s.mfu_.length + s.mru_ghost_.length + s.mfu_ghost_.length

/-- A call respects the one-to-one pairing of resident frames and pages:
`RecordAccess(F, P)` is issued neither while `F` is resident holding a page other
than `P` nor while another resident frame holds `P`. -/
def consistentCall (s : ArcReplacer) (op : Op) : Prop :=
  pairedCall s op ∧
    match op with
    | .RecordAccess f p _ => ∀ g ∈ s.mru_ ++ s.mfu_, g ≠ f → pageOf s.alive_map_ g ≠ some p
    | _ => True

instance (s : ArcReplacer) (op : Op) : Decidable (consistentCall s op) := by
  unfold consistentCall
  cases op <;> infer_instance

/-- Every call of the sequence, issued in the state its predecessors leave,
respects the pairing of resident frames and pages. -/
def consistentRun (s : ArcReplacer) : List Op → Prop
  | [] => True
  | op :: rest =>
    consistentCall s op ∧
      match call s op with
      | some s1 => consistentRun s1 rest
      | none => True

instance decConsistentRun : (ops : List Op) → (s : ArcReplacer) →
    Decidable (consistentRun s ops)
  | [], _ => isTrue trivial
  | op :: rest, s =>
    match h : call s op with
    | some s1 =>
      haveI := decConsistentRun rest s1
      decidable_of_iff (consistentCall s op ∧ consistentRun s1 rest)
        (by simp [consistentRun, h])
    | none => decidable_of_iff (consistentCall s op) (by simp [consistentRun, h])

/-- The invariants of §3.1 of the specification, in its words: (1) the two size
bounds, (2) `|T1| + |T2| ≤ C`, (3) no page id occurs twice among the pages of
`T1`, of `T2`, `B1` and `B2`, (4) the lists hold distinct elements, every listed
frame has exactly one `FrameStatus` whose tag matches its list and every ghost
page one entry of the ghost map, (5) `size` counts the evictable resident
frames, (6) `0 ≤ p ≤ C`; and `C` is a `size_t`.  Items (4) and (5) without the
tags are `WellFormed`. -/
structure SpecInvariants (s : ArcReplacer) : Prop where
  wf : WellFormed s
  bound_recency : s.mru_.length + s.mru_ghost_.length ≤ s.replacer_size_
  bound_total : totalSize s ≤ 2 * s.replacer_size_
  bound_resident : s.mru_.length + s.mfu_.length ≤ s.replacer_size_
  pages_nodup : (allPages s).Nodup
  tag_mru : ∀ f ∈ s.mru_, tagOf s f = some ArcStatus.MRU
  tag_mfu : ∀ f ∈ s.mfu_, tagOf s f = some ArcStatus.MFU
  target : s.mru_target_size_ ≤ s.replacer_size_
  capacity_word : s.replacer_size_ < SIZE_MOD

instance (s : ArcReplacer) : Decidable (SpecInvariants s) :=
  decidable_of_iff
    (WellFormed s ∧ s.mru_.length + s.mru_ghost_.length ≤ s.replacer_size_ ∧
      totalSize s ≤ 2 * s.replacer_size_ ∧
      s.mru_.length + s.mfu_.length ≤ s.replacer_size_ ∧ (allPages s).Nodup ∧
      (∀ f ∈ s.mru_, tagOf s f = some ArcStatus.MRU) ∧
      (∀ f ∈ s.mfu_, tagOf s f = some ArcStatus.MFU) ∧
      s.mru_target_size_ ≤ s.replacer_size_ ∧ s.replacer_size_ < SIZE_MOD)
    ⟨fun ⟨a, b, c, d, e, f, g, h, i⟩ => ⟨a, b, c, d, e, f, g, h, i⟩,
     fun ⟨a, b, c, d, e, f, g, h, i⟩ => ⟨a, b, c, d, e, f, g, h, i⟩⟩

/-- Sizes of the lists against the capacity, with every key of a position map
present in its list. -/
structure SizeInv (s : ArcReplacer) : Prop where
  recency : s.mru_.length + s.mru_ghost_.length ≤ s.replacer_size_
  total : s.mru_.length + s.mru_ghost_.length + s.mfu_.length + s.mfu_ghost_.length ≤
    (2 * s.replacer_size_) % SIZE_MOD
  mru_sub : ∀ f ∈ s.mru_map_, f ∈ s.mru_
  mfu_sub : ∀ f ∈ s.mfu_map_, f ∈ s.mfu_
  mru_ghost_sub : ∀ p ∈ s.mru_ghost_map_, p ∈ s.mru_ghost_
  mfu_ghost_sub : ∀ p ∈ s.mfu_ghost_map_, p ∈ s.mfu_ghost_

/-- The part of well-formedness that concerns pages: no page id occurs twice
among the pages of the resident frames and the two ghost lists, the ghost
position maps are keyed by their lists and `ghost_map_` by both. -/
structure PageInv (s : ArcReplacer) : Prop where
  pages_nodup : (allPages s).Nodup
  mru_ghost_keys : s.mru_ghost_map_ = s.mru_ghost_.toFinset
  mfu_ghost_keys : s.mfu_ghost_map_ = s.mfu_ghost_.toFinset
  ghost_has : ∀ p ∈ s.mru_ghost_ ++ s.mfu_ghost_, (s.ghost_map_.find p).isSome = true
  ghost_only : ∀ e ∈ s.ghost_map_, e.1 ∈ s.mru_ghost_ ++ s.mfu_ghost_

/-- The state after `RecordAccess(1, 1)`, `RecordAccess(1, 1)`, `Evict()` on a
fresh replacer of capacity 3: page 1 is in `B2` and `p` is 0. -/
def lowTargetState : ArcReplacer :=
  { replacer_size_ := 3
    mru_ := []
    mfu_ := []
    mru_ghost_ := []
    mfu_ghost_ := [1]
    mru_map_ := ∅
    mfu_map_ := ∅
    mru_ghost_map_ := ∅
    mfu_ghost_map_ := {1}
    alive_map_ := []
    ghost_map_ := [(1, ⟨1, 1, true, ArcStatus.MRU⟩)]
    curr_size_ := 0
    mru_target_size_ := 0 }

/-- The state after `RecordAccess(1, 1)`, `Evict()`, `RecordAccess(1, 1)`,
`Evict()`, `RecordAccess(2, 2)`, `Evict()` on a fresh replacer of capacity 1:
page 2 is in `B1`, page 1 in `B2`, and `p` is 1, the capacity. -/
def fullTargetState : ArcReplacer :=
  { replacer_size_ := 1
    mru_ := []
    mfu_ := []
    mru_ghost_ := [2]
    mfu_ghost_ := [1]
    mru_map_ := ∅
    mfu_map_ := ∅
    mru_ghost_map_ := {2}
    mfu_ghost_map_ := {1}
    alive_map_ := []
    ghost_map_ := [(2, ⟨2, 2, true, ArcStatus.MRU⟩), (1, ⟨1, 1, true, ArcStatus.MFU⟩)]
    curr_size_ := 0
    mru_target_size_ := 1 }

/-- The state after `RecordAccess(1, 1)`, `RecordAccess(2, 2)`, `Evict()` on a
fresh replacer of capacity 2: frame 2 in `T1`, page 1 in `B1`. -/
def recencyFullState : ArcReplacer :=
  { replacer_size_ := 2
    mru_ := [2]
    mfu_ := []
    mru_ghost_ := [1]
    mfu_ghost_ := []
    mru_map_ := {2}
    mfu_map_ := ∅
    mru_ghost_map_ := {1}
    mfu_ghost_map_ := ∅
    alive_map_ := [(2, ⟨2, 2, true, ArcStatus.MRU⟩)]
    ghost_map_ := [(1, ⟨1, 1, true, ArcStatus.MRU⟩)]
    curr_size_ := 1
    mru_target_size_ := 0 }

end ArcReplacer

namespace ArcReplacer

/-- Accounting of the evictable flags that needs no pairing of frames and
pages: no two entries of `alive_map_` share a key, the entries flagged
evictable are at most `curr_size_`, and `curr_size_` plus the entries not
flagged evictable is at most the number of listed resident frames. -/
structure FlagInv (s : ArcReplacer) : Prop where
  keys_nodup : (s.alive_map_.map Prod.fst).Nodup
  lower : s.alive_map_.countP (fun e => e.2.evictable_) ≤ s.curr_size_
  upper : s.curr_size_ + s.alive_map_.countP (fun e => !e.2.evictable_) ≤
    s.mru_.length + s.mfu_.length

end ArcReplacer

/-! # Theorems -/

/-! ## Arithmetic of `size_t` and lemmas on maps -/

theorem sizeIncr_of_lt (x : Nat) (h : x + 1 < SIZE_MOD) : sizeIncr x = x + 1 := by
  unfold sizeIncr; exact Nat.mod_eq_of_lt h

theorem sizeDecr_of_pos (x : Nat) (h0 : 0 < x) (h : x < SIZE_MOD) : sizeDecr x = x - 1 := by
  unfold sizeDecr
  have hS : 0 < SIZE_MOD := by unfold SIZE_MOD; norm_num
  have e : x + (SIZE_MOD - 1) = (x - 1) + SIZE_MOD := by omega
  rw [e, Nat.add_mod_right]
  exact Nat.mod_eq_of_lt (by omega)

theorem HMap.find_erase {β : Type} (m : HMap β) (k k' : Int) :
    (HMap.erase m k).find k' = if k' = k then none else m.find k' := by
  induction m with
  | nil => simp [HMap.erase, HMap.find]
  | cons e t ih =>
    obtain ⟨a, v⟩ := e
    unfold HMap.erase at ih ⊢
    by_cases hak : a = k
    · subst hak
      simp only [List.filter, ne_eq, not_true_eq_false, decide_False]
      rw [ih]
      by_cases h : k' = a
      · simp [h]
      · have h2 : ¬ a = k' := fun e => h e.symm
        simp [h, HMap.find, h2]
    · simp only [List.filter, ne_eq, hak, not_false_eq_true, decide_True, HMap.find]
      rw [ih]
      by_cases h : k' = k
      · subst h; simp [hak]
      · simp [h]

theorem HMap.find_insert {β : Type} (m : HMap β) (k k' : Int) (v : β) :
    (HMap.insert m k v).find k' = if k' = k then some v else m.find k' := by
  unfold HMap.insert
  by_cases h : k' = k
  · subst h; simp [HMap.find]
  · have h2 : ¬ k = k' := fun e => h e.symm
    simp [HMap.find, h, h2, HMap.find_erase]

theorem HMap.find_cons {β : Type} (a : Int) (v : β) (t : HMap β) (k : Int) :
    HMap.find ((a, v) :: t) k = if a = k then some v else HMap.find t k := rfl

theorem HMap.modify_cons {β : Type} (a : Int) (v : β) (t : HMap β) (k : Int) (g : β → β) :
    HMap.modify ((a, v) :: t) k g = (if a = k then (a, g v) else (a, v)) :: HMap.modify t k g := rfl

theorem HMap.find_modify {β : Type} (m : HMap β) (k k' : Int) (g : β → β) :
    (HMap.modify m k g).find k' = if k' = k then (m.find k).map g else m.find k' := by
  induction m with
  | nil => simp [HMap.modify, HMap.find]
  | cons e t ih =>
    obtain ⟨a, v⟩ := e
    rw [HMap.modify_cons]
    by_cases hak : a = k
    · subst hak
      rw [if_pos rfl, HMap.find_cons, HMap.find_cons, ih]
      by_cases h : k' = a
      · subst h; simp
      · have h2 : ¬ a = k' := fun e => h e.symm
        simp [h, h2, HMap.find_cons]
    · rw [if_neg hak, HMap.find_cons, HMap.find_cons, ih]
      by_cases h : k' = k
      · subst h; simp [hak, HMap.find_cons]
      · simp [h, HMap.find_cons]

theorem HMap.find_isSome_iff {β : Type} (m : HMap β) (k : Int) :
    (m.find k).isSome = true ↔ ∃ e ∈ m, e.1 = k := by
  induction m with
  | nil => simp [HMap.find]
  | cons e t ih =>
    obtain ⟨a, v⟩ := e
    by_cases hak : a = k
    · simp [HMap.find, hak]
    · simp [HMap.find, hak, ih]

theorem HMap.mem_erase {β : Type} (m : HMap β) (k : Int) (e : Int × β) :
    e ∈ HMap.erase m k ↔ e ∈ m ∧ e.1 ≠ k := by
  simp [HMap.erase]

theorem HMap.mem_insert {β : Type} (m : HMap β) (k : Int) (v : β) (e : Int × β) :
    e ∈ HMap.insert m k v ↔ e = (k, v) ∨ (e ∈ m ∧ e.1 ≠ k) := by
  simp [HMap.insert, HMap.erase]

theorem HMap.mem_modify_fst {β : Type} (m : HMap β) (k : Int) (g : β → β) (e : Int × β)
    (h : e ∈ HMap.modify m k g) : ∃ e0 ∈ m, e0.1 = e.1 := by
  unfold HMap.modify at h
  rw [List.mem_map] at h
  obtain ⟨e0, he0, rfl⟩ := h
  refine ⟨e0, he0, ?_⟩
  split_ifs <;> rfl

/-- Frame lists of 32-bit identifiers without repetition have at most `2 ^ 32` elements. -/
theorem length_le_of_nodup_valid (l : List frame_id_t) (hn : l.Nodup)
    (hv : ∀ f ∈ l, validFrameId f) : l.length ≤ 2 ^ 32 := by
  have hsub : l.toFinset ⊆ Finset.Ico (-(2 ^ 31 : Int)) (2 ^ 31) := by
    intro f hf
    rw [List.mem_toFinset] at hf
    have := hv f hf
    unfold validFrameId at this
    rw [Finset.mem_Ico]; exact this
  have hc := Finset.card_le_card hsub
  rw [List.toFinset_card_of_nodup hn, Int.card_Ico] at hc
  norm_num at hc
  exact hc

/-! ### Accounting lemmas -/

namespace ArcReplacer


theorem flagOf_insert (alive : HMap FrameStatus) (k f : Int) (st : FrameStatus) :
    flagOf (alive.insert k st) f = if f = k then st.evictable_ else flagOf alive f := by
  unfold flagOf
  rw [HMap.find_insert]
  split_ifs <;> rfl

theorem flagOf_erase (alive : HMap FrameStatus) (k f : Int) :
    flagOf (alive.erase k) f = if f = k then false else flagOf alive f := by
  unfold flagOf
  rw [HMap.find_erase]
  split_ifs <;> rfl

theorem countP_of_mem {p : Int → Bool} (l : List Int) (F : Int) (h : F ∈ l) :
    l.countP p = (if p F = true then 1 else 0) + (l.erase F).countP p := by
  rw [(List.perm_cons_erase h).countP_eq p, List.countP_cons]
  omega

theorem Accounted.lt_size {L : List frame_id_t} {alive : HMap FrameStatus} {n : Nat}
    (h : Accounted L alive n) : n ≤ 2 ^ 32 := by
  rw [h.counts]
  exact le_trans (List.countP_le_length _) (length_le_of_nodup_valid L h.nodup h.valid)

/-- Adding a frame that has no `FrameStatus` yet, flagged evictable. -/
theorem Accounted.add {L L' : List frame_id_t} {alive : HMap FrameStatus} {n : Nat}
    (h : Accounted L alive n) (F : frame_id_t) (st : FrameStatus)
    (hF : alive.find F = none) (hv : validFrameId F) (hst : st.evictable_ = true)
    (hp : L'.Perm (F :: L)) : Accounted L' (alive.insert F st) (sizeIncr n) := by
  have hFL : F ∉ L := by
    intro hmem
    have := h.has F hmem
    rw [hF] at this
    simp at this
  have hnd : (F :: L).Nodup := List.nodup_cons.2 ⟨hFL, h.nodup⟩
  have hval : ∀ f ∈ L', validFrameId f := by
    intro f hf
    rcases List.mem_cons.1 (hp.mem_iff.1 hf) with rfl | hf
    · exact hv
    · exact h.valid f hf
  have hnd' : L'.Nodup := hp.nodup_iff.2 hnd
  have hcount : L'.countP (flagOf (alive.insert F st)) = n + 1 := by
    rw [hp.countP_eq, List.countP_cons, flagOf_insert, if_pos rfl, hst, h.counts]
    simp only [if_true]
    congr 1
    apply List.countP_congr
    intro x hx
    have hxF : x ≠ F := fun e => hFL (e ▸ hx)
    rw [flagOf_insert, if_neg hxF]
  have hle : n + 1 ≤ 2 ^ 32 := by
    rw [← hcount]
    exact le_trans (List.countP_le_length _) (length_le_of_nodup_valid L' hnd' hval)
  refine ⟨hnd', ?_, ?_, hval, ?_⟩
  · intro f hf
    rw [HMap.find_insert]
    split_ifs with hfF
    · rfl
    · rcases List.mem_cons.1 (hp.mem_iff.1 hf) with rfl | hf
      · exact absurd rfl hfF
      · exact h.has f hf
  · intro e he
    rw [HMap.mem_insert] at he
    rcases he with rfl | ⟨he, _⟩
    · exact hp.mem_iff.2 (List.mem_cons_self _ _)
    · exact hp.mem_iff.2 (List.mem_cons_of_mem _ (h.only e he))
  · rw [hcount]
    apply sizeIncr_of_lt
    unfold SIZE_MOD
    omega

/-- Dropping a listed frame that is flagged evictable. -/
theorem Accounted.drop {L L' : List frame_id_t} {alive : HMap FrameStatus} {n : Nat}
    (h : Accounted L alive n) (F : frame_id_t) (hev : flagOf alive F = true)
    (hp : L.Perm (F :: L')) : Accounted L' (alive.erase F) (sizeDecr n) := by
  have hnd : (F :: L').Nodup := hp.nodup_iff.1 h.nodup
  have hFL' : F ∉ L' := (List.nodup_cons.1 hnd).1
  have hsub : ∀ f ∈ L', f ∈ L := fun f hf => hp.mem_iff.2 (List.mem_cons_of_mem _ hf)
  have hcount : n = L'.countP (flagOf (alive.erase F)) + 1 := by
    rw [h.counts, hp.countP_eq, List.countP_cons, hev]
    simp only [if_true]
    congr 1
    apply List.countP_congr
    intro x hx
    have hxF : x ≠ F := fun e => hFL' (e ▸ hx)
    rw [flagOf_erase, if_neg hxF]
  have hn := h.lt_size
  refine ⟨(List.nodup_cons.1 hnd).2, ?_, ?_, fun f hf => h.valid f (hsub f hf), ?_⟩
  · intro f hf
    have hfF : f ≠ F := fun e => hFL' (e ▸ hf)
    rw [HMap.find_erase, if_neg hfF]
    exact h.has f (hsub f hf)
  · intro e he
    rw [HMap.mem_erase] at he
    rcases List.mem_cons.1 (hp.mem_iff.1 (h.only e he.1)) with h1 | h1
    · exact absurd h1 he.2
    · exact h1
  · rw [sizeDecr_of_pos n (by omega) (by unfold SIZE_MOD; omega)]
    omega

/-- Reordering the listed frames. -/
theorem Accounted.perm {L L' : List frame_id_t} {alive : HMap FrameStatus} {n : Nat}
    (h : Accounted L alive n) (hp : L'.Perm L) : Accounted L' alive n :=
  ⟨hp.nodup_iff.2 h.nodup, fun f hf => h.has f (hp.mem_iff.1 hf),
    fun e he => hp.mem_iff.2 (h.only e he), fun f hf => h.valid f (hp.mem_iff.1 hf),
    by rw [h.counts, hp.countP_eq]⟩

theorem flagOf_modify (alive : HMap FrameStatus) (k f : Int) (b : Bool) :
    flagOf (alive.modify k (fun st0 => { st0 with evictable_ := b })) f =
      if f = k then (if (alive.find k).isSome then b else false) else flagOf alive f := by
  unfold flagOf
  rw [HMap.find_modify]
  by_cases h1 : f = k
  · rw [if_pos h1, if_pos h1]
    cases hk : alive.find k with
    | none => simp
    | some st => simp
  · rw [if_neg h1, if_neg h1]

/-- Rewriting the evictable flag of a frame that has a `FrameStatus`. -/
theorem Accounted.setFlag {L : List frame_id_t} {alive : HMap FrameStatus} {n : Nat}
    (h : Accounted L alive n) (F : frame_id_t) (st : FrameStatus) (b : Bool)
    (hF : alive.find F = some st) :
    Accounted L (alive.modify F (fun st0 => { st0 with evictable_ := b }))
      (if st.evictable_ = false ∧ b = true then sizeIncr n
       else if st.evictable_ = true ∧ b = false then sizeDecr n else n) := by
  have hFL : F ∈ L := by
    obtain ⟨e, he, rfl⟩ := (HMap.find_isSome_iff alive F).1 (by rw [hF]; rfl)
    exact h.only e he
  have hold : flagOf alive F = st.evictable_ := by unfold flagOf; rw [hF]
  have hrest : (L.erase F).countP (flagOf (alive.modify F (fun st0 => { st0 with evictable_ := b })))
      = (L.erase F).countP (flagOf alive) := by
    apply List.countP_congr
    intro x hx
    have hxF : x ≠ F := fun e => (List.Nodup.mem_erase_iff h.nodup).1 (e ▸ hx) |>.1 rfl
    rw [flagOf_modify, if_neg hxF]
  have hnew : L.countP (flagOf (alive.modify F (fun st0 => { st0 with evictable_ := b })))
      = (if b = true then 1 else 0) + (L.erase F).countP (flagOf alive) := by
    rw [countP_of_mem L F hFL, hrest, flagOf_modify, if_pos rfl, hF]
    simp
  have hcur : n = (if st.evictable_ = true then 1 else 0) + (L.erase F).countP (flagOf alive) := by
    rw [h.counts, countP_of_mem L F hFL, hold]
  have hn := h.lt_size
  have hlen : L.length ≤ 2 ^ 32 := length_le_of_nodup_valid L h.nodup h.valid
  have hrestlt : (L.erase F).countP (flagOf alive) + 1 ≤ L.length := by
    have := @List.countP_le_length _ (flagOf alive) (L.erase F)
    rw [List.length_erase_of_mem hFL] at this
    have hpos : 0 < L.length := List.length_pos_of_mem hFL
    omega
  refine ⟨h.nodup, ?_, ?_, h.valid, ?_⟩
  · intro f hf
    rw [HMap.find_modify]
    split_ifs with hfF
    · rw [hF]; rfl
    · exact h.has f hf
  · intro e he
    obtain ⟨e0, he0, heq⟩ := HMap.mem_modify_fst alive F _ e he
    rw [← heq]
    exact h.only e0 he0
  · rw [hnew]
    cases hb : b <;> cases hs : st.evictable_ <;> simp [hs] at hcur ⊢
    · exact hcur
    · rw [sizeDecr_of_pos n (by omega) (by unfold SIZE_MOD; omega)]; omega
    · rw [sizeIncr_of_lt n (by unfold SIZE_MOD; omega)]; omega
    · omega

end ArcReplacer

/-! ### The helpers of `Evict` -/

namespace ArcReplacer

theorem scanEvictable_eq (alive : HMap FrameStatus) (l : List frame_id_t)
    (h : ∀ f ∈ l, (alive.find f).isSome = true) :
    scanEvictable alive l = .ok (l.find? (flagOf alive)) := by
  induction l with
  | nil => rfl
  | cons f rest ih =>
    have hf := h f (List.mem_cons_self _ _)
    have hrest := ih (fun g hg => h g (List.mem_cons_of_mem _ hg))
    cases hfind : alive.find f with
    | none => rw [hfind] at hf; simp at hf
    | some st =>
      have hflag : flagOf alive f = st.evictable_ := by unfold flagOf; rw [hfind]
      unfold scanEvictable
      rw [List.find?_cons, hflag]
      simp only [hfind]
      cases hst : st.evictable_
      · simpa using hrest
      · simp

theorem scanEvictable_some (alive : HMap FrameStatus) (l : List frame_id_t) (F : frame_id_t)
    (h : scanEvictable alive l = .ok (some F)) : F ∈ l ∧ flagOf alive F = true := by
  induction l with
  | nil => simp [scanEvictable] at h
  | cons f rest ih =>
    unfold scanEvictable at h
    cases hfind : alive.find f with
    | none => rw [hfind] at h; simp at h
    | some st =>
      rw [hfind] at h
      simp only at h
      by_cases hst : st.evictable_ = true
      · rw [if_pos hst] at h
        injection h with h
        injection h with h
        subst h
        exact ⟨List.mem_cons_self _ _, by unfold flagOf; rw [hfind]; exact hst⟩
      · rw [if_neg hst] at h
        exact ⟨List.mem_cons_of_mem _ (ih h).1, (ih h).2⟩

theorem TryGetEvictableFrom_some (s : ArcReplacer) (l : List frame_id_t) (F : frame_id_t)
    (h : TryGetEvictableFrom s l = .ok (some F)) : F ∈ l ∧ isEvictable s F = true := by
  have := scanEvictable_some _ _ _ h
  exact ⟨List.mem_reverse.1 this.1, this.2⟩

theorem TryGetEvictableFrom_eq (s : ArcReplacer) (l : List frame_id_t)
    (h : ∀ f ∈ l, (s.alive_map_.find f).isSome = true) :
    TryGetEvictableFrom s l = .ok (l.reverse.find? (isEvictable s)) :=
  scanEvictable_eq _ _ (fun f hf => h f (List.mem_reverse.1 hf))

/-- What a successful `evictVictim` on the `mru_` side did. -/
theorem evictVictim_mru_ok (s s' : ArcReplacer) (F : frame_id_t) (v : Option frame_id_t)
    (h : evictVictim s F Side.mru = .ok v s') :
    ∃ st, s.alive_map_.find F = some st ∧ s.ghost_map_.find st.page_id_ = none ∧
      F ∈ s.mru_map_ ∧ v = some F ∧
      s' = { s with
        mru_ghost_ := st.page_id_ :: s.mru_ghost_
        mru_ghost_map_ := insert st.page_id_ s.mru_ghost_map_
        ghost_map_ := s.ghost_map_.insert st.page_id_ st
        alive_map_ := s.alive_map_.erase F
        mru_ := s.mru_.erase F
        mru_map_ := s.mru_map_.erase F
        curr_size_ := sizeDecr s.curr_size_ } := by
  unfold evictVictim at h
  cases hfind : s.alive_map_.find F with
  | none => rw [hfind] at h; simp at h
  | some st =>
    rw [hfind] at h
    simp only at h
    unfold Move2Ghost at h
    cases hg : s.ghost_map_.find st.page_id_ with
    | some g => rw [hg] at h; simp at h
    | none =>
      rw [hg, hfind] at h
      simp only [Option.isSome_none, Bool.false_eq_true, if_false] at h
      unfold RemoveFrom at h
      simp only at h
      by_cases hm : F ∈ s.mru_map_
      · rw [if_pos hm] at h
        simp only at h
        injection h with h1 h2
        exact ⟨st, rfl, hg, hm, h1.symm, h2.symm⟩
      · rw [if_neg hm] at h
        simp at h

/-- What a successful `evictVictim` on the `mfu_` side did. -/
theorem evictVictim_mfu_ok (s s' : ArcReplacer) (F : frame_id_t) (v : Option frame_id_t)
    (h : evictVictim s F Side.mfu = .ok v s') :
    ∃ st, s.alive_map_.find F = some st ∧ s.ghost_map_.find st.page_id_ = none ∧
      F ∈ s.mfu_map_ ∧ v = some F ∧
      s' = { s with
        mfu_ghost_ := st.page_id_ :: s.mfu_ghost_
        mfu_ghost_map_ := insert st.page_id_ s.mfu_ghost_map_
        ghost_map_ := s.ghost_map_.insert st.page_id_ st
        alive_map_ := s.alive_map_.erase F
        mfu_ := s.mfu_.erase F
        mfu_map_ := s.mfu_map_.erase F
        curr_size_ := sizeDecr s.curr_size_ } := by
  unfold evictVictim at h
  cases hfind : s.alive_map_.find F with
  | none => rw [hfind] at h; simp at h
  | some st =>
    rw [hfind] at h
    simp only at h
    unfold Move2Ghost at h
    cases hg : s.ghost_map_.find st.page_id_ with
    | some g => rw [hg] at h; simp at h
    | none =>
      rw [hg, hfind] at h
      simp only [Option.isSome_none, Bool.false_eq_true, if_false] at h
      unfold RemoveFrom at h
      simp only at h
      by_cases hm : F ∈ s.mfu_map_
      · rw [if_pos hm] at h
        simp only at h
        injection h with h1 h2
        exact ⟨st, rfl, hg, hm, h1.symm, h2.symm⟩
      · rw [if_neg hm] at h
        simp at h

/-- A successful `Evict` either found nothing and left the state alone, or ran
`evictVictim` on a frame that `TryGetEvictableFrom` returned for that side. -/
theorem Evict_ok (s s' : ArcReplacer) (v : Option frame_id_t) (h : Evict s = .ok v s') :
    (v = none ∧ s' = s ∧ TryGetEvictableFrom s s.mru_ = .ok none ∧
        TryGetEvictableFrom s s.mfu_ = .ok none) ∨
    (∃ F, TryGetEvictableFrom s s.mru_ = .ok (some F) ∧
        evictVictim s F Side.mru = .ok v s') ∨
    (∃ F, TryGetEvictableFrom s s.mfu_ = .ok (some F) ∧
        evictVictim s F Side.mfu = .ok v s') := by
  unfold Evict at h
  split_ifs at h
  · cases h1 : TryGetEvictableFrom s s.mfu_ with
    | error e => rw [h1] at h; simp at h
    | ok r =>
      cases r with
      | some F => rw [h1] at h; exact Or.inr (Or.inr ⟨F, rfl, h⟩)
      | none =>
        rw [h1] at h
        simp only at h
        cases h2 : TryGetEvictableFrom s s.mru_ with
        | error e => rw [h2] at h; simp at h
        | ok r2 =>
          cases r2 with
          | some F => rw [h2] at h; exact Or.inr (Or.inl ⟨F, rfl, h⟩)
          | none =>
            rw [h2] at h
            injection h with ha hb
            exact Or.inl ⟨ha.symm, hb.symm, rfl, rfl⟩
  · cases h1 : TryGetEvictableFrom s s.mru_ with
    | error e => rw [h1] at h; simp at h
    | ok r =>
      cases r with
      | some F => rw [h1] at h; exact Or.inr (Or.inl ⟨F, rfl, h⟩)
      | none =>
        rw [h1] at h
        simp only at h
        cases h2 : TryGetEvictableFrom s s.mfu_ with
        | error e => rw [h2] at h; simp at h
        | ok r2 =>
          cases r2 with
          | some F => rw [h2] at h; exact Or.inr (Or.inr ⟨F, rfl, h⟩)
          | none =>
            rw [h2] at h
            injection h with ha hb
            exact Or.inl ⟨ha.symm, hb.symm, rfl, rfl⟩

end ArcReplacer

/-! ### Every public call keeps the accounting of resident frames -/

namespace ArcReplacer

theorem toFinset_erase_of_nodup (l : List Int) (F : Int) (h : l.Nodup) :
    (l.erase F).toFinset = l.toFinset.erase F := by
  ext x
  rw [List.mem_toFinset, Finset.mem_erase, List.mem_toFinset, h.mem_erase_iff]

theorem ResidentInv.congr {s t : ArcReplacer} (h : ResidentInv s)
    (h1 : t.mru_ = s.mru_) (h2 : t.mfu_ = s.mfu_) (h3 : t.mru_map_ = s.mru_map_)
    (h4 : t.mfu_map_ = s.mfu_map_) (h5 : t.alive_map_ = s.alive_map_)
    (h6 : t.curr_size_ = s.curr_size_) : ResidentInv t := by
  refine ⟨?_, ?_, ?_⟩
  · rw [h1, h2, h5, h6]; exact h.core
  · rw [h1, h3]; exact h.mru_keys
  · rw [h2, h4]; exact h.mfu_keys

theorem ResidentInv.mem_mru {s : ArcReplacer} (h : ResidentInv s) (F : frame_id_t) :
    F ∈ s.mru_map_ ↔ F ∈ s.mru_ := by
  rw [h.mru_keys, List.mem_toFinset]

theorem ResidentInv.mem_mfu {s : ArcReplacer} (h : ResidentInv s) (F : frame_id_t) :
    F ∈ s.mfu_map_ ↔ F ∈ s.mfu_ := by
  rw [h.mfu_keys, List.mem_toFinset]

theorem ResidentInv.mru_distinct {s : ArcReplacer} (h : ResidentInv s) : s.mru_.Nodup :=
  (List.nodup_append.1 h.core.nodup).1

theorem ResidentInv.mfu_distinct {s : ArcReplacer} (h : ResidentInv s) : s.mfu_.Nodup :=
  (List.nodup_append.1 h.core.nodup).2.1

theorem ResidentInv.not_mem_mru_of_mfu {s : ArcReplacer} (h : ResidentInv s) (F : frame_id_t)
    (hF : F ∈ s.mfu_) : F ∉ s.mru_ :=
  fun hm => (List.nodup_append.1 h.core.nodup).2.2 hm hF

theorem perm_erase_mru (mru mfu : List Int) (F : Int) (h : F ∈ mru) :
    (mru ++ mfu).Perm (F :: (mru.erase F ++ mfu)) := by
  have := List.perm_cons_erase (List.mem_append_left mfu h)
  rwa [List.erase_append_left _ h] at this

theorem perm_erase_mfu (mru mfu : List Int) (F : Int) (h : F ∈ mfu) (hn : F ∉ mru) :
    (mru ++ mfu).Perm (F :: (mru ++ mfu.erase F)) := by
  have := List.perm_cons_erase (List.mem_append_right mru h)
  rwa [List.erase_append_right _ hn] at this

theorem ResidentInv.new (C : Nat) : ResidentInv (ArcReplacer.new C) := by
  refine ⟨⟨?_, ?_, ?_, ?_, ?_⟩, ?_, ?_⟩ <;> simp [ArcReplacer.new]

theorem Move2First_inv (s s' : ArcReplacer) (F : frame_id_t) (h : ResidentInv s)
    (hr : Move2First s F = .ok () s') : ResidentInv s' := by
  unfold Move2First at hr
  by_cases h1 : F ∈ s.mru_map_
  · rw [if_pos h1] at hr
    injection hr with _ hr
    subst hr
    have hF := (h.mem_mru F).1 h1
    refine ⟨?_, ?_, ?_⟩
    · apply h.core.perm
      exact List.perm_middle.trans (perm_erase_mru _ _ _ hF).symm
    · show s.mru_map_.erase F = (s.mru_.erase F).toFinset
      rw [toFinset_erase_of_nodup _ _ h.mru_distinct, h.mru_keys]
    · show insert F s.mfu_map_ = (F :: s.mfu_).toFinset
      rw [List.toFinset_cons, h.mfu_keys]
  · rw [if_neg h1] at hr
    by_cases h2 : F ∈ s.mfu_map_
    · rw [if_pos h2] at hr
      injection hr with _ hr
      subst hr
      have hF := (h.mem_mfu F).1 h2
      refine ⟨?_, ?_, ?_⟩
      · apply h.core.perm
        exact List.Perm.append_left _ (List.perm_cons_erase hF).symm
      · exact h.mru_keys
      · show insert F (s.mfu_map_.erase F) = (F :: s.mfu_.erase F).toFinset
        rw [List.toFinset_cons, toFinset_erase_of_nodup _ _ h.mfu_distinct, h.mfu_keys]
    · rw [if_neg h2] at hr
      simp at hr

theorem MoveGhost2First_inv (s s' : ArcReplacer) (F : frame_id_t) (P : page_id_t)
    (h : ResidentInv s) (hF : s.alive_map_.find F = none) (hv : validFrameId F)
    (hr : MoveGhost2First s F P = .ok () s') : ResidentInv s' := by
  unfold MoveGhost2First at hr
  have key : ∀ t : ArcReplacer, t.mru_ = s.mru_ → t.mfu_ = F :: s.mfu_ →
      t.mru_map_ = s.mru_map_ → t.mfu_map_ = insert F s.mfu_map_ →
      t.alive_map_ = s.alive_map_.insert F ⟨P, F, true, ArcStatus.MFU⟩ →
      t.curr_size_ = sizeIncr s.curr_size_ → ResidentInv t := by
    intro t e1 e2 e3 e4 e5 e6
    refine ⟨?_, ?_, ?_⟩
    · rw [e1, e2, e5, e6]
      exact h.core.add F _ hF hv rfl List.perm_middle
    · rw [e1, e3]; exact h.mru_keys
    · rw [e2, e4, List.toFinset_cons, h.mfu_keys]
  by_cases h1 : P ∈ s.mru_ghost_map_
  · rw [if_pos h1] at hr
    injection hr with _ hr
    subst hr
    exact key _ rfl rfl rfl rfl rfl rfl
  · rw [if_neg h1] at hr
    by_cases h2 : P ∈ s.mfu_ghost_map_
    · rw [if_pos h2] at hr
      injection hr with _ hr
      subst hr
      exact key _ rfl rfl rfl rfl rfl rfl
    · rw [if_neg h2] at hr
      simp at hr

theorem pushMru_inv (s : ArcReplacer) (F : frame_id_t) (P : page_id_t)
    (h : ResidentInv s) (hF : s.alive_map_.find F = none) (hv : validFrameId F) :
    ResidentInv (pushMru s F P) := by
  refine ⟨?_, ?_, ?_⟩
  · exact h.core.add F _ hF hv rfl (List.Perm.refl _)
  · show insert F s.mru_map_ = (F :: s.mru_).toFinset
    rw [List.toFinset_cons, h.mru_keys]
  · exact h.mfu_keys

theorem RecordAccess_inv (s s' : ArcReplacer) (F : frame_id_t) (P : page_id_t)
    (a : AccessType) (h : ResidentInv s) (hpair : pairedCall s (Op.RecordAccess F P a))
    (hv : validFrameId F) (hr : RecordAccess s F P a = .ok () s') : ResidentInv s' := by
  unfold RecordAccess at hr
  by_cases hhit : (LookUp s F P).isSome = true
  · rw [if_pos hhit] at hr
    exact Move2First_inv s s' F h hr
  · rw [if_neg hhit] at hr
    have hF : s.alive_map_.find F = none := by
      cases hfind : s.alive_map_.find F with
      | none => rfl
      | some st =>
        exfalso
        apply hhit
        simp only [pairedCall, hfind] at hpair
        simp [LookUp, hfind, hpair]
    have gs : ∀ t : ArcReplacer, MoveGhost2First t F P = .ok () s' →
        t.mru_ = s.mru_ → t.mfu_ = s.mfu_ →
        t.mru_map_ = s.mru_map_ → t.mfu_map_ = s.mfu_map_ →
        t.alive_map_ = s.alive_map_ → t.curr_size_ = s.curr_size_ → ResidentInv s' :=
      fun t ht e1 e2 e3 e4 e5 e6 =>
        MoveGhost2First_inv t s' F P (h.congr e1 e2 e3 e4 e5 e6) (by rw [e5]; exact hF) hv ht
    have ps : ∀ t : ArcReplacer, pushMru t F P = s' →
        t.mru_ = s.mru_ → t.mfu_ = s.mfu_ →
        t.mru_map_ = s.mru_map_ → t.mfu_map_ = s.mfu_map_ →
        t.alive_map_ = s.alive_map_ → t.curr_size_ = s.curr_size_ → ResidentInv s' :=
      fun t ht e1 e2 e3 e4 e5 e6 =>
        ht ▸ pushMru_inv t F P (h.congr e1 e2 e3 e4 e5 e6) (by rw [e5]; exact hF) hv
    by_cases hg : (LookUpGhost s F P).isSome = true
    · rw [if_pos hg] at hr
      by_cases h1 : P ∈ s.mru_ghost_map_
      · rw [if_pos h1] at hr
        by_cases h2 : s.mru_ghost_.length ≥ s.mfu_ghost_.length
        · rw [if_pos h2] at hr
          exact gs _ hr rfl rfl rfl rfl rfl rfl
        · rw [if_neg h2] at hr
          by_cases h3 : s.mru_ghost_.length = 0
          · rw [if_pos h3] at hr; simp at hr
          · rw [if_neg h3] at hr
            exact gs _ hr rfl rfl rfl rfl rfl rfl
      · rw [if_neg h1] at hr
        by_cases h1' : P ∈ s.mfu_ghost_map_
        · rw [if_pos h1'] at hr
          by_cases h2 : s.mfu_ghost_.length ≥ s.mru_ghost_.length
          · rw [if_pos h2] at hr
            exact gs _ hr rfl rfl rfl rfl rfl rfl
          · rw [if_neg h2] at hr
            by_cases h3 : s.mfu_ghost_.length = 0
            · rw [if_pos h3] at hr; simp at hr
            · rw [if_neg h3] at hr
              exact gs _ hr rfl rfl rfl rfl rfl rfl
        · rw [if_neg h1'] at hr; simp at hr
    · rw [if_neg hg] at hr
      by_cases h1 : s.mru_.length + s.mru_ghost_.length = s.replacer_size_
      · rw [if_pos h1] at hr
        cases hl : s.mru_ghost_.getLast? with
        | none => rw [hl] at hr; simp at hr
        | some last =>
          rw [hl] at hr
          injection hr with _ hr
          exact ps _ hr rfl rfl rfl rfl rfl rfl
      · rw [if_neg h1] at hr
        by_cases h2 : s.mru_.length + s.mru_ghost_.length < s.replacer_size_
        · rw [if_pos h2] at hr
          dsimp only at hr
          by_cases h3 : s.mru_.length + s.mru_ghost_.length + s.mfu_.length +
              s.mfu_ghost_.length = (2 * s.replacer_size_) % SIZE_MOD
          · rw [if_pos h3] at hr
            cases hl : s.mfu_ghost_.getLast? with
            | none => rw [hl] at hr; simp at hr
            | some last =>
              rw [hl] at hr
              injection hr with _ hr
              exact ps _ hr rfl rfl rfl rfl rfl rfl
          · rw [if_neg h3] at hr
            injection hr with _ hr
            exact ps _ hr rfl rfl rfl rfl rfl rfl
        · rw [if_neg h2] at hr; simp at hr

theorem SetEvictable_inv (s s' : ArcReplacer) (F : frame_id_t) (b : Bool)
    (h : ResidentInv s) (hr : SetEvictable s F b = .ok () s') : ResidentInv s' := by
  unfold SetEvictable at hr
  cases hfind : s.alive_map_.find F with
  | none => rw [hfind] at hr; simp at hr
  | some st =>
    rw [hfind] at hr
    injection hr with _ hr
    subst hr
    exact ⟨h.core.setFlag F st b hfind, h.mru_keys, h.mfu_keys⟩

theorem Evict_inv (s s' : ArcReplacer) (v : Option frame_id_t)
    (h : ResidentInv s) (hr : Evict s = .ok v s') : ResidentInv s' := by
  rcases Evict_ok s s' v hr with ⟨_, rfl, _, _⟩ | ⟨F, hF, hv⟩ | ⟨F, hF, hv⟩
  · exact h
  · obtain ⟨hmem, hev⟩ := TryGetEvictableFrom_some s _ F hF
    obtain ⟨st, _, _, _, _, rfl⟩ := evictVictim_mru_ok s s' F v hv
    refine ⟨?_, ?_, h.mfu_keys⟩
    · exact h.core.drop F hev (perm_erase_mru _ _ _ hmem)
    · show s.mru_map_.erase F = (s.mru_.erase F).toFinset
      rw [toFinset_erase_of_nodup _ _ h.mru_distinct, h.mru_keys]
  · obtain ⟨hmem, hev⟩ := TryGetEvictableFrom_some s _ F hF
    obtain ⟨st, _, _, _, _, rfl⟩ := evictVictim_mfu_ok s s' F v hv
    refine ⟨?_, h.mru_keys, ?_⟩
    · exact h.core.drop F hev (perm_erase_mfu _ _ _ hmem (h.not_mem_mru_of_mfu F hmem))
    · show s.mfu_map_.erase F = (s.mfu_.erase F).toFinset
      rw [toFinset_erase_of_nodup _ _ h.mfu_distinct, h.mfu_keys]

theorem Remove_inv (s s' : ArcReplacer) (F : frame_id_t)
    (h : ResidentInv s) (hr : Remove s F = .ok () s') : ResidentInv s' := by
  unfold Remove at hr
  cases hfind : s.alive_map_.find F with
  | none =>
    rw [hfind] at hr
    injection hr with _ hr
    subst hr
    exact h
  | some st =>
    rw [hfind] at hr
    simp only at hr
    have hFL : F ∈ s.mru_ ++ s.mfu_ := by
      obtain ⟨e, he, rfl⟩ := (HMap.find_isSome_iff s.alive_map_ F).1 (by rw [hfind]; rfl)
      exact h.core.only e he
    by_cases hst : st.evictable_ = false
    · rw [if_pos hst] at hr; simp at hr
    · rw [if_neg hst] at hr
      have hev : flagOf s.alive_map_ F = true := by
        unfold flagOf; rw [hfind]; simpa using hst
      by_cases h1 : F ∈ s.mru_map_
      · rw [if_pos h1] at hr
        injection hr with _ hr
        subst hr
        have hmem := (h.mem_mru F).1 h1
        refine ⟨?_, ?_, h.mfu_keys⟩
        · exact h.core.drop F hev (perm_erase_mru _ _ _ hmem)
        · show s.mru_map_.erase F = (s.mru_.erase F).toFinset
          rw [toFinset_erase_of_nodup _ _ h.mru_distinct, h.mru_keys]
      · rw [if_neg h1] at hr
        have hmem : F ∈ s.mfu_ := by
          rcases List.mem_append.1 hFL with hm | hm
          · exact absurd ((h.mem_mru F).2 hm) h1
          · exact hm
        rw [if_pos ((h.mem_mfu F).2 hmem)] at hr
        injection hr with _ hr
        subst hr
        refine ⟨?_, h.mru_keys, ?_⟩
        · exact h.core.drop F hev (perm_erase_mfu _ _ _ hmem (h.not_mem_mru_of_mfu F hmem))
        · show s.mfu_map_.erase F = (s.mfu_.erase F).toFinset
          rw [toFinset_erase_of_nodup _ _ h.mfu_distinct, h.mfu_keys]

theorem call_inv (s s' : ArcReplacer) (op : Op) (h : ResidentInv s)
    (hpair : pairedCall s op) (hv : frameInRange op) (hr : call s op = some s') :
    ResidentInv s' := by
  cases op with
  | RecordAccess f p a =>
    simp only [call] at hr
    cases ho : RecordAccess s f p a with
    | raise e t => rw [ho] at hr; simp at hr
    | ok u t =>
      rw [ho] at hr
      injection hr with hr
      subst hr
      exact RecordAccess_inv s t f p a h hpair hv ho
  | SetEvictable f b =>
    simp only [call] at hr
    cases ho : SetEvictable s f b with
    | raise e t => rw [ho] at hr; simp at hr
    | ok u t =>
      rw [ho] at hr
      injection hr with hr
      subst hr
      exact SetEvictable_inv s t f b h ho
  | Evict =>
    simp only [call] at hr
    cases ho : Evict s with
    | raise e t => rw [ho] at hr; simp at hr
    | ok u t =>
      rw [ho] at hr
      injection hr with hr
      subst hr
      exact Evict_inv s t u h ho
  | Remove f =>
    simp only [call] at hr
    cases ho : Remove s f with
    | raise e t => rw [ho] at hr; simp at hr
    | ok u t =>
      rw [ho] at hr
      injection hr with hr
      subst hr
      exact Remove_inv s t f h ho

theorem run_inv (ops : List Op) : ∀ (s s' : ArcReplacer), ResidentInv s →
    pairedRun s ops → (∀ op ∈ ops, frameInRange op) → run s ops = some s' →
    ResidentInv s' := by
  induction ops with
  | nil =>
    intro s s' h _ _ hr
    simp only [run] at hr
    injection hr with hr
    subst hr
    exact h
  | cons op rest ih =>
    intro s s' h hp hv hr
    simp only [run] at hr
    simp only [pairedRun] at hp
    cases hc : call s op with
    | none => rw [hc] at hr; simp at hr
    | some s1 =>
      rw [hc] at hr hp
      exact ih s1 s' (call_inv s s1 op h hp.1 (hv op (List.mem_cons_self _ _)) hc) hp.2
        (fun o ho => hv o (List.mem_cons_of_mem _ ho)) hr

theorem ResidentInv.size_eq {s : ArcReplacer} (h : ResidentInv s) :
    s.curr_size_ = evictableCount s := by
  unfold evictableCount
  rw [List.dedup_eq_self.2 h.core.nodup, h.core.counts, List.countP_eq_length_filter]
  rfl

end ArcReplacer

/-! ## Size accounting over call sequences (C1) -/

namespace ArcReplacer

/-- The state `sampleMid` is reached from a fresh replacer of capacity 3 by the
first six calls of `sampleCalls`, and it is well formed. -/
theorem sampleMid_reachable :
    run (ArcReplacer.new 3) (sampleCalls.take 6) = some sampleMid ∧ WellFormed sampleMid := by
  decide

/-- C1, as stated, fails: on a fresh replacer of capacity 2 the calls
`RecordAccess(1, 1)`, `RecordAccess(1, 2)` both complete, after which `Size()`
is 2 while only one distinct frame id is resident and evictable. -/
theorem size_overcounts_reused_frame :
    run (ArcReplacer.new 2)
        [Op.RecordAccess 1 1 AccessType.Unknown, Op.RecordAccess 1 2 AccessType.Unknown]
      = some reusedFrameState ∧
    reusedFrameState.Size = 2 ∧ evictableCount reusedFrameState = 1 := by
  decide

/-- C1 (amended): for every capacity and every finite sequence of public calls
with 32-bit frame ids on a fresh replacer, all completing without raising, in
which no `RecordAccess(F, P)` is issued while `F` is resident holding a page
other than `P`, `Size()` equals the number of distinct frame ids in
`mru_ ∪ mfu_` whose `FrameStatus` has the evictable flag true. -/
theorem size_counts_evictable_frames (C : Nat) (ops : List Op) (s : ArcReplacer)
    (hrange : ∀ op ∈ ops, frameInRange op)
    (hpair : pairedRun (ArcReplacer.new C) ops)
    (hrun : run (ArcReplacer.new C) ops = some s) :
    s.Size = evictableCount s :=
  (run_inv ops (ArcReplacer.new C) s (ResidentInv.new C) hpair hrange hrun).size_eq

/-- The amended C1 applied to `sampleCalls` on a replacer of capacity 3. -/
theorem size_counts_evictable_frames_witness :
    (∀ op ∈ sampleCalls, frameInRange op) ∧
    pairedRun (ArcReplacer.new 3) sampleCalls ∧
    run (ArcReplacer.new 3) sampleCalls = some sampleFinal ∧
    sampleFinal.Size = evictableCount sampleFinal :=
  ⟨by decide, by decide, by decide,
    size_counts_evictable_frames 3 sampleCalls sampleFinal (by decide) (by decide) (by decide)⟩

end ArcReplacer

/-! ## The value `Evict` returns (C2) -/

namespace ArcReplacer

theorem WellFormed.mem_mru_map {s : ArcReplacer} (h : WellFormed s) (F : frame_id_t) :
    F ∈ s.mru_map_ ↔ F ∈ s.mru_ := by
  rw [h.mru_keys, List.mem_toFinset]

theorem WellFormed.mem_mfu_map {s : ArcReplacer} (h : WellFormed s) (F : frame_id_t) :
    F ∈ s.mfu_map_ ↔ F ∈ s.mfu_ := by
  rw [h.mfu_keys, List.mem_toFinset]

theorem WellFormed.mem_side {s : ArcReplacer} (_h : WellFormed s) (side : Side)
    (F : frame_id_t) (hF : F ∈ s.residentList side) : F ∈ s.mru_ ++ s.mfu_ := by
  cases side
  · exact List.mem_append_left _ hF
  · exact List.mem_append_right _ hF

theorem WellFormed.tryGet {s : ArcReplacer} (h : WellFormed s) (side : Side) :
    TryGetEvictableFrom s (s.residentList side) =
      .ok (nearestTailEvictable s (s.residentList side)) :=
  TryGetEvictableFrom_eq s _ (fun f hf => h.alive_has f (h.mem_side side f hf))

theorem nearestTailEvictable_some (s : ArcReplacer) (l : List frame_id_t) (F : frame_id_t)
    (h : nearestTailEvictable s l = some F) : F ∈ l ∧ isEvictable s F = true := by
  unfold nearestTailEvictable at h
  exact ⟨List.mem_reverse.1 (List.mem_of_find?_eq_some h), List.find?_some h⟩

theorem nearestTailEvictable_none (s : ArcReplacer) (l : List frame_id_t) :
    nearestTailEvictable s l = none ↔ ∀ f ∈ l, isEvictable s f = false := by
  unfold nearestTailEvictable
  rw [List.find?_eq_none]
  constructor
  · intro h f hf
    simpa using h f (List.mem_reverse.2 hf)
  · intro h f hf
    simpa using h f (List.mem_reverse.1 hf)

/-- In a well-formed state `evictVictim` on a listed frame either raises
"Unexpected state(7)" before changing anything, or succeeds. -/
theorem WellFormed.evictVictim_cases {s : ArcReplacer} (h : WellFormed s) (side : Side)
    (F : frame_id_t) (hF : F ∈ s.residentList side) :
    ∃ st, s.alive_map_.find F = some st ∧
      (((s.ghost_map_.find st.page_id_).isSome = true ∧
          evictVictim s F side = .raise Fault.state7 s) ∨
       (s.ghost_map_.find st.page_id_ = none ∧
          ∃ s', evictVictim s F side = .ok (some F) s')) := by
  have hsome := h.alive_has F (h.mem_side side F hF)
  cases hfind : s.alive_map_.find F with
  | none => rw [hfind] at hsome; simp at hsome
  | some st =>
    refine ⟨st, rfl, ?_⟩
    cases hg : s.ghost_map_.find st.page_id_ with
    | some g =>
      left
      refine ⟨rfl, ?_⟩
      simp [evictVictim, hfind, Move2Ghost, hg]
    | none =>
      right
      refine ⟨rfl, ?_⟩
      cases side with
      | mru =>
        have hm : F ∈ s.mru_map_ := (h.mem_mru_map F).2 hF
        simp [evictVictim, hfind, Move2Ghost, hg, RemoveFrom, hm]
      | mfu =>
        have hm : F ∈ s.mfu_map_ := (h.mem_mfu_map F).2 hF
        simp [evictVictim, hfind, Move2Ghost, hg, RemoveFrom, hm]

/-- In a well-formed state `Evict` scans the preferred side, then the other. -/
theorem WellFormed.Evict_eq {s : ArcReplacer} (h : WellFormed s) :
    Evict s =
      match nearestTailEvictable s (s.residentList (specPreferredSide s)) with
      | some F => evictVictim s F (specPreferredSide s)
      | none =>
        match nearestTailEvictable s (s.residentList (otherSide (specPreferredSide s))) with
        | some F => evictVictim s F (otherSide (specPreferredSide s))
        | none => .ok none s := by
  have e1 := h.tryGet Side.mru
  have e2 := h.tryGet Side.mfu
  simp only [residentList] at e1 e2
  unfold Evict specPreferredSide
  by_cases hc : s.mru_.length < s.mru_target_size_
  · simp only [if_pos hc, otherSide, residentList, e1, e2]
    cases nearestTailEvictable s s.mfu_ with
    | some F => rfl
    | none =>
      cases nearestTailEvictable s s.mru_ with
      | some F => rfl
      | none => rfl
  · simp only [if_neg hc, otherSide, residentList, e1, e2]
    cases nearestTailEvictable s s.mru_ with
    | some F => rfl
    | none =>
      cases nearestTailEvictable s s.mfu_ with
      | some F => rfl
      | none => rfl

theorem mem_resident_iff (s : ArcReplacer) (f : frame_id_t) :
    f ∈ s.mru_ ++ s.mfu_ ↔
      f ∈ s.residentList (specPreferredSide s) ∨
        f ∈ s.residentList (otherSide (specPreferredSide s)) := by
  rw [List.mem_append]
  cases specPreferredSide s
  · simp [residentList, otherSide]
  · simp only [residentList, otherSide]; exact or_comm

/-- C2, as stated, fails: the state reached from a fresh replacer of capacity 3
by `RecordAccess(1, 1)`, `RecordAccess(2, 1)`, `Evict()` is well formed and the
evictable frame nearest the tail of the preferred side is frame 2, yet `Evict`
raises "Unexpected state(7)" instead of returning it, because page 1 is already
a key of `ghost_map_`. -/
theorem Evict_raises_on_ghosted_page :
    run (ArcReplacer.new 3)
        [Op.RecordAccess 1 1 AccessType.Unknown, Op.RecordAccess 2 1 AccessType.Unknown,
          Op.Evict] = some ghostedPageState ∧
    WellFormed ghostedPageState ∧ specEvict ghostedPageState = some 2 ∧
    Evict ghostedPageState = .raise Fault.state7 ghostedPageState := by
  decide

/-- C2 (amended): in every well-formed state let `v` be the evictable frame
nearest the tail of the preferred side (`mfu_` if `|mru_| < mru_target_size_`,
else `mru_`) if one exists, otherwise the one nearest the tail of the other side
if one exists, otherwise none.  If `v` is none `Evict` returns none and changes
nothing.  If `v` is a frame, `Evict` returns exactly that frame, unless the page
it holds is already a key of `ghost_map_`, in which case `Evict` raises
"Unexpected state(7)" and changes nothing.  `Evict` returns none if and only if
no resident frame is evictable, and when the preferred side is entirely pinned a
returned victim comes from the other side. -/
theorem Evict_returns_spec_victim (s : ArcReplacer) (h : WellFormed s) :
    (specEvict s = none → Evict s = .ok none s) ∧
    (∀ F, specEvict s = some F → ∃ st, s.alive_map_.find F = some st ∧
      (((s.ghost_map_.find st.page_id_).isSome = true ∧
          Evict s = .raise Fault.state7 s) ∨
       (s.ghost_map_.find st.page_id_ = none ∧ ∃ s', Evict s = .ok (some F) s'))) ∧
    ((∃ s', Evict s = .ok none s') ↔ ∀ f ∈ s.mru_ ++ s.mfu_, isEvictable s f = false) ∧
    (∀ F s', (∀ f ∈ s.residentList (specPreferredSide s), isEvictable s f = false) →
      Evict s = .ok (some F) s' →
      F ∈ s.residentList (otherSide (specPreferredSide s))) := by
  have hE := h.Evict_eq
  have key : ∀ side F, nearestTailEvictable s (s.residentList side) = some F →
      ∃ st, s.alive_map_.find F = some st ∧
        (((s.ghost_map_.find st.page_id_).isSome = true ∧
            evictVictim s F side = .raise Fault.state7 s) ∨
         (s.ghost_map_.find st.page_id_ = none ∧
            ∃ s', evictVictim s F side = .ok (some F) s')) :=
    fun side F hn => h.evictVictim_cases side F (nearestTailEvictable_some s _ F hn).1
  have hnone : specEvict s = none ↔ ∀ f ∈ s.mru_ ++ s.mfu_, isEvictable s f = false := by
    unfold specEvict
    constructor
    · intro hs f hf
      cases h1 : nearestTailEvictable s (s.residentList (specPreferredSide s)) with
      | some F => rw [h1] at hs; simp at hs
      | none =>
        rw [h1] at hs
        simp only at hs
        rcases (mem_resident_iff s f).1 hf with hf | hf
        · exact (nearestTailEvictable_none s _).1 h1 f hf
        · exact (nearestTailEvictable_none s _).1 hs f hf
    · intro hall
      have h1 := (nearestTailEvictable_none s (s.residentList (specPreferredSide s))).2
        (fun f hf => hall f ((mem_resident_iff s f).2 (Or.inl hf)))
      have h2 := (nearestTailEvictable_none s
        (s.residentList (otherSide (specPreferredSide s)))).2
        (fun f hf => hall f ((mem_resident_iff s f).2 (Or.inr hf)))
      rw [h1]
      exact h2
  have hspec : ∀ F, specEvict s = some F → ∃ st, s.alive_map_.find F = some st ∧
      (((s.ghost_map_.find st.page_id_).isSome = true ∧
          Evict s = .raise Fault.state7 s) ∨
       (s.ghost_map_.find st.page_id_ = none ∧ ∃ s', Evict s = .ok (some F) s')) := by
    intro F hs
    unfold specEvict at hs
    cases h1 : nearestTailEvictable s (s.residentList (specPreferredSide s)) with
    | some G =>
      rw [h1] at hs hE
      injection hs with hs
      subst hs
      simp only at hE
      rw [hE]
      exact key _ G h1
    | none =>
      rw [h1] at hs hE
      simp only at hs hE
      rw [hs] at hE
      simp only at hE
      rw [hE]
      exact key _ F hs
  have hret_none : specEvict s = none → Evict s = .ok none s := by
    intro hs
    unfold specEvict at hs
    cases h1 : nearestTailEvictable s (s.residentList (specPreferredSide s)) with
    | some G => rw [h1] at hs; simp at hs
    | none =>
      rw [h1] at hs hE
      simp only at hs hE
      rw [hs] at hE
      exact hE
  refine ⟨hret_none, hspec, ?_, ?_⟩
  · constructor
    · rintro ⟨s', hs'⟩
      apply hnone.1
      cases hsp : specEvict s with
      | none => rfl
      | some F =>
        obtain ⟨st, _, ⟨_, hr⟩ | ⟨_, s'', hr⟩⟩ := hspec F hsp
        · rw [hr] at hs'; simp at hs'
        · rw [hr] at hs'; simp at hs'
    · intro hall
      exact ⟨s, hret_none (hnone.2 hall)⟩
  · intro F s' hpin hr
    have h1 := (nearestTailEvictable_none s _).2 hpin
    rw [h1] at hE
    simp only at hE
    cases h2 : nearestTailEvictable s (s.residentList (otherSide (specPreferredSide s))) with
    | none =>
      rw [h2] at hE
      rw [hE] at hr
      simp at hr
    | some G =>
      rw [h2] at hE
      simp only at hE
      obtain ⟨st, _, ⟨_, hr'⟩ | ⟨_, s'', hr'⟩⟩ := key _ G h2
      · rw [hE, hr'] at hr; simp at hr
      · rw [hE, hr'] at hr
        injection hr with hr _
        injection hr with hr
        subst hr
        exact (nearestTailEvictable_some s _ G h2).1

end ArcReplacer

namespace ArcReplacer

/-- The amended C2 at `sampleMid`, where the preferred side `mru_` holds only
the pinned frame 2 and the victim is frame 1 of `mfu_`. -/
theorem Evict_returns_spec_victim_witness :
    WellFormed sampleMid ∧
    ((specEvict sampleMid = none → Evict sampleMid = .ok none sampleMid) ∧
    (∀ F, specEvict sampleMid = some F → ∃ st, sampleMid.alive_map_.find F = some st ∧
      (((sampleMid.ghost_map_.find st.page_id_).isSome = true ∧
          Evict sampleMid = .raise Fault.state7 sampleMid) ∨
       (sampleMid.ghost_map_.find st.page_id_ = none ∧
          ∃ s', Evict sampleMid = .ok (some F) s'))) ∧
    ((∃ s', Evict sampleMid = .ok none s') ↔
      ∀ f ∈ sampleMid.mru_ ++ sampleMid.mfu_, isEvictable sampleMid f = false) ∧
    (∀ F s', (∀ f ∈ sampleMid.residentList (specPreferredSide sampleMid),
        isEvictable sampleMid f = false) →
      Evict sampleMid = .ok (some F) s' →
      F ∈ sampleMid.residentList (otherSide (specPreferredSide sampleMid)))) :=
  ⟨by decide, Evict_returns_spec_victim sampleMid (by decide)⟩

end ArcReplacer

/-! ## The effect of `Evict` (C3) -/

namespace ArcReplacer

theorem WellFormed.mru_nodup {s : ArcReplacer} (h : WellFormed s) : s.mru_.Nodup :=
  (List.nodup_append.1 h.frames_nodup).1

theorem WellFormed.mfu_nodup {s : ArcReplacer} (h : WellFormed s) : s.mfu_.Nodup :=
  (List.nodup_append.1 h.frames_nodup).2.1

theorem WellFormed.not_both {s : ArcReplacer} (h : WellFormed s) (F : frame_id_t)
    (h1 : F ∈ s.mru_) (h2 : F ∈ s.mfu_) : False :=
  (List.nodup_append.1 h.frames_nodup).2.2 h1 h2

theorem erase_eq_filter_ne (l : List Int) (F : Int) (h : l.Nodup) :
    l.erase F = l.filter (fun G => decide (G ≠ F)) := by
  rw [h.erase_eq_filter]
  apply List.filter_congr
  intro x _
  by_cases hx : x = F
  · simp [hx]
  · simp [hx]

theorem filter_ne_of_not_mem (l : List Int) (F : Int) (h : F ∉ l) :
    l.filter (fun G => decide (G ≠ F)) = l := by
  rw [List.filter_eq_self]
  intro x hx
  have : x ≠ F := fun e => h (e ▸ hx)
  simpa using this

/-- A resident evictable frame makes the count of evictable frames positive. -/
theorem evictableCount_pos (s : ArcReplacer) (F : frame_id_t) (hF : F ∈ s.mru_ ++ s.mfu_)
    (hev : isEvictable s F = true) : 0 < evictableCount s := by
  unfold evictableCount
  have hmem : F ∈ (s.mru_ ++ s.mfu_).dedup.filter (isEvictable s) := by
    rw [List.mem_filter]
    exact ⟨List.mem_dedup.2 hF, hev⟩
  exact List.length_pos_of_mem hmem

theorem WellFormed.size_decr {s : ArcReplacer} (h : WellFormed s) (F : frame_id_t)
    (hF : F ∈ s.mru_ ++ s.mfu_) (hev : isEvictable s F = true) :
    sizeDecr s.curr_size_ + 1 = s.curr_size_ := by
  have hpos : 0 < s.curr_size_ := by
    rw [h.size_counts]; exact evictableCount_pos s F hF hev
  rw [sizeDecr_of_pos _ hpos h.size_word]
  omega

theorem WellFormed.ghost_not_mem {s : ArcReplacer} (h : WellFormed s) (P : page_id_t)
    (hP : s.ghost_map_.find P = none) : P ∉ s.mru_ghost_ ∧ P ∉ s.mfu_ghost_ := by
  have : P ∉ s.mru_ghost_ ++ s.mfu_ghost_ := by
    intro hm
    have := h.ghost_has P hm
    rw [hP] at this
    simp at this
  exact ⟨fun hm => this (List.mem_append_left _ hm), fun hm => this (List.mem_append_right _ hm)⟩

theorem isEvictable_find (s : ArcReplacer) (F : frame_id_t) (st : FrameStatus)
    (hfind : s.alive_map_.find F = some st) : isEvictable s F = st.evictable_ := by
  unfold isEvictable flagOf
  rw [hfind]

/-- C3: in a well-formed state, if `Evict` returns a frame `F` then `F` was
resident with its evictable flag true; afterwards `F` is in neither `mru_` nor
`mfu_` and has no entry in `alive_map_`; the page `F` held is at the head of
`mru_ghost_` if `F` was in `mru_` and at the head of `mfu_ghost_` if `F` was
in `mfu_`, the other ghost list is unchanged and the page was in neither ghost
list before; `Size()` is exactly one less; `mru_target_size_`, the other resident
frames (in their order) and their `FrameStatus` are unchanged.  If `Evict`
returns none the whole state is unchanged. -/
theorem Evict_effect (s : ArcReplacer) (h : WellFormed s) :
    (∀ F s', Evict s = .ok (some F) s' →
      ∃ st, s.alive_map_.find F = some st ∧ st.evictable_ = true ∧
        (F ∈ s.mru_ ∨ F ∈ s.mfu_) ∧
        F ∉ s'.mru_ ∧ F ∉ s'.mfu_ ∧ s'.alive_map_.find F = none ∧
        (F ∈ s.mru_ → s'.mru_ghost_ = st.page_id_ :: s.mru_ghost_ ∧
          s'.mfu_ghost_ = s.mfu_ghost_) ∧
        (F ∈ s.mfu_ → s'.mfu_ghost_ = st.page_id_ :: s.mfu_ghost_ ∧
          s'.mru_ghost_ = s.mru_ghost_) ∧
        st.page_id_ ∉ s.mru_ghost_ ∧ st.page_id_ ∉ s.mfu_ghost_ ∧
        s'.Size + 1 = s.Size ∧
        s'.mru_target_size_ = s.mru_target_size_ ∧
        s'.mru_ = s.mru_.filter (fun G => decide (G ≠ F)) ∧
        s'.mfu_ = s.mfu_.filter (fun G => decide (G ≠ F)) ∧
        (∀ G, G ≠ F → s'.alive_map_.find G = s.alive_map_.find G)) ∧
    (∀ s', Evict s = .ok none s' → s' = s) := by
  constructor
  · intro F s' hr
    rcases Evict_ok s s' (some F) hr with ⟨hv, _⟩ | ⟨G, hG, hv⟩ | ⟨G, hG, hv⟩
    · simp at hv
    · obtain ⟨hmem, hev⟩ := TryGetEvictableFrom_some s _ G hG
      obtain ⟨st, hfind, hgh, _, hFG, rfl⟩ := evictVictim_mru_ok s s' G (some F) hv
      injection hFG with hFG
      subst hFG
      have hnm : F ∉ s.mfu_ := fun hm => h.not_both F hmem hm
      refine ⟨st, hfind, ?_, Or.inl hmem, ?_, hnm, ?_, ?_, ?_, (h.ghost_not_mem _ hgh).1,
        (h.ghost_not_mem _ hgh).2, ?_, rfl, ?_, ?_, ?_⟩
      · rw [← isEvictable_find s F st hfind]; exact hev
      · show F ∉ s.mru_.erase F
        rw [h.mru_nodup.mem_erase_iff]
        exact fun hx => hx.1 rfl
      · show (s.alive_map_.erase F).find F = none
        rw [HMap.find_erase, if_pos rfl]
      · intro _; exact ⟨rfl, rfl⟩
      · intro hm; exact absurd hm hnm
      · show sizeDecr s.curr_size_ + 1 = s.curr_size_
        exact h.size_decr F (List.mem_append_left _ hmem) hev
      · exact erase_eq_filter_ne _ _ h.mru_nodup
      · exact (filter_ne_of_not_mem _ _ hnm).symm
      · intro G hG
        show (s.alive_map_.erase F).find G = _
        rw [HMap.find_erase, if_neg hG]
    · obtain ⟨hmem, hev⟩ := TryGetEvictableFrom_some s _ G hG
      obtain ⟨st, hfind, hgh, _, hFG, rfl⟩ := evictVictim_mfu_ok s s' G (some F) hv
      injection hFG with hFG
      subst hFG
      have hnm : F ∉ s.mru_ := fun hm => h.not_both F hm hmem
      refine ⟨st, hfind, ?_, Or.inr hmem, hnm, ?_, ?_, ?_, ?_, (h.ghost_not_mem _ hgh).1,
        (h.ghost_not_mem _ hgh).2, ?_, rfl, ?_, ?_, ?_⟩
      · rw [← isEvictable_find s F st hfind]; exact hev
      · show F ∉ s.mfu_.erase F
        rw [h.mfu_nodup.mem_erase_iff]
        exact fun hx => hx.1 rfl
      · show (s.alive_map_.erase F).find F = none
        rw [HMap.find_erase, if_pos rfl]
      · intro hm; exact absurd hm hnm
      · intro _; exact ⟨rfl, rfl⟩
      · show sizeDecr s.curr_size_ + 1 = s.curr_size_
        exact h.size_decr F (List.mem_append_right _ hmem) hev
      · exact (filter_ne_of_not_mem _ _ hnm).symm
      · exact erase_eq_filter_ne _ _ h.mfu_nodup
      · intro G hG
        show (s.alive_map_.erase F).find G = _
        rw [HMap.find_erase, if_neg hG]
  · intro s' hr
    rcases Evict_ok s s' none hr with ⟨_, hs, _⟩ | ⟨G, _, hv⟩ | ⟨G, _, hv⟩
    · exact hs
    · obtain ⟨_, _, _, _, hFG, _⟩ := evictVictim_mru_ok s s' G none hv
      simp at hFG
    · obtain ⟨_, _, _, _, hFG, _⟩ := evictVictim_mfu_ok s s' G none hv
      simp at hFG

/-- C3 at `sampleMid`, where `Evict` returns frame 1 of `mfu_`. -/
theorem Evict_effect_witness :
    WellFormed sampleMid ∧
    ((∀ F s', Evict sampleMid = .ok (some F) s' →
      ∃ st, sampleMid.alive_map_.find F = some st ∧ st.evictable_ = true ∧
        (F ∈ sampleMid.mru_ ∨ F ∈ sampleMid.mfu_) ∧
        F ∉ s'.mru_ ∧ F ∉ s'.mfu_ ∧ s'.alive_map_.find F = none ∧
        (F ∈ sampleMid.mru_ → s'.mru_ghost_ = st.page_id_ :: sampleMid.mru_ghost_ ∧
          s'.mfu_ghost_ = sampleMid.mfu_ghost_) ∧
        (F ∈ sampleMid.mfu_ → s'.mfu_ghost_ = st.page_id_ :: sampleMid.mfu_ghost_ ∧
          s'.mru_ghost_ = sampleMid.mru_ghost_) ∧
        st.page_id_ ∉ sampleMid.mru_ghost_ ∧ st.page_id_ ∉ sampleMid.mfu_ghost_ ∧
        s'.Size + 1 = sampleMid.Size ∧
        s'.mru_target_size_ = sampleMid.mru_target_size_ ∧
        s'.mru_ = sampleMid.mru_.filter (fun G => decide (G ≠ F)) ∧
        s'.mfu_ = sampleMid.mfu_.filter (fun G => decide (G ≠ F)) ∧
        (∀ G, G ≠ F → s'.alive_map_.find G = sampleMid.alive_map_.find G)) ∧
    (∀ s', Evict sampleMid = .ok none s' → s' = sampleMid)) :=
  ⟨by decide, Evict_effect sampleMid (by decide)⟩

end ArcReplacer

/-! ### `SetEvictable` in `size_t` arithmetic -/

namespace ArcReplacer

/-- In every replacer state: if `F` has no entry in `alive_map_` then
`SetEvictable(F, b)` raises and leaves the state unchanged; otherwise it
completes, sets the evictable flag of `F` to `b`, applies `++` to `Size()`
exactly when the flag goes false→true and `--` exactly when it goes true→false,
in `size_t` arithmetic, leaves `Size()` alone when the flag already equals `b`,
and leaves the four lists, `mru_target_size_` and every other frame's status
unchanged. -/
theorem SetEvictable_modular (s : ArcReplacer) (F : frame_id_t) (b : Bool) :
    (s.alive_map_.find F = none → SetEvictable s F b = .raise Fault.state5 s) ∧
    (∀ st, s.alive_map_.find F = some st →
      ∃ s', SetEvictable s F b = .ok () s' ∧
        s'.alive_map_.find F = some { st with evictable_ := b } ∧
        (st.evictable_ = false → b = true →
          s'.Size = sizeIncr s.Size ∧ (s.Size + 1 < SIZE_MOD → s'.Size = s.Size + 1)) ∧
        (st.evictable_ = true → b = false →
          s'.Size = sizeDecr s.Size ∧
            (0 < s.Size → s.Size < SIZE_MOD → s'.Size + 1 = s.Size)) ∧
        (st.evictable_ = b → s'.Size = s.Size) ∧
        s'.mru_ = s.mru_ ∧ s'.mfu_ = s.mfu_ ∧
        s'.mru_ghost_ = s.mru_ghost_ ∧ s'.mfu_ghost_ = s.mfu_ghost_ ∧
        s'.mru_target_size_ = s.mru_target_size_ ∧
        (∀ G, G ≠ F → s'.alive_map_.find G = s.alive_map_.find G)) := by
  constructor
  · intro hfind
    unfold SetEvictable
    rw [hfind]
  · intro st hfind
    unfold SetEvictable
    rw [hfind]
    refine ⟨_, rfl, ?_, ?_, ?_, ?_, rfl, rfl, rfl, rfl, rfl, ?_⟩
    · dsimp only
      rw [HMap.find_modify, if_pos rfl, hfind]
      rfl
    · intro h1 h2
      have e : (if st.evictable_ = false ∧ b = true then sizeIncr s.curr_size_
          else if st.evictable_ = true ∧ b = false then sizeDecr s.curr_size_
          else s.curr_size_) = sizeIncr s.curr_size_ := by
        rw [if_pos ⟨h1, h2⟩]
      refine ⟨e, fun hlt => ?_⟩
      exact e.trans (sizeIncr_of_lt _ hlt)
    · intro h1 h2
      have e : (if st.evictable_ = false ∧ b = true then sizeIncr s.curr_size_
          else if st.evictable_ = true ∧ b = false then sizeDecr s.curr_size_
          else s.curr_size_) = sizeDecr s.curr_size_ := by
        rw [if_neg (by rw [h1]; simp), if_pos ⟨h1, h2⟩]
      refine ⟨e, fun hpos hlt => ?_⟩
      have e2 := e.trans (sizeDecr_of_pos _ hpos hlt)
      have hpos' : 0 < s.curr_size_ := hpos
      have e3 : s.curr_size_ - 1 + 1 = s.curr_size_ := by omega
      exact (congrArg (· + 1) e2).trans e3
    · intro h1
      have e : (if st.evictable_ = false ∧ b = true then sizeIncr s.curr_size_
          else if st.evictable_ = true ∧ b = false then sizeDecr s.curr_size_
          else s.curr_size_) = s.curr_size_ := by
        rw [if_neg (by rw [h1]; cases b <;> simp), if_neg (by rw [h1]; cases b <;> simp)]
      exact e
    · intro G hG
      dsimp only
      rw [HMap.find_modify, if_neg hG]

end ArcReplacer

/-! ## `Remove` (C5) -/

namespace ArcReplacer

theorem WellFormed.find_of_mem {s : ArcReplacer} (h : WellFormed s) (F : frame_id_t)
    (hF : F ∈ s.mru_ ∨ F ∈ s.mfu_) : ∃ st, s.alive_map_.find F = some st := by
  have := h.alive_has F (List.mem_append.2 hF)
  cases hfind : s.alive_map_.find F with
  | none => rw [hfind] at this; simp at this
  | some st => exact ⟨st, rfl⟩

theorem WellFormed.mem_of_find {s : ArcReplacer} (h : WellFormed s) (F : frame_id_t)
    (st : FrameStatus) (hfind : s.alive_map_.find F = some st) : F ∈ s.mru_ ∨ F ∈ s.mfu_ := by
  obtain ⟨e, he, rfl⟩ := (HMap.find_isSome_iff s.alive_map_ F).1 (by rw [hfind]; rfl)
  exact List.mem_append.1 (h.alive_only e he)

/-- C5: in a well-formed state, `Remove(F)` of a frame that is not resident
returns and leaves the state unchanged; of a resident frame that is not
evictable it raises "Unexpected state(6)" with the state unchanged; of a
resident evictable frame it deletes `F` from whichever of `mru_`, `mfu_` holds
it (the other frames keep their order) and from `alive_map_`, leaves every other
`FrameStatus` alone, decrements `Size()` by exactly 1, and leaves both ghost
lists, their position maps, `ghost_map_` and `mru_target_size_` unchanged. -/
theorem Remove_effect (s : ArcReplacer) (F : frame_id_t) (h : WellFormed s) :
    (F ∉ s.mru_ → F ∉ s.mfu_ → Remove s F = .ok () s) ∧
    ((F ∈ s.mru_ ∨ F ∈ s.mfu_) → isEvictable s F = false →
      Remove s F = .raise Fault.state6 s) ∧
    ((F ∈ s.mru_ ∨ F ∈ s.mfu_) → isEvictable s F = true →
      ∃ s', Remove s F = .ok () s' ∧
        s'.mru_ = s.mru_.filter (fun G => decide (G ≠ F)) ∧
        s'.mfu_ = s.mfu_.filter (fun G => decide (G ≠ F)) ∧
        F ∉ s'.mru_ ∧ F ∉ s'.mfu_ ∧
        s'.alive_map_.find F = none ∧
        (∀ G, G ≠ F → s'.alive_map_.find G = s.alive_map_.find G) ∧
        s'.Size + 1 = s.Size ∧
        s'.mru_ghost_ = s.mru_ghost_ ∧ s'.mfu_ghost_ = s.mfu_ghost_ ∧
        s'.mru_ghost_map_ = s.mru_ghost_map_ ∧ s'.mfu_ghost_map_ = s.mfu_ghost_map_ ∧
        s'.ghost_map_ = s.ghost_map_ ∧
        s'.mru_target_size_ = s.mru_target_size_) := by
  refine ⟨?_, ?_, ?_⟩
  · intro h1 h2
    have hfind : s.alive_map_.find F = none := by
      cases hf : s.alive_map_.find F with
      | none => rfl
      | some st =>
        rcases h.mem_of_find F st hf with hm | hm
        · exact absurd hm h1
        · exact absurd hm h2
    unfold Remove
    rw [hfind]
  · intro hres hev
    obtain ⟨st, hfind⟩ := h.find_of_mem F hres
    have hst : st.evictable_ = false := by
      rw [← isEvictable_find s F st hfind]; exact hev
    unfold Remove
    rw [hfind]
    simp only [hst, if_true]
  · intro hres hev
    obtain ⟨st, hfind⟩ := h.find_of_mem F hres
    have hst : st.evictable_ = true := by
      rw [← isEvictable_find s F st hfind]; exact hev
    have hsz : sizeDecr s.curr_size_ + 1 = s.curr_size_ :=
      h.size_decr F (List.mem_append.2 hres) hev
    have hne : ¬ st.evictable_ = false := by rw [hst]; simp
    unfold Remove
    rw [hfind]
    simp only [if_neg hne]
    by_cases hm : F ∈ s.mru_
    · have hnm : F ∉ s.mfu_ := fun hx => h.not_both F hm hx
      rw [if_pos ((h.mem_mru_map F).2 hm)]
      refine ⟨_, rfl, ?_, ?_, ?_, hnm, ?_, ?_, hsz, rfl, rfl, rfl, rfl, rfl, rfl⟩
      · exact erase_eq_filter_ne _ _ h.mru_nodup
      · exact (filter_ne_of_not_mem _ _ hnm).symm
      · dsimp only
        rw [h.mru_nodup.mem_erase_iff]
        exact fun hx => hx.1 rfl
      · dsimp only
        rw [HMap.find_erase, if_pos rfl]
      · intro G hG
        dsimp only
        rw [HMap.find_erase, if_neg hG]
    · have hm2 : F ∈ s.mfu_ := hres.resolve_left hm
      rw [if_neg (fun hx => hm ((h.mem_mru_map F).1 hx)), if_pos ((h.mem_mfu_map F).2 hm2)]
      refine ⟨_, rfl, ?_, ?_, hm, ?_, ?_, ?_, hsz, rfl, rfl, rfl, rfl, rfl, rfl⟩
      · exact (filter_ne_of_not_mem _ _ hm).symm
      · exact erase_eq_filter_ne _ _ h.mfu_nodup
      · dsimp only
        rw [h.mfu_nodup.mem_erase_iff]
        exact fun hx => hx.1 rfl
      · dsimp only
        rw [HMap.find_erase, if_pos rfl]
      · intro G hG
        dsimp only
        rw [HMap.find_erase, if_neg hG]

/-- C5 at `sampleMid` and frame 1, which is resident in `mfu_` and evictable. -/
theorem Remove_effect_witness :
    WellFormed sampleMid ∧
    ((1 ∉ sampleMid.mru_ → 1 ∉ sampleMid.mfu_ → Remove sampleMid 1 = .ok () sampleMid) ∧
    ((1 ∈ sampleMid.mru_ ∨ 1 ∈ sampleMid.mfu_) → isEvictable sampleMid 1 = false →
      Remove sampleMid 1 = .raise Fault.state6 sampleMid) ∧
    ((1 ∈ sampleMid.mru_ ∨ 1 ∈ sampleMid.mfu_) → isEvictable sampleMid 1 = true →
      ∃ s', Remove sampleMid 1 = .ok () s' ∧
        s'.mru_ = sampleMid.mru_.filter (fun G => decide (G ≠ 1)) ∧
        s'.mfu_ = sampleMid.mfu_.filter (fun G => decide (G ≠ 1)) ∧
        1 ∉ s'.mru_ ∧ 1 ∉ s'.mfu_ ∧
        s'.alive_map_.find 1 = none ∧
        (∀ G, G ≠ 1 → s'.alive_map_.find G = sampleMid.alive_map_.find G) ∧
        s'.Size + 1 = sampleMid.Size ∧
        s'.mru_ghost_ = sampleMid.mru_ghost_ ∧ s'.mfu_ghost_ = sampleMid.mfu_ghost_ ∧
        s'.mru_ghost_map_ = sampleMid.mru_ghost_map_ ∧
        s'.mfu_ghost_map_ = sampleMid.mfu_ghost_map_ ∧
        s'.ghost_map_ = sampleMid.ghost_map_ ∧
        s'.mru_target_size_ = sampleMid.mru_target_size_)) :=
  ⟨by decide, Remove_effect sampleMid 1 (by decide)⟩

end ArcReplacer

/-! ## `RecordAccess` on a resident frame (C6) -/

namespace ArcReplacer

theorem LookUp_hit (s : ArcReplacer) (F : frame_id_t) (P : page_id_t) (st : FrameStatus)
    (hfind : s.alive_map_.find F = some st) (hpage : st.page_id_ = P) :
    (LookUp s F P).isSome = true := by
  unfold LookUp
  rw [hfind]
  simp only [if_pos hpage]
  rfl

/-- C6: in a well-formed state, for a resident frame `F` holding page `P`,
`RecordAccess(F, P, a)` with any access type `a` completes, makes `F` the head of
`mfu_` with all other frames of `mru_` and `mfu_` keeping their order, and
leaves both ghost lists, `ghost_map_`, `mru_target_size_`, `Size()` and
`alive_map_` (so every evictable flag) unchanged; a second identical call
returns the very state the first call left. -/
theorem RecordAccess_hit_effect (s : ArcReplacer) (F : frame_id_t) (P : page_id_t)
    (a : AccessType) (st : FrameStatus) (h : WellFormed s)
    (hfind : s.alive_map_.find F = some st) (hpage : st.page_id_ = P) :
    ∃ s', RecordAccess s F P a = .ok () s' ∧
      s'.mfu_ = F :: s.mfu_.filter (fun G => decide (G ≠ F)) ∧
      s'.mru_ = s.mru_.filter (fun G => decide (G ≠ F)) ∧
      s'.mru_ghost_ = s.mru_ghost_ ∧ s'.mfu_ghost_ = s.mfu_ghost_ ∧
      s'.ghost_map_ = s.ghost_map_ ∧
      s'.mru_target_size_ = s.mru_target_size_ ∧
      s'.Size = s.Size ∧
      s'.alive_map_ = s.alive_map_ ∧
      RecordAccess s' F P a = .ok () s' := by
  have hhit := LookUp_hit s F P st hfind hpage
  have hres := h.mem_of_find F st hfind
  have step : ∀ (t : ArcReplacer) (r : Outcome Unit), t.alive_map_ = s.alive_map_ →
      Move2First t F = r → RecordAccess t F P a = r := by
    intro t r ht hr
    have : (LookUp t F P).isSome = true := by
      apply LookUp_hit t F P st _ hpage
      rw [ht]; exact hfind
    unfold RecordAccess
    rw [if_pos this]
    exact hr
  rw [step s _ rfl rfl]
  by_cases hm : F ∈ s.mru_
  · have hnm : F ∉ s.mfu_ := fun hx => h.not_both F hm hx
    have hk : F ∈ s.mru_map_ := (h.mem_mru_map F).2 hm
    have hk2 : F ∉ s.mfu_map_ := fun hx => hnm ((h.mem_mfu_map F).1 hx)
    refine ⟨{ s with
        mru_ := s.mru_.erase F
        mru_map_ := s.mru_map_.erase F
        mfu_ := F :: s.mfu_
        mfu_map_ := insert F s.mfu_map_ }, ?_, ?_, ?_, rfl, rfl, rfl, rfl, rfl, rfl, ?_⟩
    · unfold Move2First
      rw [if_pos hk]
    · dsimp only
      rw [filter_ne_of_not_mem _ _ hnm]
    · exact erase_eq_filter_ne _ _ h.mru_nodup
    · apply step
      · rfl
      unfold Move2First
      dsimp only
      rw [if_neg (Finset.not_mem_erase F s.mru_map_), if_pos (Finset.mem_insert_self F _)]
      have e1 : (F :: s.mfu_).erase F = s.mfu_ := List.erase_cons_head F s.mfu_
      have e2 : insert F ((insert F s.mfu_map_).erase F) = insert F s.mfu_map_ := by
        rw [Finset.erase_insert hk2]
      rw [e1, e2]
  · have hm2 : F ∈ s.mfu_ := hres.resolve_left hm
    have hk : F ∉ s.mru_map_ := fun hx => hm ((h.mem_mru_map F).1 hx)
    have hk2 : F ∈ s.mfu_map_ := (h.mem_mfu_map F).2 hm2
    refine ⟨{ s with
        mfu_ := F :: s.mfu_.erase F
        mfu_map_ := insert F (s.mfu_map_.erase F) }, ?_, ?_, ?_, rfl, rfl, rfl, rfl, rfl, rfl, ?_⟩
    · unfold Move2First
      rw [if_neg hk, if_pos hk2]
    · dsimp only
      rw [erase_eq_filter_ne _ _ h.mfu_nodup]
    · exact (filter_ne_of_not_mem _ _ hm).symm
    · apply step
      · rfl
      unfold Move2First
      dsimp only
      rw [if_neg hk, if_pos (Finset.mem_insert_self F _)]
      have e1 : (F :: s.mfu_.erase F).erase F = s.mfu_.erase F := List.erase_cons_head F _
      have e2 : insert F ((insert F (s.mfu_map_.erase F)).erase F) =
          insert F (s.mfu_map_.erase F) := by
        rw [Finset.erase_insert (Finset.not_mem_erase F s.mfu_map_)]
      rw [e1, e2]

/-- C6 at `sampleMid`, frame 2 (resident in `mru_`, holding page 2). -/
theorem RecordAccess_hit_effect_witness :
    WellFormed sampleMid ∧
    sampleMid.alive_map_.find 2 = some ⟨2, 2, false, ArcStatus.MRU⟩ ∧
    (∃ s', RecordAccess sampleMid 2 2 AccessType.Scan = .ok () s' ∧
      s'.mfu_ = 2 :: sampleMid.mfu_.filter (fun G => decide (G ≠ 2)) ∧
      s'.mru_ = sampleMid.mru_.filter (fun G => decide (G ≠ 2)) ∧
      s'.mru_ghost_ = sampleMid.mru_ghost_ ∧ s'.mfu_ghost_ = sampleMid.mfu_ghost_ ∧
      s'.ghost_map_ = sampleMid.ghost_map_ ∧
      s'.mru_target_size_ = sampleMid.mru_target_size_ ∧
      s'.Size = sampleMid.Size ∧
      s'.alive_map_ = sampleMid.alive_map_ ∧
      RecordAccess s' 2 2 AccessType.Scan = .ok () s') :=
  ⟨by decide, by decide,
    RecordAccess_hit_effect sampleMid 2 2 AccessType.Scan ⟨2, 2, false, ArcStatus.MRU⟩
      (by decide) (by decide) rfl⟩

end ArcReplacer

/-! ## Count-min sketch: matrices and loops -/

namespace CountMinSketch

variable {Key : Type}

theorem IsMatrix.cell {d w : Nat} {data : List (List Nat)} (h : IsMatrix d w data)
    {i j : Nat} (hi : i < d) (hj : j < w) : ∃ x, cellAt data i j = some x ∧ x < SIZE_MOD := by
  obtain ⟨hlen, hrows⟩ := h
  have hi' : i < data.length := by rw [hlen]; exact hi
  have hrow := hrows data[i] (List.getElem_mem hi')
  have hj' : j < data[i].length := by rw [hrow.1]; exact hj
  refine ⟨data[i][j], ?_, hrow.2 _ (List.getElem_mem hj')⟩
  unfold cellAt
  rw [List.getElem?_eq_getElem hi']
  exact List.getElem?_eq_getElem hj'

theorem IsMatrix.setCell {d w : Nat} {data : List (List Nat)} (h : IsMatrix d w data)
    (i j v : Nat) (hv : v < SIZE_MOD) : IsMatrix d w (setCell data i j v) := by
  unfold CountMinSketch.setCell
  cases hrow : data[i]? with
  | none => exact h
  | some row =>
    obtain ⟨hlen, hrows⟩ := h
    have hmem : row ∈ data := List.mem_iff_getElem?.2 ⟨i, hrow⟩
    refine ⟨by simp only [List.length_set]; exact hlen, ?_⟩
    intro r hr
    rcases List.mem_or_eq_of_mem_set hr with hr | rfl
    · exact hrows r hr
    · refine ⟨by rw [List.length_set]; exact (hrows row hmem).1, ?_⟩
      intro x hx
      rcases List.mem_or_eq_of_mem_set hx with hx | rfl
      · exact (hrows row hmem).2 x hx
      · exact hv

theorem cellAt_setCell (data : List (List Nat)) (i j v x : Nat)
    (hx : cellAt data i j = some x) (i' j' : Nat) :
    cellAt (setCell data i j v) i' j' =
      if i' = i ∧ j' = j then some v else cellAt data i' j' := by
  unfold cellAt at hx
  cases hrow : data[i]? with
  | none => rw [hrow] at hx; simp at hx
  | some row =>
    rw [hrow] at hx
    simp only at hx
    have hi : i < data.length := (List.getElem?_eq_some.1 hrow).1
    have hj : j < row.length := (List.getElem?_eq_some.1 hx).1
    unfold CountMinSketch.setCell cellAt
    rw [hrow]
    simp only
    rw [List.getElem?_set]
    by_cases hii : i = i'
    · subst hii
      rw [if_pos rfl, if_pos hi]
      simp only [hrow]
      rw [List.getElem?_set]
      by_cases hjj : j = j'
      · subst hjj
        rw [if_pos rfl, if_pos hj]
        simp
      · rw [if_neg hjj]
        have : ¬ j' = j := fun h => hjj h.symm
        simp [this]
    · rw [if_neg hii, if_neg (fun h => hii h.1.symm)]

theorem IsMatrix.ext {d w : Nat} {A B : List (List Nat)} (hA : IsMatrix d w A)
    (hB : IsMatrix d w B)
    (h : ∀ i j, i < d → j < w → cellAt A i j = cellAt B i j) : A = B := by
  apply List.ext_getElem?
  intro i
  by_cases hi : i < d
  · have hiA : i < A.length := by rw [hA.1]; exact hi
    have hiB : i < B.length := by rw [hB.1]; exact hi
    rw [List.getElem?_eq_getElem hiA, List.getElem?_eq_getElem hiB]
    congr 1
    have hra := hA.2 A[i] (List.getElem_mem hiA)
    have hrb := hB.2 B[i] (List.getElem_mem hiB)
    apply List.ext_getElem?
    intro j
    by_cases hj : j < w
    · have := h i j hi hj
      unfold cellAt at this
      rw [List.getElem?_eq_getElem hiA, List.getElem?_eq_getElem hiB] at this
      exact this
    · rw [List.getElem?_eq_none (by rw [hra.1]; omega),
        List.getElem?_eq_none (by rw [hrb.1]; omega)]
  · rw [List.getElem?_eq_none (by rw [hA.1]; omega), List.getElem?_eq_none (by rw [hB.1]; omega)]

theorem sizeIncr_lt (x : Nat) : sizeIncr x < SIZE_MOD :=
  Nat.mod_lt _ (by unfold SIZE_MOD; norm_num)

theorem sizeAdd_lt (x y : Nat) : sizeAdd x y < SIZE_MOD :=
  Nat.mod_lt _ (by unfold SIZE_MOD; norm_num)

theorem isMatrix_replicate (d w : Nat) :
    IsMatrix d w (List.replicate d (List.replicate w 0)) := by
  refine ⟨List.length_replicate _ _, ?_⟩
  intro row hrow
  rw [List.eq_of_mem_replicate hrow]
  refine ⟨List.length_replicate _ _, ?_⟩
  intro x hx
  rw [List.eq_of_mem_replicate hx]
  unfold SIZE_MOD
  norm_num

theorem cellAt_replicate (d w i j : Nat) (hi : i < d) (hj : j < w) :
    cellAt (List.replicate d (List.replicate w 0)) i j = some 0 := by
  unfold cellAt
  rw [List.getElem?_replicate_of_lt hi]
  exact List.getElem?_replicate_of_lt hj

end CountMinSketch

/-! ### `Insert` and `Count` on a shaped, seeded sketch -/

namespace CountMinSketch

variable {Key : Type}

theorem Seeded.hash {H : Nat → Key → Nat} {sk : CountMinSketch Key} (h : Seeded H sk)
    {i : Nat} (hi : i < sk.depth_) : sk.hash_functions_[i]? = some (H i) := by
  rw [h, List.getElem?_map, List.getElem?_range hi]
  rfl

theorem insertRows_spec (H : Nat → Key → Nat) (item : Key) (d w : Nat)
    (hashes : List (Key → Nat)) (hw : 0 < w)
    (hh : ∀ i, i < d → hashes[i]? = some (H i)) :
    ∀ (n lo : Nat) (data : List (List Nat)), IsMatrix d w data → lo + n ≤ d →
      ∃ data', insertRows item w hashes n lo data = some data' ∧ IsMatrix d w data' ∧
        ∀ i j, i < d → j < w →
          cellAt data' i j =
            if lo ≤ i ∧ i < lo + n ∧ j = H i item % w then (cellAt data i j).map sizeIncr
            else cellAt data i j := by
  intro n
  induction n with
  | zero =>
    intro lo data hm _
    refine ⟨data, rfl, hm, ?_⟩
    intro i j _ _
    rw [if_neg (by omega)]
  | succ n ih =>
    intro lo data hm hle
    have hlo : lo < d := by omega
    have hc : H lo item % w < w := Nat.mod_lt _ hw
    obtain ⟨x, hx, _⟩ := hm.cell hlo hc
    have hm1 := hm.setCell lo (H lo item % w) (sizeIncr x) (sizeIncr_lt x)
    obtain ⟨data', hrun, hm', hcells⟩ := ih (lo + 1) _ hm1 (by omega)
    refine ⟨data', ?_, hm', ?_⟩
    · unfold insertRows insertRow
      rw [hh lo hlo]
      simp only [if_neg (Nat.pos_iff_ne_zero.1 hw), hx]
      exact hrun
    · intro i j hi hj
      rw [hcells i j hi hj, cellAt_setCell data lo _ _ x hx]
      by_cases h1 : i = lo ∧ j = H lo item % w
      · obtain ⟨rfl, rfl⟩ := h1
        rw [if_neg (by omega), if_pos ⟨rfl, rfl⟩, if_pos ⟨le_refl _, by omega, rfl⟩, hx]
        rfl
      · rw [if_neg h1]
        by_cases h2 : lo + 1 ≤ i ∧ i < lo + 1 + n ∧ j = H i item % w
        · rw [if_pos h2, if_pos ⟨by omega, by omega, h2.2.2⟩]
        · rw [if_neg h2, if_neg]
          rintro ⟨h3, h4, h5⟩
          by_cases h6 : i = lo
          · subst h6
            exact h1 ⟨rfl, h5⟩
          · exact h2 ⟨by omega, by omega, h5⟩

theorem Insert_spec (H : Nat → Key → Nat) (sk : CountMinSketch Key) (item : Key)
    (hs : Shaped sk) (hseed : Seeded H sk) :
    ∃ sk', Insert sk item = .ok sk' ∧ sk'.width_ = sk.width_ ∧ sk'.depth_ = sk.depth_ ∧
      sk'.hash_functions_ = sk.hash_functions_ ∧ Shaped sk' ∧
      ∀ i j, i < sk.depth_ → j < sk.width_ →
        cellAt sk'.data_ i j =
          if j = H i item % sk.width_ then (cellAt sk.data_ i j).map sizeIncr
          else cellAt sk.data_ i j := by
  obtain ⟨data', hrun, hm', hcells⟩ :=
    insertRows_spec H item sk.depth_ sk.width_ sk.hash_functions_ hs.width_pos
      (fun i hi => hseed.hash hi) sk.depth_ 0 sk.data_ hs.matrix (by omega)
  refine ⟨{ sk with data_ := data' }, ?_, rfl, rfl, rfl, ⟨hs.width_pos, hs.depth_pos, hm'⟩, ?_⟩
  · unfold Insert
    rw [hrun]
  · intro i j hi hj
    show cellAt data' i j = _
    rw [hcells i j hi hj]
    by_cases h1 : j = H i item % sk.width_
    · rw [if_pos ⟨by omega, by omega, h1⟩, if_pos h1]
    · rw [if_neg (fun h => h1 h.2.2), if_neg h1]

theorem insertAll_spec (H : Nat → Key → Nat) (items : List Key) :
    ∀ (sk : CountMinSketch Key), Shaped sk → Seeded H sk →
      ∃ sk', insertAll sk items = .ok sk' ∧ sk'.width_ = sk.width_ ∧
        sk'.depth_ = sk.depth_ ∧ sk'.hash_functions_ = sk.hash_functions_ ∧ Shaped sk' ∧
        ∀ i j x, i < sk.depth_ → j < sk.width_ → cellAt sk.data_ i j = some x →
          cellAt sk'.data_ i j =
            some ((x + items.countP (fun k => decide (H i k % sk.width_ = j))) % SIZE_MOD) := by
  induction items with
  | nil =>
    intro sk hs _
    refine ⟨sk, rfl, rfl, rfl, rfl, hs, ?_⟩
    intro i j x hi hj hx
    obtain ⟨y, hy, hlt⟩ := hs.matrix.cell hi hj
    rw [hx] at hy
    injection hy with hy
    subst hy
    rw [hx, List.countP_nil, Nat.add_zero, Nat.mod_eq_of_lt hlt]
  | cons item rest ih =>
    intro sk hs hseed
    obtain ⟨sk1, hrun1, hw1, hd1, hh1, hs1, hc1⟩ := Insert_spec H sk item hs hseed
    have hseed1 : Seeded H sk1 := by
      unfold Seeded
      rw [hh1, hd1]
      exact hseed
    obtain ⟨sk', hrun, hw, hd, hh, hs', hc⟩ := ih sk1 hs1 hseed1
    refine ⟨sk', ?_, hw.trans hw1, hd.trans hd1, hh.trans hh1, hs', ?_⟩
    · unfold insertAll
      rw [hrun1]
      exact hrun
    · intro i j x hi hj hx
      have h1 := hc1 i j hi hj
      rw [hx] at h1
      rw [List.countP_cons]
      by_cases hcol : j = H i item % sk.width_
      · rw [if_pos hcol] at h1
        rw [hc i j (sizeIncr x) (by rw [hd1]; exact hi) (by rw [hw1]; exact hj) h1, hw1]
        have e : decide (H i item % sk.width_ = j) = true := by simp [hcol]
        rw [e, if_pos rfl]
        congr 1
        unfold sizeIncr
        rw [Nat.mod_add_mod]
        congr 1
        omega
      · rw [if_neg hcol] at h1
        rw [hc i j x (by rw [hd1]; exact hi) (by rw [hw1]; exact hj) h1, hw1]
        have e : ¬ (decide (H i item % sk.width_ = j) = true) := by
          simp only [decide_eq_true_eq]
          exact fun h => hcol h.symm
        rw [if_neg e, Nat.add_zero]

theorem rowEstimate_spec (H : Nat → Key → Nat) (sk : CountMinSketch Key) (item : Key)
    (hs : Shaped sk) (hseed : Seeded H sk) (i : Nat) (hi : i < sk.depth_) :
    ∃ x, cellAt sk.data_ i (H i item % sk.width_) = some x ∧
      rowEstimate sk item i = some (toU32 x) := by
  obtain ⟨x, hx, _⟩ := hs.matrix.cell hi (Nat.mod_lt (H i item) hs.width_pos)
  refine ⟨x, hx, ?_⟩
  unfold rowEstimate
  rw [hseed.hash hi]
  simp only [hx]

theorem countRows_spec (sk : CountMinSketch Key) (item : Key) (d : Nat)
    (hrow : ∀ i, i < d → ∃ e, rowEstimate sk item i = some e) :
    ∀ (n lo m : Nat), lo + n ≤ d →
      ∃ r, countRows sk item n lo m = some r ∧ r ≤ m ∧
        (∀ i, lo ≤ i → i < lo + n → ∃ e, rowEstimate sk item i = some e ∧ r ≤ e) ∧
        (r = m ∨ ∃ i, lo ≤ i ∧ i < lo + n ∧ rowEstimate sk item i = some r) := by
  intro n
  induction n with
  | zero =>
    intro lo m _
    exact ⟨m, rfl, le_refl _, fun i h1 h2 => by omega, Or.inl rfl⟩
  | succ n ih =>
    intro lo m hle
    obtain ⟨e, he⟩ := hrow lo (by omega)
    obtain ⟨r, hrun, hrm, hall, hex⟩ := ih (lo + 1) (if e < m then e else m) (by omega)
    have hmin1 : (if e < m then e else m) ≤ m := by split_ifs <;> omega
    have hmin2 : (if e < m then e else m) ≤ e := by split_ifs <;> omega
    refine ⟨r, ?_, le_trans hrm hmin1, ?_, ?_⟩
    · unfold countRows
      rw [he]
      exact hrun
    · intro i h1 h2
      by_cases hi : i = lo
      · subst hi
        exact ⟨e, he, le_trans hrm hmin2⟩
      · exact hall i (by omega) (by omega)
    · rcases hex with hr | ⟨i, h1, h2, h3⟩
      · by_cases hem : e < m
        · rw [if_pos hem] at hr
          exact Or.inr ⟨lo, le_refl _, by omega, by rw [hr]; exact he⟩
        · rw [if_neg hem] at hr
          exact Or.inl hr
      · exact Or.inr ⟨i, by omega, by omega, h3⟩

/-- On a shaped, seeded sketch `Count` returns the least of the row cells
`data_[i][hash_i(item) % width_]` narrowed to 32 bits. -/
theorem Count_spec (H : Nat → Key → Nat) (sk : CountMinSketch Key) (item : Key)
    (hs : Shaped sk) (hseed : Seeded H sk) :
    ∃ c, Count sk item = .ok c ∧
      (∀ i, i < sk.depth_ → ∃ x, cellAt sk.data_ i (H i item % sk.width_) = some x ∧
        c ≤ toU32 x) ∧
      (∃ i, i < sk.depth_ ∧ ∃ x, cellAt sk.data_ i (H i item % sk.width_) = some x ∧
        c = toU32 x) := by
  have hrow : ∀ i, i < sk.depth_ → ∃ e, rowEstimate sk item i = some e := by
    intro i hi
    obtain ⟨x, _, hx⟩ := rowEstimate_spec H sk item hs hseed i hi
    exact ⟨_, hx⟩
  have est : ∀ i e, i < sk.depth_ → rowEstimate sk item i = some e →
      ∃ x, cellAt sk.data_ i (H i item % sk.width_) = some x ∧ e = toU32 x := by
    intro i e hi he
    obtain ⟨x, hx, hx2⟩ := rowEstimate_spec H sk item hs hseed i hi
    rw [he] at hx2
    injection hx2 with hx2
    exact ⟨x, hx, hx2⟩
  obtain ⟨m, hm⟩ := hrow 0 hs.depth_pos
  obtain ⟨r, hrun, hrm, hall, hex⟩ :=
    countRows_spec sk item sk.depth_ hrow (sk.depth_ - 1) 1 m
      (by have := hs.depth_pos; omega)
  have hguard : ¬ (sk.width_ ≤ 0 ∨ sk.depth_ ≤ 0) := by
    have := hs.depth_pos
    have := hs.width_pos
    omega
  refine ⟨r, ?_, ?_, ?_⟩
  · unfold Count
    rw [if_neg hguard, hm]
    simp only [hrun]
  · intro i hi
    by_cases h0 : i = 0
    · subst h0
      obtain ⟨x, hx, hx2⟩ := est 0 m hi hm
      exact ⟨x, hx, by rw [← hx2]; exact hrm⟩
    · obtain ⟨e, he, hre⟩ := hall i (by omega) (by omega)
      obtain ⟨x, hx, hx2⟩ := est i e hi he
      exact ⟨x, hx, by rw [← hx2]; exact hre⟩
  · rcases hex with hr | ⟨i, h1, h2, h3⟩
    · obtain ⟨x, hx, hx2⟩ := est 0 m hs.depth_pos hm
      exact ⟨0, hs.depth_pos, x, hx, by rw [hr]; exact hx2⟩
    · have hi : i < sk.depth_ := by omega
      obtain ⟨x, hx, hx2⟩ := est i r hi h3
      exact ⟨i, hi, x, hx, hx2⟩

theorem new_spec (H : Nat → Key → Nat) (width depth : Nat) (hw : 0 < width)
    (hd : 0 < depth) :
    ∃ sk, CountMinSketch.new H width depth = .ok sk ∧ sk.width_ = width ∧
      sk.depth_ = depth ∧ sk.data_ = List.replicate depth (List.replicate width 0) ∧
      Shaped sk ∧ Seeded H sk := by
  have hguard : ¬ (width ≤ 0 ∨ depth ≤ 0) := by omega
  refine ⟨{ width_ := width
            depth_ := depth
            data_ := List.replicate depth (List.replicate width 0)
            hash_functions_ := (List.range depth).map H }, ?_, rfl, rfl, rfl,
    ⟨hw, hd, isMatrix_replicate depth width⟩, ?_⟩
  · unfold CountMinSketch.new
    rw [if_neg hguard]
  · unfold Seeded
    rfl

end CountMinSketch

/-! ## `Count` never under-counts below `2 ^ 32` inserts (C7) -/

namespace CountMinSketch

variable {Key : Type}

theorem toU32_of_lt (x : Nat) (h : x < 2 ^ 32) : toU32 x = x := by
  unfold toU32 U32_MOD
  exact Nat.mod_eq_of_lt h

/-- C7, as stated, fails: after `2 ^ 32` calls `Insert(7)` on a fresh sketch of
width 1 and depth 1 the only cell holds `2 ^ 32`, which `Count` narrows to the
32-bit value 0, below the `2 ^ 32` occurrences of the key. -/
theorem Count_undercounts_after_two_pow_32_inserts :
    ∃ sk0 sk, CountMinSketch.new sampleHash 1 1 = .ok sk0 ∧
      insertAll sk0 (List.replicate (2 ^ 32) (7 : Int)) = .ok sk ∧
      Count sk 7 = .ok 0 ∧ (List.replicate (2 ^ 32) (7 : Int)).count 7 = 2 ^ 32 := by
  obtain ⟨sk0, hnew, hw0, hd0, hdata0, hs0, hseed0⟩ :=
    new_spec sampleHash 1 1 (by norm_num) (by norm_num)
  obtain ⟨sk, hrun, hw, hd, hh, hs, hc⟩ :=
    insertAll_spec sampleHash (List.replicate (2 ^ 32) (7 : Int)) sk0 hs0 hseed0
  have hseed : Seeded sampleHash sk := by
    unfold Seeded
    rw [hh, hd]
    exact hseed0
  obtain ⟨c, hcount, _, i, hi, x, hx, hcx⟩ := Count_spec sampleHash sk 7 hs hseed
  have hi0 : i = 0 := by rw [hd, hd0] at hi; omega
  subst hi0
  have hcell0 : cellAt sk0.data_ 0 0 = some 0 := by
    rw [hdata0]
    exact cellAt_replicate 1 1 0 0 (by norm_num) (by norm_num)
  have hcell := hc 0 0 0 (by rw [hd0]; norm_num) (by rw [hw0]; norm_num) hcell0
  rw [hw0] at hcell
  have hcnt : (List.replicate (2 ^ 32) (7 : Int)).countP
      (fun k => decide (sampleHash 0 k % 1 = 0)) = 2 ^ 32 := by
    rw [List.countP_replicate]
    simp [Nat.mod_one]
  rw [hcnt] at hcell
  rw [hw, hw0, Nat.mod_one, hcell] at hx
  injection hx with hx
  have hx0 : toU32 x = 0 := by
    rw [← hx]
    unfold toU32 U32_MOD SIZE_MOD
    norm_num
  refine ⟨sk0, sk, hnew, hrun, ?_, List.count_replicate_self _ _⟩
  rw [hcount, hcx, hx0]

/-- C7 (amended): for every sequence of fewer than `2 ^ 32` `Insert` calls on a
freshly constructed sketch with positive width and depth, and every key `k`,
every call completes, `Count(k)` returns a value at least the number of
occurrences of `k` in the sequence, and that value is the minimum over the rows
`i < depth` of the cell `data_[i][hash_i(k) % width]` narrowed to 32 bits. -/
theorem Count_ge_occurrences [DecidableEq Key] (H : Nat → Key → Nat) (width depth : Nat)
    (hw : 0 < width) (hd : 0 < depth) (items : List Key) (hlen : items.length < 2 ^ 32)
    (k : Key) :
    ∃ sk0 sk c, CountMinSketch.new H width depth = .ok sk0 ∧
      insertAll sk0 items = .ok sk ∧ Count sk k = .ok c ∧
      items.count k ≤ c ∧
      (∀ i, i < depth → ∃ x, cellAt sk.data_ i (H i k % width) = some x ∧ c ≤ toU32 x) ∧
      (∃ i, i < depth ∧ ∃ x, cellAt sk.data_ i (H i k % width) = some x ∧ c = toU32 x) := by
  obtain ⟨sk0, hnew, hw0, hd0, hdata0, hs0, hseed0⟩ := new_spec H width depth hw hd
  obtain ⟨sk, hrun, hw1, hd1, hh, hs, hc⟩ := insertAll_spec H items sk0 hs0 hseed0
  have hseed : Seeded H sk := by
    unfold Seeded
    rw [hh, hd1]
    exact hseed0
  obtain ⟨c, hcount, hall, i, hi, x, hx, hcx⟩ := Count_spec H sk k hs hseed
  rw [hd1, hd0] at hi hall
  rw [hw1, hw0] at hx hall
  refine ⟨sk0, sk, c, hnew, hrun, hcount, ?_, hall, ⟨i, hi, x, hx, hcx⟩⟩
  have hj : H i k % width < width := Nat.mod_lt _ hw
  have hcell0 : cellAt sk0.data_ i (H i k % width) = some 0 := by
    rw [hdata0]
    exact cellAt_replicate depth width i _ hi hj
  have hcell := hc i (H i k % width) 0 (by rw [hd0]; exact hi) (by rw [hw0]; exact hj) hcell0
  rw [hw0, hx, Nat.zero_add] at hcell
  injection hcell with hcell
  have hhits : items.countP (fun y => decide (H i y % width = H i k % width)) < 2 ^ 32 :=
    lt_of_le_of_lt (List.countP_le_length _) hlen
  have hx2 : x = items.countP (fun y => decide (H i y % width = H i k % width)) := by
    rw [hcell]
    apply Nat.mod_eq_of_lt
    unfold SIZE_MOD
    omega
  rw [hcx, toU32_of_lt x (by rw [hx2]; exact hhits), hx2, List.count_eq_countP]
  apply List.countP_mono_left
  intro y _ hy
  have : y = k := by simpa using hy
  subst this
  simp

/-- The amended C7 for the keys 5, 5, 7, 5 on a sketch of width 4 and depth 3
with the sample hash family, queried at key 5. -/
theorem Count_ge_occurrences_witness :
    (0 < 4) ∧ (0 < 3) ∧ ([5, 5, 7, 5] : List Int).length < 2 ^ 32 ∧
    ∃ sk0 sk c, CountMinSketch.new sampleHash 4 3 = .ok sk0 ∧
      insertAll sk0 [5, 5, 7, 5] = .ok sk ∧ Count sk 5 = .ok c ∧
      ([5, 5, 7, 5] : List Int).count 5 ≤ c ∧
      (∀ i, i < 3 → ∃ x, cellAt sk.data_ i (sampleHash i 5 % 4) = some x ∧ c ≤ toU32 x) ∧
      (∃ i, i < 3 ∧ ∃ x, cellAt sk.data_ i (sampleHash i 5 % 4) = some x ∧ c = toU32 x) :=
  ⟨by decide, by decide, by decide,
    Count_ge_occurrences sampleHash 4 3 (by decide) (by decide) [5, 5, 7, 5] (by decide) 5⟩

end CountMinSketch

/-! ### The loops of `Merge` -/

namespace CountMinSketch

variable {Key : Type}

theorem mergeCols_spec (other : List (List Nat)) (d w i : Nat) (ho : IsMatrix d w other)
    (hi : i < d) :
    ∀ (n lo : Nat) (data : List (List Nat)), IsMatrix d w data → lo + n ≤ w →
      ∃ data', mergeCols other i n lo data = some data' ∧ IsMatrix d w data' ∧
        ∀ i' j' x, i' < d → j' < w → cellAt data i' j' = some x →
          cellAt data' i' j' =
            if i' = i ∧ lo ≤ j' ∧ j' < lo + n then
              (cellAt other i' j').map (fun y => sizeAdd x y)
            else some x := by
  intro n
  induction n with
  | zero =>
    intro lo data hm _
    refine ⟨data, rfl, hm, ?_⟩
    intro i' j' x _ _ hx
    rw [if_neg (by omega), hx]
  | succ n ih =>
    intro lo data hm hle
    have hlo : lo < w := by omega
    obtain ⟨x0, hx0, _⟩ := hm.cell hi hlo
    obtain ⟨y0, hy0, _⟩ := ho.cell hi hlo
    have hm1 := hm.setCell i lo (sizeAdd x0 y0) (sizeAdd_lt x0 y0)
    obtain ⟨data', hrun, hm', hcells⟩ := ih (lo + 1) _ hm1 (by omega)
    refine ⟨data', ?_, hm', ?_⟩
    · unfold mergeCols
      simp only [hx0, hy0]
      exact hrun
    · intro i' j' x hi' hj' hx
      have h1 := cellAt_setCell data i lo (sizeAdd x0 y0) x0 hx0 i' j'
      by_cases hhere : i' = i ∧ j' = lo
      · obtain ⟨rfl, rfl⟩ := hhere
        rw [if_pos ⟨rfl, rfl⟩] at h1
        rw [hcells i' j' _ hi' hj' h1, if_neg (by omega), if_pos ⟨rfl, le_refl _, by omega⟩, hy0]
        rw [hx0] at hx
        injection hx with hx
        rw [hx]
        rfl
      · rw [if_neg hhere, hx] at h1
        rw [hcells i' j' x hi' hj' h1]
        by_cases h2 : i' = i ∧ lo + 1 ≤ j' ∧ j' < lo + 1 + n
        · rw [if_pos h2, if_pos ⟨h2.1, by omega, by omega⟩]
        · rw [if_neg h2, if_neg]
          rintro ⟨h3, h4, h5⟩
          by_cases h6 : j' = lo
          · exact hhere ⟨h3, h6⟩
          · exact h2 ⟨h3, by omega, by omega⟩

theorem mergeRows_spec (other : List (List Nat)) (d w : Nat) (ho : IsMatrix d w other) :
    ∀ (n lo : Nat) (data : List (List Nat)), IsMatrix d w data → lo + n ≤ d →
      ∃ data', mergeRows other w n lo data = some data' ∧ IsMatrix d w data' ∧
        ∀ i' j' x, i' < d → j' < w → cellAt data i' j' = some x →
          cellAt data' i' j' =
            if lo ≤ i' ∧ i' < lo + n then (cellAt other i' j').map (fun y => sizeAdd x y)
            else some x := by
  intro n
  induction n with
  | zero =>
    intro lo data hm _
    refine ⟨data, rfl, hm, ?_⟩
    intro i' j' x _ _ hx
    rw [if_neg (by omega), hx]
  | succ n ih =>
    intro lo data hm hle
    have hlo : lo < d := by omega
    obtain ⟨data1, hrun1, hm1, hc1⟩ :=
      mergeCols_spec other d w lo ho hlo w 0 data hm (by omega)
    obtain ⟨data', hrun, hm', hcells⟩ := ih (lo + 1) data1 hm1 (by omega)
    refine ⟨data', ?_, hm', ?_⟩
    · unfold mergeRows
      rw [hrun1]
      exact hrun
    · intro i' j' x hi' hj' hx
      have h1 := hc1 i' j' x hi' hj' hx
      by_cases hhere : i' = lo
      · subst hhere
        rw [if_pos ⟨rfl, by omega, by omega⟩] at h1
        obtain ⟨y, hy, _⟩ := ho.cell hi' hj'
        rw [hy] at h1
        rw [hcells i' j' _ hi' hj' h1, if_neg (by omega), if_pos ⟨le_refl _, by omega⟩, hy]
        rfl
      · rw [if_neg (fun h => hhere h.1)] at h1
        rw [hcells i' j' x hi' hj' h1]
        by_cases h2 : lo + 1 ≤ i' ∧ i' < lo + 1 + n
        · rw [if_pos h2, if_pos ⟨by omega, by omega⟩]
        · rw [if_neg h2, if_neg]
          rintro ⟨h3, h4⟩
          exact h2 ⟨by omega, by omega⟩

theorem Merge_spec (A B : CountMinSketch Key) (hA : Shaped A) (hB : Shaped B)
    (hw : A.width_ = B.width_) (hd : A.depth_ = B.depth_) :
    ∃ A', Merge A B = .ok A' ∧ A'.width_ = A.width_ ∧ A'.depth_ = A.depth_ ∧
      A'.hash_functions_ = A.hash_functions_ ∧ Shaped A' ∧
      ∀ i j, i < A.depth_ → j < A.width_ →
        ∃ x y, cellAt A.data_ i j = some x ∧ cellAt B.data_ i j = some y ∧
          cellAt A'.data_ i j = some (sizeAdd x y) := by
  have hBm : IsMatrix A.depth_ A.width_ B.data_ := by
    rw [hw, hd]; exact hB.matrix
  obtain ⟨data', hrun, hm', hcells⟩ :=
    mergeRows_spec B.data_ A.depth_ A.width_ hBm A.depth_ 0 A.data_ hA.matrix (by omega)
  refine ⟨{ A with data_ := data' }, ?_, rfl, rfl, rfl, ⟨hA.width_pos, hA.depth_pos, hm'⟩, ?_⟩
  · unfold Merge
    rw [if_neg (by rw [hw, hd]; simp), hrun]
  · intro i j hi hj
    obtain ⟨x, hx, _⟩ := hA.matrix.cell hi hj
    obtain ⟨y, hy, _⟩ := hBm.cell hi hj
    refine ⟨x, y, hx, hy, ?_⟩
    show cellAt data' i j = _
    rw [hcells i j x hi hj hx, if_pos ⟨by omega, by omega⟩, hy]
    rfl

end CountMinSketch

/-! ## `TopK` (C8) -/

namespace CountMinSketch

variable {Key : Type}

theorem countCandidates_spec (H : Nat → Key → Nat) (sk : CountMinSketch Key)
    (hs : Shaped sk) (hseed : Seeded H sk) :
    ∀ (candidates : List Key) (result : List (Key × Nat)),
      ∃ counted, countCandidates sk candidates result = .ok (result ++ counted) ∧
        counted.map Prod.fst = candidates ∧
        ∀ e ∈ counted, Count sk e.1 = .ok e.2 := by
  intro candidates
  induction candidates with
  | nil =>
    intro result
    exact ⟨[], by simp [countCandidates], rfl, by simp⟩
  | cons key rest ih =>
    intro result
    obtain ⟨c, hc, _⟩ := Count_spec H sk key hs hseed
    obtain ⟨counted, hrun, hkeys, hcounts⟩ := ih (result ++ [(key, c)])
    refine ⟨(key, c) :: counted, ?_, ?_, ?_⟩
    · unfold countCandidates
      rw [hc]
      simp only
      rw [hrun, List.append_assoc]
      rfl
    · rw [List.map_cons, hkeys]
    · intro e he
      rcases List.mem_cons.1 he with rfl | he
      · exact hc
      · exact hcounts e he

/-- C8, what the code does: on a shaped, seeded sketch, with `std::sort` any
sort by non-increasing count, `TopK(k, candidates)` returns the first `k` entries
of the sorted vector that holds `|candidates|` value-initialised pairs
`(KeyType(), 0)` followed by the pairs `(c, Count(c))` of the candidates.  The
result is sorted by non-increasing count, but its length is
`min(k, 2 * |candidates|)`, and for a non-empty candidate list with
`2 * |candidates| ≤ k` it contains the phantom entry `(KeyType(), 0)`. -/
theorem TopK_returns_presized_entries (H : Nat → Key → Nat)
    (sort : List (Key × Nat) → List (Key × Nat)) (hsort : IsCountSort sort) (dflt : Key)
    (sk : CountMinSketch Key) (hs : Shaped sk) (hseed : Seeded H sk) (k : Nat)
    (candidates : List Key) :
    ∃ out counted, TopK sort dflt sk k candidates = .ok out ∧
      counted.map Prod.fst = candidates ∧
      (∀ e ∈ counted, Count sk e.1 = .ok e.2) ∧
      out = (sort (List.replicate candidates.length (dflt, 0) ++ counted)).take k ∧
      out.Pairwise (fun a b => b.2 ≤ a.2) ∧
      out.length = min k (2 * candidates.length) ∧
      (candidates ≠ [] → 2 * candidates.length ≤ k → (dflt, 0) ∈ out) := by
  obtain ⟨counted, hrun, hkeys, hcounts⟩ :=
    countCandidates_spec H sk hs hseed candidates (List.replicate candidates.length (dflt, 0))
  have hlenc : counted.length = candidates.length := by
    rw [← hkeys, List.length_map]
  have hlen : (sort (List.replicate candidates.length (dflt, 0) ++ counted)).length =
      2 * candidates.length := by
    rw [(hsort _).1.length_eq, List.length_append, List.length_replicate, hlenc]
    omega
  have hout : (if k < (sort (List.replicate candidates.length (dflt, 0) ++ counted)).length
      then (sort (List.replicate candidates.length (dflt, 0) ++ counted)).take k
      else sort (List.replicate candidates.length (dflt, 0) ++ counted)) =
      (sort (List.replicate candidates.length (dflt, 0) ++ counted)).take k := by
    split_ifs with hk
    · rfl
    · exact (List.take_of_length_le (by omega)).symm
  refine ⟨_, counted, ?_, hkeys, hcounts, rfl, ?_, ?_, ?_⟩
  · unfold TopK
    rw [hrun]
    simp only
    rw [hout]
  · exact List.Pairwise.sublist (List.take_sublist _ _) (hsort _).2
  · rw [List.length_take, hlen]
  · intro hne hk
    rw [List.take_of_length_le (by omega)]
    apply (hsort _).1.mem_iff.2
    apply List.mem_append_left
    rw [List.mem_replicate]
    refine ⟨?_, rfl⟩
    intro h0
    exact hne (List.length_eq_zero.1 h0)

theorem sampleSort_isCountSort : IsCountSort sampleSort := by
  intro l
  refine ⟨List.perm_insertionSort _ l, ?_⟩
  haveI : IsTotal (Int × Nat) (fun a b => b.2 ≤ a.2) := ⟨fun a b => le_total b.2 a.2⟩
  haveI : IsTrans (Int × Nat) (fun a b => b.2 ≤ a.2) := ⟨fun a b c h1 h2 => le_trans h2 h1⟩
  exact List.sorted_insertionSort (fun a b => b.2 ≤ a.2) l

/-- The code of `TopK` at `sampleSketch`, `k = 2`, candidates `[5]`: the result
is `[(5, 3), (0, 0)]`, two entries for one candidate, the second a phantom. -/
theorem TopK_returns_presized_entries_witness :
    IsCountSort sampleSort ∧ Shaped sampleSketch ∧ Seeded sampleHash sampleSketch ∧
    TopK sampleSort 0 sampleSketch 2 [5] = .ok [(5, 3), (0, 0)] ∧
    ∃ out counted, TopK sampleSort 0 sampleSketch 2 [5] = .ok out ∧
      counted.map Prod.fst = [5] ∧
      (∀ e ∈ counted, Count sampleSketch e.1 = .ok e.2) ∧
      out = (sampleSort (List.replicate ([5] : List Int).length (0, 0) ++ counted)).take 2 ∧
      out.Pairwise (fun a b => b.2 ≤ a.2) ∧
      out.length = min 2 (2 * ([5] : List Int).length) ∧
      (([5] : List Int) ≠ [] → 2 * ([5] : List Int).length ≤ 2 → ((0 : Int), 0) ∈ out) :=
  ⟨sampleSort_isCountSort, by decide, rfl, rfl,
    TopK_returns_presized_entries sampleHash sampleSort sampleSort_isCountSort 0 sampleSketch
      (by decide) rfl 2 [5]⟩

end CountMinSketch

/-! ## `Merge` (C9, C10) -/

namespace CountMinSketch

variable {Key : Type}

/-- C9: let `A` be a sketch of shape `(width, depth)` with the row-index-seeded
hash functions, and let `B` be a fresh sketch of the same shape into which the
stream `S` is inserted.  Then `A.Merge(B)` and inserting every element of `S`
into (a copy of) `A` both complete and give identical cells, hence the same
`Count(k)` for every key `k`. -/
theorem Merge_eq_insert_stream (H : Nat → Key → Nat) (A : CountMinSketch Key)
    (hA : Shaped A) (hseed : Seeded H A) (S : List Key) :
    ∃ B0 B A1 A2, CountMinSketch.new H A.width_ A.depth_ = .ok B0 ∧
      insertAll B0 S = .ok B ∧ Merge A B = .ok A1 ∧ insertAll A S = .ok A2 ∧
      A1.data_ = A2.data_ ∧ ∀ k, Count A1 k = Count A2 k := by
  obtain ⟨B0, hnew, hw0, hd0, hdata0, hs0, hseed0⟩ :=
    new_spec H A.width_ A.depth_ hA.width_pos hA.depth_pos
  obtain ⟨B, hrunB, hwB, hdB, _, hsB, hcB⟩ := insertAll_spec H S B0 hs0 hseed0
  obtain ⟨A1, hmerge, hw1, hd1, hh1, hs1, hc1⟩ :=
    Merge_spec A B hA hsB (by rw [hwB, hw0]) (by rw [hdB, hd0])
  obtain ⟨A2, hrunA, hw2, hd2, hh2, hs2, hc2⟩ := insertAll_spec H S A hA hseed
  have hdata : A1.data_ = A2.data_ := by
    have m1 : IsMatrix A.depth_ A.width_ A1.data_ := by
      have := hs1.matrix
      rwa [hw1, hd1] at this
    have m2 : IsMatrix A.depth_ A.width_ A2.data_ := by
      have := hs2.matrix
      rwa [hw2, hd2] at this
    apply IsMatrix.ext m1 m2
    intro i j hi hj
    obtain ⟨x, y, hx, hy, hxy⟩ := hc1 i j hi hj
    have hb0 : cellAt B0.data_ i j = some 0 := by
      rw [hdata0]
      exact cellAt_replicate _ _ i j hi hj
    have hb := hcB i j 0 (by rw [hd0]; exact hi) (by rw [hw0]; exact hj) hb0
    rw [hy, hw0, Nat.zero_add] at hb
    injection hb with hb
    rw [hxy, hc2 i j x hi hj hx, hb]
    congr 1
    unfold sizeAdd
    rw [Nat.add_mod_mod]
  refine ⟨B0, B, A1, A2, hnew, hrunB, hmerge, hrunA, hdata, ?_⟩
  have hEq : A1 = A2 := by
    cases A1
    cases A2
    simp only at hw1 hd1 hh1 hw2 hd2 hh2 hdata
    simp only [CountMinSketch.mk.injEq]
    exact ⟨hw1.trans hw2.symm, hd1.trans hd2.symm, hdata, hh1.trans hh2.symm⟩
  intro k
  rw [hEq]

/-- C9 at `sampleSketch` and the stream 7, 5, 9. -/
theorem Merge_eq_insert_stream_witness :
    Shaped sampleSketch ∧ Seeded sampleHash sampleSketch ∧
    ∃ B0 B A1 A2,
      CountMinSketch.new sampleHash sampleSketch.width_ sampleSketch.depth_ = .ok B0 ∧
      insertAll B0 [7, 5, 9] = .ok B ∧ Merge sampleSketch B = .ok A1 ∧
      insertAll sampleSketch [7, 5, 9] = .ok A2 ∧
      A1.data_ = A2.data_ ∧ ∀ k, Count A1 k = Count A2 k :=
  ⟨by decide, rfl, Merge_eq_insert_stream sampleHash sampleSketch (by decide) rfl [7, 5, 9]⟩

/-- The inner loop of `Merge` on row `i` leaves the cells of every other row
alone. -/
theorem mergeCols_other_rows (other : List (List Nat)) (i : Nat) :
    ∀ (n j : Nat) (data data1 : List (List Nat)), mergeCols other i n j data = some data1 →
      ∀ i' j', i' ≠ i → cellAt data1 i' j' = cellAt data i' j' := by
  intro n
  induction n with
  | zero =>
    intro j data data1 h i' j' _
    simp only [mergeCols] at h
    injection h with h
    rw [h]
  | succ n ih =>
    intro j data data1 h i' j' hne
    simp only [mergeCols] at h
    cases hx : cellAt data i j with
    | none => rw [hx] at h; simp at h
    | some x =>
      cases hy : cellAt other i j with
      | none => rw [hx, hy] at h; simp at h
      | some y =>
        rw [hx, hy] at h
        simp only at h
        rw [ih (j + 1) _ data1 h i' j' hne, cellAt_setCell data i j _ x hx,
          if_neg (fun hc => hne hc.1)]

/-- When `other` is `*this`, the inner loop computes what it computes on a copy
of `other` taken before the call: each cell is read before it is written. -/
theorem mergeColsSelf_eq (other : List (List Nat)) (i : Nat) :
    ∀ (n j : Nat) (data : List (List Nat)),
      (∀ j', j ≤ j' → cellAt data i j' = cellAt other i j') →
      mergeColsSelf i n j data = mergeCols other i n j data := by
  intro n
  induction n with
  | zero => intro j data _; rfl
  | succ n ih =>
    intro j data h
    simp only [mergeColsSelf, mergeCols]
    rw [← h j (Nat.le_refl j)]
    cases hx : cellAt data i j with
    | none => rfl
    | some x =>
      simp only
      apply ih
      intro j' hj'
      rw [cellAt_setCell data i j _ x hx, if_neg (fun hc => by omega)]
      exact h j' (by omega)

theorem mergeRowsSelf_eq (other : List (List Nat)) (width : Nat) :
    ∀ (n i : Nat) (data : List (List Nat)),
      (∀ i' j', i ≤ i' → cellAt data i' j' = cellAt other i' j') →
      mergeRowsSelf width n i data = mergeRows other width n i data := by
  intro n
  induction n with
  | zero => intro i data _; rfl
  | succ n ih =>
    intro i data h
    simp only [mergeRowsSelf, mergeRows]
    rw [mergeColsSelf_eq other i width 0 data (fun j' _ => h i j' (Nat.le_refl i))]
    cases hc : mergeCols other i width 0 data with
    | none => rfl
    | some data1 =>
      simp only
      apply ih
      intro i' j' hi'
      rw [mergeCols_other_rows other i width 0 data data1 hc i' j' (by omega)]
      exact h i' j' (by omega)

/-- The call `a.Merge(a)` leaves `a` as `Merge` leaves it when given a copy of
`a` taken before the call. -/
theorem MergeSelf_eq (a : CountMinSketch Key) : MergeSelf a = Merge a a := by
  unfold MergeSelf Merge
  rw [mergeRowsSelf_eq a.data_ a.width_ a.depth_ 0 a.data_ (fun _ _ _ => rfl)]

/-- C10, as stated, fails, in two ways.  Merging a sketch whose only cell holds
1 into a sketch of the same shape whose only cell holds `2 ^ 64 - 1` completes
and leaves 0 in the cell, not the sum `2 ^ 64`.  And `B` is not always
unchanged: when `B` is the object `A` itself, `A.Merge(A)` on `sampleSketch`
completes and doubles every cell, so the object `B` refers to ends with cells
other than those it had. -/
theorem Merge_wraps_cell_sum_and_doubles_self :
    ((postOf (Merge fullCellSketch unitCellSketch)).map (fun sk => sk.data_) = some [[0]] ∧
      cellAt fullCellSketch.data_ 0 0 = some 18446744073709551615 ∧
      cellAt unitCellSketch.data_ 0 0 = some 1 ∧
      (18446744073709551615 + 1 ≠ 0)) ∧
    ((postOf (MergeCall sampleSketch MergeArg.itself).1).map (fun sk => sk.data_) =
        some [[0, 6, 0, 2], [0, 0, 0, 8], [0, 6, 0, 2]] ∧
      (MergeCall sampleSketch MergeArg.itself).2.data_ =
        [[0, 6, 0, 2], [0, 0, 0, 8], [0, 6, 0, 2]] ∧
      sampleSketch.data_ = [[0, 3, 0, 1], [0, 0, 0, 4], [0, 3, 0, 1]]) := by
  decide

/-- C10 (amended): for every pair of sketches `A`, `B` (each a matrix of its own
positive shape), `A.Merge(B)` raises invalid-argument exactly when the widths or
the depths differ, and then `A` and `B` are unchanged; otherwise it completes,
every cell satisfies `A'.data[i][j] = (A.data[i][j] + B.data[i][j]) mod 2 ^ 64`,
the width, depth and hash functions of `A` are unchanged, and `B` is unchanged
when it is another object than `A`.  When `B` is the object `A` itself,
`A.Merge(A)` completes, every cell satisfies
`A'.data[i][j] = (A.data[i][j] + A.data[i][j]) mod 2 ^ 64`, width, depth and
hash functions are unchanged, and the object `B` refers to is left in the
state `A'`. -/
theorem Merge_effect (A B : CountMinSketch Key) (hA : Shaped A) (hB : Shaped B) :
    ((A.width_ ≠ B.width_ ∨ A.depth_ ≠ B.depth_) →
      MergeCall A (MergeArg.object B) = (.raise CmsFault.invalid_argument A, B)) ∧
    ((A.width_ = B.width_ ∧ A.depth_ = B.depth_) →
      ∃ A', MergeCall A (MergeArg.object B) = (.ok A', B) ∧
        A'.width_ = A.width_ ∧ A'.depth_ = A.depth_ ∧
        A'.hash_functions_ = A.hash_functions_ ∧
        ∀ i j, i < A.depth_ → j < A.width_ →
          ∃ x y, cellAt A.data_ i j = some x ∧ cellAt B.data_ i j = some y ∧
            cellAt A'.data_ i j = some ((x + y) % 2 ^ 64)) ∧
    (∃ A', MergeCall A MergeArg.itself = (.ok A', A') ∧
      A'.width_ = A.width_ ∧ A'.depth_ = A.depth_ ∧
      A'.hash_functions_ = A.hash_functions_ ∧
      ∀ i j, i < A.depth_ → j < A.width_ →
        ∃ x, cellAt A.data_ i j = some x ∧
          cellAt A'.data_ i j = some ((x + x) % 2 ^ 64)) := by
  refine ⟨?_, ?_, ?_⟩
  · intro hne
    show (Merge A B, B) = _
    unfold Merge
    rw [if_pos hne]
  · rintro ⟨hw, hd⟩
    obtain ⟨A', hrun, hw', hd', hh', _, hc⟩ := Merge_spec A B hA hB hw hd
    refine ⟨A', ?_, hw', hd', hh', ?_⟩
    · show (Merge A B, B) = _
      rw [hrun]
    · intro i j hi hj
      obtain ⟨x, y, hx, hy, hxy⟩ := hc i j hi hj
      refine ⟨x, y, hx, hy, ?_⟩
      rw [hxy]
      unfold sizeAdd SIZE_MOD
      rfl
  · obtain ⟨A', hrun, hw', hd', hh', _, hc⟩ := Merge_spec A A hA hA rfl rfl
    refine ⟨A', ?_, hw', hd', hh', ?_⟩
    · show (MergeSelf A, stateOf (MergeSelf A)) = _
      rw [MergeSelf_eq, hrun]
      rfl
    · intro i j hi hj
      obtain ⟨x, y, hx, hy, hxy⟩ := hc i j hi hj
      rw [hx] at hy
      injection hy with hy
      subst hy
      refine ⟨x, hx, ?_⟩
      rw [hxy]
      unfold sizeAdd SIZE_MOD
      rfl

/-- The amended C10 at `deepSketch` and `pairSketch`, two sketches of width 4
and depth 2: `deepSketch.Merge(pairSketch)` completes with the cell-wise sums
and leaves `pairSketch` as it was; and at `sampleSketch` and `narrowSketch`,
whose widths differ. -/
theorem Merge_effect_witness :
    Shaped deepSketch ∧ Shaped pairSketch ∧
    deepSketch.width_ = pairSketch.width_ ∧ deepSketch.depth_ = pairSketch.depth_ ∧
    (∃ A', MergeCall deepSketch (MergeArg.object pairSketch) = (.ok A', pairSketch) ∧
      A'.width_ = deepSketch.width_ ∧ A'.depth_ = deepSketch.depth_ ∧
      A'.hash_functions_ = deepSketch.hash_functions_ ∧
      ∀ i j, i < deepSketch.depth_ → j < deepSketch.width_ →
        ∃ x y, cellAt deepSketch.data_ i j = some x ∧ cellAt pairSketch.data_ i j = some y ∧
          cellAt A'.data_ i j = some ((x + y) % 2 ^ 64)) ∧
    (postOf (MergeCall deepSketch (MergeArg.object pairSketch)).1).map (fun sk => sk.data_) =
      some [[0, 1, 0, 1], [0, 0, 0, 2]] ∧
    Shaped sampleSketch ∧ Shaped narrowSketch ∧
    sampleSketch.width_ ≠ narrowSketch.width_ ∧
    MergeCall sampleSketch (MergeArg.object narrowSketch) =
      (.raise CmsFault.invalid_argument sampleSketch, narrowSketch) ∧
    ∃ b0, CountMinSketch.new sampleHash 4 2 = .ok b0 ∧ Insert b0 7 = .ok pairSketch :=
  ⟨by decide, by decide, rfl, rfl,
    (Merge_effect deepSketch pairSketch (by decide) (by decide)).2.1 ⟨rfl, rfl⟩,
    by decide, by decide, by decide, by decide,
    (Merge_effect sampleSketch narrowSketch (by decide) (by decide)).1 (Or.inl (by decide)),
    ⟨_, rfl, rfl⟩⟩

end CountMinSketch

/-! ## The constructor and `Clear` (C11, C12) -/

namespace CountMinSketch

variable {Key : Type}

/-- On a shaped, seeded sketch all of whose cells are 0, `Count` returns 0. -/
theorem Count_of_zero_cells (H : Nat → Key → Nat) (sk : CountMinSketch Key)
    (hs : Shaped sk) (hseed : Seeded H sk)
    (hz : ∀ i j x, cellAt sk.data_ i j = some x → x = 0) (k : Key) :
    Count sk k = .ok 0 := by
  obtain ⟨c, hc, _, i, _, x, hx, hcx⟩ := Count_spec H sk k hs hseed
  rw [hc, hcx, hz i _ x hx]
  rfl

theorem cellAt_mem (data : List (List Nat)) (i j x : Nat) (h : cellAt data i j = some x) :
    ∃ row ∈ data, x ∈ row := by
  unfold cellAt at h
  cases hrow : data[i]? with
  | none => rw [hrow] at h; simp at h
  | some row =>
    rw [hrow] at h
    exact ⟨row, List.mem_iff_getElem?.2 ⟨i, hrow⟩, List.mem_iff_getElem?.2 ⟨j, h⟩⟩

/-- C11: `CountMinSketch(width, depth)` raises invalid-argument if `width = 0`
or `depth = 0`, and otherwise returns a sketch with exactly `depth` rows of
exactly `width` counters, all zero, and exactly `depth` hash functions, the
`i`-th being the function seeded with `i`; on it `Count(k) = 0` for every key. -/
theorem new_effect (H : Nat → Key → Nat) (width depth : Nat) :
    ((width = 0 ∨ depth = 0) →
      CountMinSketch.new H width depth = .error CmsFault.invalid_argument) ∧
    (0 < width → 0 < depth →
      ∃ sk, CountMinSketch.new H width depth = .ok sk ∧
        sk.width_ = width ∧ sk.depth_ = depth ∧
        sk.data_.length = depth ∧
        (∀ row ∈ sk.data_, row.length = width ∧ ∀ x ∈ row, x = 0) ∧
        sk.hash_functions_.length = depth ∧
        (∀ i, i < depth → sk.hash_functions_[i]? = some (H i)) ∧
        ∀ k, Count sk k = .ok 0) := by
  constructor
  · intro h0
    unfold CountMinSketch.new
    rw [if_pos (by omega)]
  · intro hw hd
    obtain ⟨sk, hnew, hw', hd', hdata, hs, hseed⟩ := new_spec H width depth hw hd
    have hrows : ∀ row ∈ sk.data_, row.length = width ∧ ∀ x ∈ row, x = 0 := by
      intro row hrow
      rw [hdata] at hrow
      rw [List.eq_of_mem_replicate hrow]
      exact ⟨List.length_replicate _ _, fun x hx => List.eq_of_mem_replicate hx⟩
    refine ⟨sk, hnew, hw', hd', ?_, hrows, ?_, ?_, ?_⟩
    · rw [hdata, List.length_replicate]
    · rw [hseed, List.length_map, List.length_range, hd']
    · intro i hi
      exact hseed.hash (by rw [hd']; exact hi)
    · intro k
      apply Count_of_zero_cells H sk hs hseed
      intro i j x hx
      obtain ⟨row, hrow, hxr⟩ := cellAt_mem _ _ _ _ hx
      exact (hrows row hrow).2 x hxr

/-- C11 at width 4 and depth 3 with the hash family `sampleHash`, and at width 0. -/
theorem new_effect_witness :
    (0 : Nat) < 4 ∧ (0 : Nat) < 3 ∧
    (∃ sk, CountMinSketch.new sampleHash 4 3 = .ok sk ∧
      sk.width_ = 4 ∧ sk.depth_ = 3 ∧
      sk.data_.length = 3 ∧
      (∀ row ∈ sk.data_, row.length = 4 ∧ ∀ x ∈ row, x = 0) ∧
      sk.hash_functions_.length = 3 ∧
      (∀ i, i < 3 → sk.hash_functions_[i]? = some (sampleHash i)) ∧
      ∀ k, Count sk k = .ok 0) ∧
    CountMinSketch.new sampleHash 0 3 = .error CmsFault.invalid_argument :=
  ⟨by decide, by decide, (new_effect sampleHash 4 3).2 (by decide) (by decide),
    (new_effect sampleHash 0 3).1 (Or.inl rfl)⟩

theorem Clear_shaped (sk : CountMinSketch Key) (hs : Shaped sk) : Shaped (Clear sk) := by
  refine ⟨hs.width_pos, hs.depth_pos, ?_, ?_⟩
  · show (sk.data_.map _).length = sk.depth_
    rw [List.length_map]
    exact hs.matrix.1
  · intro row hrow
    obtain ⟨row0, hrow0, rfl⟩ := List.mem_map.1 hrow
    refine ⟨by rw [List.length_map]; exact (hs.matrix.2 row0 hrow0).1, ?_⟩
    intro x hx
    obtain ⟨_, _, rfl⟩ := List.mem_map.1 hx
    unfold SIZE_MOD
    norm_num

/-- C12: on a sketch with a `depth_ × width_` matrix and the seeded hash
functions (as every sequence of `Insert` and `Merge` calls leaves it), `Clear()`
leaves width, depth and hash functions unchanged, keeps the number of rows and
the length of every row, sets every cell to 0, so that `Count(k) = 0` for every
key `k` afterwards, and a second `Clear()` changes nothing. -/
theorem Clear_effect (H : Nat → Key → Nat) (sk : CountMinSketch Key) (hs : Shaped sk)
    (hseed : Seeded H sk) :
    (Clear sk).width_ = sk.width_ ∧ (Clear sk).depth_ = sk.depth_ ∧
    (Clear sk).hash_functions_ = sk.hash_functions_ ∧
    (Clear sk).data_.length = sk.data_.length ∧
    (∀ i : Nat, ((Clear sk).data_[i]?).map List.length = (sk.data_[i]?).map List.length) ∧
    (∀ row ∈ (Clear sk).data_, ∀ x ∈ row, x = 0) ∧
    (∀ k, Count (Clear sk) k = .ok 0) ∧
    Clear (Clear sk) = Clear sk := by
  have hzero : ∀ row ∈ (Clear sk).data_, ∀ x ∈ row, x = 0 := by
    intro row hrow x hx
    obtain ⟨row0, _, rfl⟩ := List.mem_map.1 hrow
    obtain ⟨_, _, rfl⟩ := List.mem_map.1 hx
    rfl
  refine ⟨rfl, rfl, rfl, ?_, ?_, hzero, ?_, ?_⟩
  · show (sk.data_.map _).length = _
    rw [List.length_map]
  · intro i
    show ((sk.data_.map _)[i]?).map List.length = _
    rw [List.getElem?_map]
    cases sk.data_[i]? with
    | none => rfl
    | some row => simp
  · intro k
    apply Count_of_zero_cells H (Clear sk) (Clear_shaped sk hs) hseed
    intro i j x hx
    obtain ⟨row, hrow, hxr⟩ := cellAt_mem _ _ _ _ hx
    exact hzero row hrow x hxr
  · unfold Clear
    simp only [List.map_map]
    congr 1
    apply List.map_congr_left
    intro row _
    simp only [Function.comp, List.map_map]
    rfl

/-- C12 at `sampleSketch`. -/
theorem Clear_effect_witness :
    Shaped sampleSketch ∧ Seeded sampleHash sampleSketch ∧
    ((Clear sampleSketch).width_ = sampleSketch.width_ ∧
    (Clear sampleSketch).depth_ = sampleSketch.depth_ ∧
    (Clear sampleSketch).hash_functions_ = sampleSketch.hash_functions_ ∧
    (Clear sampleSketch).data_.length = sampleSketch.data_.length ∧
    (∀ i : Nat, ((Clear sampleSketch).data_[i]?).map List.length =
      (sampleSketch.data_[i]?).map List.length) ∧
    (∀ row ∈ (Clear sampleSketch).data_, ∀ x ∈ row, x = 0) ∧
    (∀ k, Count (Clear sampleSketch) k = .ok 0) ∧
    Clear (Clear sampleSketch) = Clear sampleSketch) :=
  ⟨by decide, rfl, Clear_effect sampleHash sampleSketch (by decide) rfl⟩

end CountMinSketch

/-! ## Move assignment (C20) -/

namespace CountMinSketch

variable {Key : Type}

theorem pushHashes_spec (other : List (Key → Nat)) :
    ∀ (n i : Nat) (acc : List (Key → Nat)), i + n ≤ other.length →
      pushHashes other n i acc = some (acc ++ (other.drop i).take n) := by
  intro n
  induction n with
  | zero =>
    intro i acc _
    simp [pushHashes]
  | succ n ih =>
    intro i acc hle
    have hi : i < other.length := by omega
    unfold pushHashes
    rw [List.getElem?_eq_getElem hi]
    simp only
    rw [ih (i + 1) _ (by omega), List.append_assoc]
    congr 2
    rw [List.drop_eq_getElem_cons hi, List.take_succ_cons]
    rfl

/-- C20, what the code does: for sketches `a`, `b` carrying the seeded hash
functions, the move assignment `a = std::move(b)` completes and gives `a` the
width, depth and cells of `b`, but its hash functions are those `a` had before
followed by those of `b`; so for a row `i` with `a.depth ≤ i < b.depth` the
function `hash_functions_[i]` is the one seeded with `i - a.depth`, not with
`i`. -/
theorem moveAssign_appends_hashes (H : Nat → Key → Nat) (a b : CountMinSketch Key)
    (ha : Seeded H a) (hb : Seeded H b) :
    ∃ a', moveAssign a b = some a' ∧ a'.width_ = b.width_ ∧ a'.depth_ = b.depth_ ∧
      a'.data_ = b.data_ ∧
      a'.hash_functions_ = (List.range a.depth_).map H ++ (List.range b.depth_).map H ∧
      (∀ i, a.depth_ ≤ i → i < a.depth_ + b.depth_ →
        a'.hash_functions_[i]? = some (H (i - a.depth_))) := by
  have hlen : 0 + b.depth_ ≤ b.hash_functions_.length := by
    rw [hb, List.length_map, List.length_range]
    omega
  have hpush := pushHashes_spec b.hash_functions_ b.depth_ 0 a.hash_functions_ hlen
  have htake : (b.hash_functions_.drop 0).take b.depth_ = (List.range b.depth_).map H := by
    rw [List.drop_zero, hb]
    apply List.take_of_length_le
    rw [List.length_map, List.length_range]
  rw [htake, ha] at hpush
  refine ⟨{ width_ := b.width_
            depth_ := b.depth_
            data_ := b.data_
            hash_functions_ := (List.range a.depth_).map H ++ (List.range b.depth_).map H },
    ?_, rfl, rfl, rfl, rfl, ?_⟩
  · unfold moveAssign
    rw [ha, hpush]
  · intro i h1 h2
    show ((List.range a.depth_).map H ++ (List.range b.depth_).map H)[i]? = _
    rw [List.getElem?_append_right (by rw [List.length_map, List.length_range]; exact h1),
      List.length_map, List.length_range, List.getElem?_map,
      List.getElem?_range (by omega)]
    rfl

/-- The code of the move assignment at `a = shallowSketch` (a fresh sketch of
width 4 and depth 1) and `b = deepSketch` (width 4, depth 2, after `Insert(5)`):
`b.Count(5)` is 1, but after `a = std::move(b)` row 1 of `a` uses the hash
function seeded with 0 and `a.Count(5)` is 0. -/
theorem moveAssign_appends_hashes_witness :
    Seeded sampleHash shallowSketch ∧ Seeded sampleHash deepSketch ∧
    CountMinSketch.new sampleHash 4 1 = .ok shallowSketch ∧
    (∃ b0, CountMinSketch.new sampleHash 4 2 = .ok b0 ∧ Insert b0 5 = .ok deepSketch) ∧
    Count deepSketch 5 = .ok 1 ∧
    (∃ a', moveAssign shallowSketch deepSketch = some a' ∧ Count a' 5 = .ok 0) ∧
    ∃ a', moveAssign shallowSketch deepSketch = some a' ∧
      a'.width_ = deepSketch.width_ ∧ a'.depth_ = deepSketch.depth_ ∧
      a'.data_ = deepSketch.data_ ∧
      a'.hash_functions_ =
        (List.range shallowSketch.depth_).map sampleHash ++
          (List.range deepSketch.depth_).map sampleHash ∧
      (∀ i, shallowSketch.depth_ ≤ i → i < shallowSketch.depth_ + deepSketch.depth_ →
        a'.hash_functions_[i]? = some (sampleHash (i - shallowSketch.depth_))) :=
  ⟨rfl, rfl, rfl, ⟨_, rfl, rfl⟩, rfl, ⟨_, rfl, rfl⟩,
    moveAssign_appends_hashes sampleHash shallowSketch deepSketch rfl rfl⟩

end CountMinSketch

/-! ## The target size and the residency tags (C13, C14, C18) -/

namespace ArcReplacer

/-- C13, the code at two failing inputs.  On a fresh replacer of capacity 3 the
calls `RecordAccess(1, 1)`, `RecordAccess(1, 1)`, `Evict()`, `RecordAccess(2, 1)`
all complete and leave `mru_target_size_ = 2 ^ 64 - 1`: the hit in `B2` runs
`--mru_target_size_` at 0.  On a fresh replacer of capacity 1 the calls
`RecordAccess(1, 1)`, `Evict()`, `RecordAccess(1, 1)`, `Evict()`,
`RecordAccess(2, 2)`, `Evict()`, `RecordAccess(3, 2)` all complete and leave
`mru_target_size_ = 2`: the hit in `B1` runs `++mru_target_size_` at `p = C`. -/
theorem target_size_leaves_range :
    (run (ArcReplacer.new 3)
        [Op.RecordAccess 1 1 AccessType.Unknown, Op.RecordAccess 1 1 AccessType.Unknown,
          Op.Evict, Op.RecordAccess 2 1 AccessType.Unknown]).map
      (fun s => s.mru_target_size_) = some 18446744073709551615 ∧
    (run (ArcReplacer.new 1)
        [Op.RecordAccess 1 1 AccessType.Unknown, Op.Evict,
          Op.RecordAccess 1 1 AccessType.Unknown, Op.Evict,
          Op.RecordAccess 2 2 AccessType.Unknown, Op.Evict,
          Op.RecordAccess 3 2 AccessType.Unknown]).map
      (fun s => s.mru_target_size_) = some 2 := by
  decide

/-- C14, the code at two failing inputs.  `lowTargetState` is well formed with
`p = 0 ≤ C = 3`, page 1 is in `B2` and `|B2| ≥ |B1|`; `RecordAccess(2, 1)`
completes with `p = 2 ^ 64 - 1`, where the claim gives `max(p - 1, 0) = 0`.
`fullTargetState` is well formed with `p = 1 = C`, page 2 is in `B1` and
`|B1| ≥ |B2|`; `RecordAccess(3, 2)` completes with `p = 2`, where the claim
gives `min(p + 1, C) = 1`. -/
theorem ghost_hit_target_unclamped :
    (WellFormed lowTargetState ∧
      lowTargetState.mru_target_size_ ≤ lowTargetState.replacer_size_ ∧
      (1 : Int) ∈ lowTargetState.mfu_ghost_ ∧
      lowTargetState.mru_ghost_.length ≤ lowTargetState.mfu_ghost_.length ∧
      run (ArcReplacer.new 3)
        [Op.RecordAccess 1 1 AccessType.Unknown, Op.RecordAccess 1 1 AccessType.Unknown,
          Op.Evict] = some lowTargetState ∧
      (call lowTargetState (Op.RecordAccess 2 1 AccessType.Unknown)).map
        (fun s => s.mru_target_size_) = some 18446744073709551615) ∧
    (WellFormed fullTargetState ∧
      fullTargetState.mru_target_size_ ≤ fullTargetState.replacer_size_ ∧
      (2 : Int) ∈ fullTargetState.mru_ghost_ ∧
      fullTargetState.mfu_ghost_.length ≤ fullTargetState.mru_ghost_.length ∧
      run (ArcReplacer.new 1)
        [Op.RecordAccess 1 1 AccessType.Unknown, Op.Evict,
          Op.RecordAccess 1 1 AccessType.Unknown, Op.Evict,
          Op.RecordAccess 2 2 AccessType.Unknown, Op.Evict] = some fullTargetState ∧
      (call fullTargetState (Op.RecordAccess 3 2 AccessType.Unknown)).map
        (fun s => s.mru_target_size_) = some 2) := by
  decide

/-- C18, the code at a failing input: on a fresh replacer of capacity 3 the calls
`RecordAccess(1, 1)`, `RecordAccess(1, 1)` complete; the second hits frame 1 in
`T1` and moves it to `T2`, but its residency tag is still MRU. -/
theorem promoted_frame_keeps_mru_tag :
    (run (ArcReplacer.new 3)
        [Op.RecordAccess 1 1 AccessType.Unknown]).map (fun s => (s.mru_, s.mfu_)) =
      some ([1], []) ∧
    (run (ArcReplacer.new 3)
        [Op.RecordAccess 1 1 AccessType.Unknown, Op.RecordAccess 1 1 AccessType.Unknown]).map
      (fun s => (s.mru_, s.mfu_, tagOf s 1)) = some ([], [1], some ArcStatus.MRU) := by
  decide

end ArcReplacer

/-! ### The state a completing call leaves, branch by branch -/

namespace ArcReplacer

theorem Move2First_ok (s s' : ArcReplacer) (F : frame_id_t)
    (hr : Move2First s F = .ok () s') :
    (F ∈ s.mru_map_ ∧ s' = { s with
        mru_ := s.mru_.erase F
        mru_map_ := s.mru_map_.erase F
        mfu_ := F :: s.mfu_
        mfu_map_ := insert F s.mfu_map_ }) ∨
    (F ∉ s.mru_map_ ∧ F ∈ s.mfu_map_ ∧ s' = { s with
        mfu_ := F :: s.mfu_.erase F
        mfu_map_ := insert F (s.mfu_map_.erase F) }) := by
  unfold Move2First at hr
  by_cases h1 : F ∈ s.mru_map_
  · rw [if_pos h1] at hr
    injection hr with _ hr
    exact Or.inl ⟨h1, hr.symm⟩
  · rw [if_neg h1] at hr
    by_cases h2 : F ∈ s.mfu_map_
    · rw [if_pos h2] at hr
      injection hr with _ hr
      exact Or.inr ⟨h1, h2, hr.symm⟩
    · rw [if_neg h2] at hr
      simp at hr

theorem MoveGhost2First_ok (s s' : ArcReplacer) (F : frame_id_t) (P : page_id_t)
    (hr : MoveGhost2First s F P = .ok () s') :
    (P ∈ s.mru_ghost_map_ ∧ s' = { s with
        mru_ghost_ := s.mru_ghost_.erase P
        mfu_ := F :: s.mfu_
        mfu_map_ := insert F s.mfu_map_
        alive_map_ := s.alive_map_.insert F ⟨P, F, true, ArcStatus.MFU⟩
        curr_size_ := sizeIncr s.curr_size_
        ghost_map_ := s.ghost_map_.erase P
        mru_ghost_map_ := s.mru_ghost_map_.erase P }) ∨
    (P ∉ s.mru_ghost_map_ ∧ P ∈ s.mfu_ghost_map_ ∧ s' = { s with
        mfu_ghost_ := s.mfu_ghost_.erase P
        mfu_ := F :: s.mfu_
        mfu_map_ := insert F s.mfu_map_
        alive_map_ := s.alive_map_.insert F ⟨P, F, true, ArcStatus.MFU⟩
        curr_size_ := sizeIncr s.curr_size_
        ghost_map_ := s.ghost_map_.erase P
        mfu_ghost_map_ := s.mfu_ghost_map_.erase P }) := by
  unfold MoveGhost2First at hr
  by_cases h1 : P ∈ s.mru_ghost_map_
  · rw [if_pos h1] at hr
    injection hr with _ hr
    exact Or.inl ⟨h1, hr.symm⟩
  · rw [if_neg h1] at hr
    by_cases h2 : P ∈ s.mfu_ghost_map_
    · rw [if_pos h2] at hr
      injection hr with _ hr
      exact Or.inr ⟨h1, h2, hr.symm⟩
    · rw [if_neg h2] at hr
      simp at hr

/-- The three ways `RecordAccess` completes: a hit on the frame (`Move2First`),
a hit on a ghost page (`MoveGhost2First` after the target size is adapted), or a
miss, which drops the tail of `mru_ghost_`, the tail of `mfu_ghost_` or nothing
before `pushMru`. -/
theorem RecordAccess_ok (s s' : ArcReplacer) (F : frame_id_t) (P : page_id_t)
    (a : AccessType) (hr : RecordAccess s F P a = .ok () s') :
    ((LookUp s F P).isSome = true ∧ Move2First s F = .ok () s') ∨
    ((LookUp s F P).isSome = false ∧ (s.ghost_map_.find P).isSome = true ∧
      ∃ p', MoveGhost2First { s with mru_target_size_ := p' } F P = .ok () s') ∨
    ((LookUp s F P).isSome = false ∧ (s.ghost_map_.find P).isSome = false ∧
      ((s.mru_.length + s.mru_ghost_.length = s.replacer_size_ ∧
          ∃ last, s.mru_ghost_.getLast? = some last ∧
            s' = pushMru { s with
              mru_ghost_ := s.mru_ghost_.dropLast
              mru_ghost_map_ := s.mru_ghost_map_.erase last
              ghost_map_ := s.ghost_map_.erase last } F P) ∨
        (s.mru_.length + s.mru_ghost_.length < s.replacer_size_ ∧
          s.mru_.length + s.mru_ghost_.length + s.mfu_.length + s.mfu_ghost_.length =
            (2 * s.replacer_size_) % SIZE_MOD ∧
          ∃ last, s.mfu_ghost_.getLast? = some last ∧
            s' = pushMru { s with
              mfu_ghost_ := s.mfu_ghost_.dropLast
              mfu_ghost_map_ := s.mfu_ghost_map_.erase last
              ghost_map_ := s.ghost_map_.erase last } F P) ∨
        (s.mru_.length + s.mru_ghost_.length < s.replacer_size_ ∧
          s.mru_.length + s.mru_ghost_.length + s.mfu_.length + s.mfu_ghost_.length ≠
            (2 * s.replacer_size_) % SIZE_MOD ∧
          s' = pushMru s F P))) := by
  unfold RecordAccess at hr
  by_cases hhit : (LookUp s F P).isSome = true
  · rw [if_pos hhit] at hr
    exact Or.inl ⟨hhit, hr⟩
  · rw [if_neg hhit] at hr
    have hhit' : (LookUp s F P).isSome = false := by simpa using hhit
    by_cases hg : (LookUpGhost s F P).isSome = true
    · rw [if_pos hg] at hr
      refine Or.inr (Or.inl ⟨hhit', hg, ?_⟩)
      by_cases h1 : P ∈ s.mru_ghost_map_
      · rw [if_pos h1] at hr
        by_cases h2 : s.mru_ghost_.length ≥ s.mfu_ghost_.length
        · rw [if_pos h2] at hr
          exact ⟨_, hr⟩
        · rw [if_neg h2] at hr
          by_cases h3 : s.mru_ghost_.length = 0
          · rw [if_pos h3] at hr; simp at hr
          · rw [if_neg h3] at hr
            exact ⟨_, hr⟩
      · rw [if_neg h1] at hr
        by_cases h1' : P ∈ s.mfu_ghost_map_
        · rw [if_pos h1'] at hr
          by_cases h2 : s.mfu_ghost_.length ≥ s.mru_ghost_.length
          · rw [if_pos h2] at hr
            exact ⟨_, hr⟩
          · rw [if_neg h2] at hr
            by_cases h3 : s.mfu_ghost_.length = 0
            · rw [if_pos h3] at hr; simp at hr
            · rw [if_neg h3] at hr
              exact ⟨_, hr⟩
        · rw [if_neg h1'] at hr; simp at hr
    · rw [if_neg hg] at hr
      have hg' : (s.ghost_map_.find P).isSome = false := by
        simpa [LookUpGhost] using hg
      refine Or.inr (Or.inr ⟨hhit', hg', ?_⟩)
      by_cases h1 : s.mru_.length + s.mru_ghost_.length = s.replacer_size_
      · rw [if_pos h1] at hr
        cases hl : s.mru_ghost_.getLast? with
        | none => rw [hl] at hr; simp at hr
        | some last =>
          rw [hl] at hr
          injection hr with _ hr
          exact Or.inl ⟨h1, last, rfl, hr.symm⟩
      · rw [if_neg h1] at hr
        by_cases h2 : s.mru_.length + s.mru_ghost_.length < s.replacer_size_
        · rw [if_pos h2] at hr
          dsimp only at hr
          by_cases h3 : s.mru_.length + s.mru_ghost_.length + s.mfu_.length +
              s.mfu_ghost_.length = (2 * s.replacer_size_) % SIZE_MOD
          · rw [if_pos h3] at hr
            cases hl : s.mfu_ghost_.getLast? with
            | none => rw [hl] at hr; simp at hr
            | some last =>
              rw [hl] at hr
              injection hr with _ hr
              exact Or.inr (Or.inl ⟨h2, h3, last, rfl, hr.symm⟩)
          · rw [if_neg h3] at hr
            injection hr with _ hr
            exact Or.inr (Or.inr ⟨h2, h3, hr.symm⟩)
        · rw [if_neg h2] at hr; simp at hr

theorem SetEvictable_ok (s s' : ArcReplacer) (F : frame_id_t) (b : Bool)
    (hr : SetEvictable s F b = .ok () s') :
    ∃ size1, s' = { s with
      curr_size_ := size1
      alive_map_ := s.alive_map_.modify F (fun st0 => { st0 with evictable_ := b }) } := by
  unfold SetEvictable at hr
  cases hfind : s.alive_map_.find F with
  | none => rw [hfind] at hr; simp at hr
  | some st =>
    rw [hfind] at hr
    injection hr with _ hr
    exact ⟨_, hr.symm⟩

theorem Remove_ok (s s' : ArcReplacer) (F : frame_id_t) (hr : Remove s F = .ok () s') :
    (s.alive_map_.find F = none ∧ s' = s) ∨
    ((s.alive_map_.find F).isSome = true ∧
      ((F ∈ s.mru_map_ ∧ s' = { s with
          curr_size_ := sizeDecr s.curr_size_
          alive_map_ := s.alive_map_.erase F
          mru_ := s.mru_.erase F
          mru_map_ := s.mru_map_.erase F }) ∨
        (F ∉ s.mru_map_ ∧ F ∈ s.mfu_map_ ∧ s' = { s with
          curr_size_ := sizeDecr s.curr_size_
          alive_map_ := s.alive_map_.erase F
          mfu_ := s.mfu_.erase F
          mfu_map_ := s.mfu_map_.erase F }) ∨
        (F ∉ s.mru_map_ ∧ F ∉ s.mfu_map_ ∧ s' = { s with
          curr_size_ := sizeDecr s.curr_size_
          alive_map_ := s.alive_map_.erase F }))) := by
  unfold Remove at hr
  cases hfind : s.alive_map_.find F with
  | none =>
    rw [hfind] at hr
    injection hr with _ hr
    exact Or.inl ⟨rfl, hr.symm⟩
  | some st =>
    rw [hfind] at hr
    simp only at hr
    refine Or.inr ⟨rfl, ?_⟩
    by_cases hst : st.evictable_ = false
    · rw [if_pos hst] at hr; simp at hr
    · rw [if_neg hst] at hr
      by_cases h1 : F ∈ s.mru_map_
      · rw [if_pos h1] at hr
        injection hr with _ hr
        exact Or.inl ⟨h1, hr.symm⟩
      · rw [if_neg h1] at hr
        by_cases h2 : F ∈ s.mfu_map_
        · rw [if_pos h2] at hr
          injection hr with _ hr
          exact Or.inr (Or.inl ⟨h1, h2, hr.symm⟩)
        · rw [if_neg h2] at hr
          injection hr with _ hr
          exact Or.inr (Or.inr ⟨h1, h2, hr.symm⟩)

theorem call_RecordAccess_ok (s s' : ArcReplacer) (f : frame_id_t) (p : page_id_t)
    (a : AccessType) (hr : call s (Op.RecordAccess f p a) = some s') :
    RecordAccess s f p a = .ok () s' := by
  simp only [call] at hr
  cases ho : RecordAccess s f p a with
  | raise e t => rw [ho] at hr; simp at hr
  | ok u t =>
    rw [ho] at hr
    injection hr with hr
    subst hr
    rfl

theorem call_SetEvictable_ok (s s' : ArcReplacer) (f : frame_id_t) (b : Bool)
    (hr : call s (Op.SetEvictable f b) = some s') : SetEvictable s f b = .ok () s' := by
  simp only [call] at hr
  cases ho : SetEvictable s f b with
  | raise e t => rw [ho] at hr; simp at hr
  | ok u t =>
    rw [ho] at hr
    injection hr with hr
    subst hr
    rfl

theorem call_Evict_ok (s s' : ArcReplacer) (hr : call s Op.Evict = some s') :
    ∃ v, Evict s = .ok v s' := by
  simp only [call] at hr
  cases ho : Evict s with
  | raise e t => rw [ho] at hr; simp at hr
  | ok u t =>
    rw [ho] at hr
    injection hr with hr
    subst hr
    exact ⟨u, rfl⟩

theorem call_Remove_ok (s s' : ArcReplacer) (f : frame_id_t)
    (hr : call s (Op.Remove f) = some s') : Remove s f = .ok () s' := by
  simp only [call] at hr
  cases ho : Remove s f with
  | raise e t => rw [ho] at hr; simp at hr
  | ok u t =>
    rw [ho] at hr
    injection hr with hr
    subst hr
    rfl

theorem mem_dropLast_of_ne {l : List Int} {x last : Int} (hl : l.getLast? = some last)
    (hx : x ∈ l) (hne : x ≠ last) : x ∈ l.dropLast := by
  have e := List.dropLast_append_getLast? last hl
  rw [← e] at hx
  rcases List.mem_append.1 hx with h | h
  · exact h
  · simp at h; exact absurd h hne

theorem length_dropLast_of_getLast {l : List Int} {last : Int}
    (hl : l.getLast? = some last) : l.dropLast.length + 1 = l.length := by
  have e := List.dropLast_append_getLast? last hl
  have := congrArg List.length e
  simpa using this

end ArcReplacer

/-! ## The bounds on the list sizes (C17) -/

namespace ArcReplacer

theorem sizeInv_new (C : Nat) : SizeInv (ArcReplacer.new C) := by
  refine ⟨?_, ?_, ?_, ?_, ?_, ?_⟩ <;> simp [ArcReplacer.new]

theorem sub_erase {m : Finset Int} {l : List Int} (h : ∀ x ∈ m, x ∈ l) (F : Int) :
    ∀ x ∈ m.erase F, x ∈ l.erase F := by
  intro x hx
  rw [Finset.mem_erase] at hx
  exact (List.mem_erase_of_ne hx.1).2 (h x hx.2)

theorem sub_insert {m : Finset Int} {l : List Int} (h : ∀ x ∈ m, x ∈ l) (F : Int) :
    ∀ x ∈ insert F m, x ∈ F :: l := by
  intro x hx
  rw [Finset.mem_insert] at hx
  rcases hx with rfl | hx
  · exact List.mem_cons_self _ _
  · exact List.mem_cons_of_mem _ (h x hx)

theorem sub_dropLast {m : Finset Int} {l : List Int} (h : ∀ x ∈ m, x ∈ l) {last : Int}
    (hl : l.getLast? = some last) : ∀ x ∈ m.erase last, x ∈ l.dropLast := by
  intro x hx
  rw [Finset.mem_erase] at hx
  exact mem_dropLast_of_ne hl (h x hx.2) hx.1

theorem length_erase_add_one {l : List Int} {F : Int} (h : F ∈ l) :
    (l.erase F).length + 1 = l.length := by
  have := List.length_erase_of_mem h
  have := List.length_pos_of_mem h
  omega

theorem Move2First_sizeInv (s s' : ArcReplacer) (F : frame_id_t) (h : SizeInv s)
    (hr : Move2First s F = .ok () s') : SizeInv s' := by
  rcases Move2First_ok s s' F hr with ⟨h1, rfl⟩ | ⟨_, h2, rfl⟩
  · have e := length_erase_add_one (h.mru_sub F h1)
    have h1 := h.recency
    have h2 := h.total
    refine ⟨?_, ?_, sub_erase h.mru_sub F, sub_insert h.mfu_sub F, h.mru_ghost_sub,
      h.mfu_ghost_sub⟩
    · dsimp only; omega
    · dsimp only [List.length_cons]; omega
  · have e := length_erase_add_one (h.mfu_sub F h2)
    have h1 := h.recency
    have h2 := h.total
    refine ⟨h1, ?_, h.mru_sub, sub_insert (sub_erase h.mfu_sub F) F, h.mru_ghost_sub,
      h.mfu_ghost_sub⟩
    dsimp only [List.length_cons]; omega

theorem MoveGhost2First_sizeInv (s s' : ArcReplacer) (F : frame_id_t) (P : page_id_t)
    (h : SizeInv s) (hr : MoveGhost2First s F P = .ok () s') : SizeInv s' := by
  rcases MoveGhost2First_ok s s' F P hr with ⟨h1, rfl⟩ | ⟨_, h2, rfl⟩
  · have e := length_erase_add_one (h.mru_ghost_sub P h1)
    have h1 := h.recency
    have h2 := h.total
    refine ⟨?_, ?_, h.mru_sub, sub_insert h.mfu_sub F, sub_erase h.mru_ghost_sub P,
      h.mfu_ghost_sub⟩
    · dsimp only; omega
    · dsimp only [List.length_cons]; omega
  · have e := length_erase_add_one (h.mfu_ghost_sub P h2)
    have h1 := h.recency
    have h2 := h.total
    refine ⟨h1, ?_, h.mru_sub, sub_insert h.mfu_sub F, h.mru_ghost_sub,
      sub_erase h.mfu_ghost_sub P⟩
    dsimp only [List.length_cons]; omega

theorem RecordAccess_sizeInv (s s' : ArcReplacer) (F : frame_id_t) (P : page_id_t)
    (a : AccessType) (h : SizeInv s) (hr : RecordAccess s F P a = .ok () s') :
    SizeInv s' := by
  rcases RecordAccess_ok s s' F P a hr with ⟨_, hm⟩ | ⟨_, _, p', hm⟩ |
    ⟨_, _, ⟨hc, last, hl, rfl⟩ | ⟨hc, ht, last, hl, rfl⟩ | ⟨hc, ht, rfl⟩⟩
  · exact Move2First_sizeInv s s' F h hm
  · have h' : SizeInv { s with mru_target_size_ := p' } :=
      ⟨h.recency, h.total, h.mru_sub, h.mfu_sub, h.mru_ghost_sub, h.mfu_ghost_sub⟩
    exact MoveGhost2First_sizeInv _ s' F P h' hm
  · have e := length_dropLast_of_getLast hl
    have h1 := h.recency
    have h2 := h.total
    refine ⟨?_, ?_, sub_insert h.mru_sub F, h.mfu_sub, sub_dropLast h.mru_ghost_sub hl,
      h.mfu_ghost_sub⟩
    · dsimp only [pushMru, List.length_cons]; omega
    · dsimp only [pushMru, List.length_cons]; omega
  · have e := length_dropLast_of_getLast hl
    have h1 := h.recency
    have h2 := h.total
    refine ⟨?_, ?_, sub_insert h.mru_sub F, h.mfu_sub, h.mru_ghost_sub,
      sub_dropLast h.mfu_ghost_sub hl⟩
    · dsimp only [pushMru, List.length_cons]; omega
    · dsimp only [pushMru, List.length_cons]; omega
  · have h1 := h.recency
    have h2 := h.total
    refine ⟨?_, ?_, sub_insert h.mru_sub F, h.mfu_sub, h.mru_ghost_sub, h.mfu_ghost_sub⟩
    · dsimp only [pushMru, List.length_cons]; omega
    · dsimp only [pushMru, List.length_cons]; omega

theorem Evict_sizeInv (s s' : ArcReplacer) (v : Option frame_id_t) (h : SizeInv s)
    (hr : Evict s = .ok v s') : SizeInv s' := by
  rcases Evict_ok s s' v hr with ⟨_, rfl, _, _⟩ | ⟨F, _, hv⟩ | ⟨F, _, hv⟩
  · exact h
  · obtain ⟨st, _, _, hF, _, rfl⟩ := evictVictim_mru_ok s s' F v hv
    have e := length_erase_add_one (h.mru_sub F hF)
    have h1 := h.recency
    have h2 := h.total
    refine ⟨?_, ?_, sub_erase h.mru_sub F, h.mfu_sub, sub_insert h.mru_ghost_sub _,
      h.mfu_ghost_sub⟩
    · dsimp only [List.length_cons]; omega
    · dsimp only [List.length_cons]; omega
  · obtain ⟨st, _, _, hF, _, rfl⟩ := evictVictim_mfu_ok s s' F v hv
    have e := length_erase_add_one (h.mfu_sub F hF)
    have h1 := h.recency
    have h2 := h.total
    refine ⟨h1, ?_, h.mru_sub, sub_erase h.mfu_sub F, h.mru_ghost_sub,
      sub_insert h.mfu_ghost_sub _⟩
    dsimp only [List.length_cons]; omega

theorem Remove_sizeInv (s s' : ArcReplacer) (F : frame_id_t) (h : SizeInv s)
    (hr : Remove s F = .ok () s') : SizeInv s' := by
  rcases Remove_ok s s' F hr with ⟨_, rfl⟩ | ⟨_, ⟨hF, rfl⟩ | ⟨_, hF, rfl⟩ | ⟨_, _, rfl⟩⟩
  · exact h
  · have e := length_erase_add_one (h.mru_sub F hF)
    have h1 := h.recency
    have h2 := h.total
    refine ⟨?_, ?_, sub_erase h.mru_sub F, h.mfu_sub, h.mru_ghost_sub, h.mfu_ghost_sub⟩
    · dsimp only; omega
    · dsimp only; omega
  · have e := length_erase_add_one (h.mfu_sub F hF)
    have h1 := h.recency
    have h2 := h.total
    refine ⟨h1, ?_, h.mru_sub, sub_erase h.mfu_sub F, h.mru_ghost_sub, h.mfu_ghost_sub⟩
    dsimp only; omega
  · exact ⟨h.recency, h.total, h.mru_sub, h.mfu_sub, h.mru_ghost_sub, h.mfu_ghost_sub⟩

theorem call_sizeInv (s s' : ArcReplacer) (op : Op) (h : SizeInv s)
    (hr : call s op = some s') : SizeInv s' := by
  cases op with
  | RecordAccess f p a => exact RecordAccess_sizeInv s s' f p a h (call_RecordAccess_ok s s' f p a hr)
  | SetEvictable f b =>
    obtain ⟨z, rfl⟩ := SetEvictable_ok s s' f b (call_SetEvictable_ok s s' f b hr)
    exact ⟨h.recency, h.total, h.mru_sub, h.mfu_sub, h.mru_ghost_sub, h.mfu_ghost_sub⟩
  | Evict =>
    obtain ⟨v, hv⟩ := call_Evict_ok s s' hr
    exact Evict_sizeInv s s' v h hv
  | Remove f => exact Remove_sizeInv s s' f h (call_Remove_ok s s' f hr)

theorem run_sizeInv (ops : List Op) : ∀ (s s' : ArcReplacer), SizeInv s →
    run s ops = some s' → SizeInv s' := by
  induction ops with
  | nil =>
    intro s s' h hr
    simp only [run] at hr
    injection hr with hr
    subst hr
    exact h
  | cons op rest ih =>
    intro s s' h hr
    simp only [run] at hr
    cases hc : call s op with
    | none => rw [hc] at hr; simp at hr
    | some s1 =>
      rw [hc] at hr
      exact ih s1 s' (call_sizeInv s s1 op h hc) hr

theorem call_capacity (s s' : ArcReplacer) (op : Op) (hr : call s op = some s') :
    s'.replacer_size_ = s.replacer_size_ := by
  cases op with
  | RecordAccess f p a =>
    rcases RecordAccess_ok s s' f p a (call_RecordAccess_ok s s' f p a hr) with
      ⟨_, hm⟩ | ⟨_, _, p', hm⟩ |
      ⟨_, _, ⟨_, last, _, rfl⟩ | ⟨_, _, last, _, rfl⟩ | ⟨_, _, rfl⟩⟩
    · rcases Move2First_ok s s' f hm with ⟨_, rfl⟩ | ⟨_, _, rfl⟩ <;> rfl
    · rcases MoveGhost2First_ok _ s' f p hm with ⟨_, rfl⟩ | ⟨_, _, rfl⟩ <;> rfl
    · rfl
    · rfl
    · rfl
  | SetEvictable f b =>
    obtain ⟨z, rfl⟩ := SetEvictable_ok s s' f b (call_SetEvictable_ok s s' f b hr)
    rfl
  | Evict =>
    obtain ⟨v, hv⟩ := call_Evict_ok s s' hr
    rcases Evict_ok s s' v hv with ⟨_, rfl, _, _⟩ | ⟨F, _, hv⟩ | ⟨F, _, hv⟩
    · rfl
    · obtain ⟨st, _, _, _, _, rfl⟩ := evictVictim_mru_ok s s' F v hv
      rfl
    · obtain ⟨st, _, _, _, _, rfl⟩ := evictVictim_mfu_ok s s' F v hv
      rfl
  | Remove f =>
    rcases Remove_ok s s' f (call_Remove_ok s s' f hr) with
      ⟨_, rfl⟩ | ⟨_, ⟨_, rfl⟩ | ⟨_, _, rfl⟩ | ⟨_, _, rfl⟩⟩ <;> rfl

theorem run_capacity (ops : List Op) : ∀ (s s' : ArcReplacer),
    run s ops = some s' → s'.replacer_size_ = s.replacer_size_ := by
  induction ops with
  | nil =>
    intro s s' hr
    simp only [run] at hr
    injection hr with hr
    subst hr
    rfl
  | cons op rest ih =>
    intro s s' hr
    simp only [run] at hr
    cases hc : call s op with
    | none => rw [hc] at hr; simp at hr
    | some s1 =>
      rw [hc] at hr
      rw [ih s1 s' hr, call_capacity s s1 op hc]

/-- C17: whatever the capacity `C` and the calls, if every call of the sequence
applied to a fresh `ArcReplacer(C)` completes (taking the tail of an empty ghost
list counts as not completing), the state it leaves has `|T1| + |B1| ≤ C` and
`|T1| + |T2| + |B1| + |B2| ≤ 2C`.  Every prefix of such a sequence is such a
sequence, so the bounds hold after every operation. -/
theorem list_sizes_bounded (C : Nat) (ops : List Op) (s : ArcReplacer)
    (hrun : run (ArcReplacer.new C) ops = some s) :
    s.replacer_size_ = C ∧
    s.mru_.length + s.mru_ghost_.length ≤ C ∧
    s.mru_.length + s.mfu_.length + s.mru_ghost_.length + s.mfu_ghost_.length ≤ 2 * C := by
  have hc : s.replacer_size_ = C := run_capacity ops _ s hrun
  have h := run_sizeInv ops _ s (sizeInv_new C) hrun
  have h1 := h.recency
  have h2 := h.total
  have h3 : (2 * s.replacer_size_) % SIZE_MOD ≤ 2 * s.replacer_size_ := Nat.mod_le _ _
  rw [hc] at h1 h2 h3
  exact ⟨hc, h1, by omega⟩

/-- C17 on the calls of `sampleCalls`, which all complete on a fresh replacer of
capacity 3. -/
theorem list_sizes_bounded_witness :
    run (ArcReplacer.new 3) sampleCalls = some sampleFinal ∧
    (sampleFinal.replacer_size_ = 3 ∧
      sampleFinal.mru_.length + sampleFinal.mru_ghost_.length ≤ 3 ∧
      sampleFinal.mru_.length + sampleFinal.mfu_.length + sampleFinal.mru_ghost_.length +
        sampleFinal.mfu_ghost_.length ≤ 2 * 3) :=
  ⟨by decide, list_sizes_bounded 3 sampleCalls sampleFinal (by decide)⟩

end ArcReplacer

/-! ## Ghost hits and misses of `RecordAccess` (C15, C16) -/

namespace ArcReplacer

theorem WellFormed.find_none {s : ArcReplacer} (h : WellFormed s) (F : frame_id_t)
    (hF : F ∉ s.mru_ ++ s.mfu_) : s.alive_map_.find F = none := by
  cases hfind : s.alive_map_.find F with
  | none => rfl
  | some st =>
    exfalso
    exact hF (List.mem_append.2 (h.mem_of_find F st hfind))

theorem WellFormed.ghost_find_none {s : ArcReplacer} (h : WellFormed s) (P : page_id_t)
    (hP : P ∉ s.mru_ghost_ ++ s.mfu_ghost_) : s.ghost_map_.find P = none := by
  cases hfind : s.ghost_map_.find P with
  | none => rfl
  | some st =>
    exfalso
    obtain ⟨e, he, rfl⟩ := (HMap.find_isSome_iff s.ghost_map_ P).1 (by rw [hfind]; rfl)
    exact hP (h.ghost_only e he)

theorem LookUp_miss (s : ArcReplacer) (F : frame_id_t) (P : page_id_t)
    (hfind : s.alive_map_.find F = none) : ¬ (LookUp s F P).isSome = true := by
  unfold LookUp
  rw [hfind]
  simp

theorem evictableCount_le (s : ArcReplacer) :
    evictableCount s ≤ s.mru_.length + s.mfu_.length := by
  unfold evictableCount
  calc ((s.mru_ ++ s.mfu_).dedup.filter (isEvictable s)).length
      ≤ (s.mru_ ++ s.mfu_).dedup.length := List.length_filter_le _ _
    _ ≤ (s.mru_ ++ s.mfu_).length := (List.dedup_sublist _).length_le
    _ = s.mru_.length + s.mfu_.length := List.length_append _ _

theorem WellFormed.size_incr {s : ArcReplacer} (h : WellFormed s)
    (hv : ∀ f ∈ s.mru_ ++ s.mfu_, validFrameId f) :
    sizeIncr s.curr_size_ = s.curr_size_ + 1 := by
  apply sizeIncr_of_lt
  have h1 := evictableCount_le s
  have h2 := length_le_of_nodup_valid _ h.frames_nodup hv
  rw [List.length_append] at h2
  rw [h.size_counts]
  have : (2 : Nat) ^ 32 + 1 < SIZE_MOD := by unfold SIZE_MOD; norm_num
  omega

/-- C16: in a well-formed state (frame ids in the range of `frame_id_t`), for a
frame `F` that is not resident: if `P` is in `B1`, `RecordAccess(F, P)`
completes, removes `P` from `mru_ghost_`, from `mru_ghost_map_` and from
`ghost_map_`, leaves `mfu_ghost_`, its map and `mru_` unchanged, makes `F` the
head of `mfu_` with the new status `(P, F, evictable, MFU)` in `alive_map_`
(no other frame's status changes), and `Size()` grows by exactly 1; likewise
with `B2` for `B1`; and `LookUpGhost` gives the same answer whatever frame id
it is given, a hit exactly when `P` is in `B1` or `B2`. -/
theorem RecordAccess_ghost_hit_effect (s : ArcReplacer) (F : frame_id_t) (P : page_id_t)
    (a : AccessType) (h : WellFormed s) (hv : ∀ f ∈ s.mru_ ++ s.mfu_, validFrameId f)
    (hF : F ∉ s.mru_ ++ s.mfu_) :
    (P ∈ s.mru_ghost_ → ∃ s', RecordAccess s F P a = .ok () s' ∧
      s'.mru_ghost_ = s.mru_ghost_.erase P ∧ P ∉ s'.mru_ghost_ ∧
      s'.mru_ghost_map_ = s.mru_ghost_map_.erase P ∧
      s'.ghost_map_ = s.ghost_map_.erase P ∧ s'.ghost_map_.find P = none ∧
      s'.mfu_ghost_ = s.mfu_ghost_ ∧ s'.mfu_ghost_map_ = s.mfu_ghost_map_ ∧
      s'.mru_ = s.mru_ ∧ s'.mru_map_ = s.mru_map_ ∧
      s'.mfu_ = F :: s.mfu_ ∧
      s'.alive_map_.find F = some ⟨P, F, true, ArcStatus.MFU⟩ ∧
      (∀ G, G ≠ F → s'.alive_map_.find G = s.alive_map_.find G) ∧
      s'.Size = s.Size + 1) ∧
    (P ∈ s.mfu_ghost_ → ∃ s', RecordAccess s F P a = .ok () s' ∧
      s'.mfu_ghost_ = s.mfu_ghost_.erase P ∧ P ∉ s'.mfu_ghost_ ∧
      s'.mfu_ghost_map_ = s.mfu_ghost_map_.erase P ∧
      s'.ghost_map_ = s.ghost_map_.erase P ∧ s'.ghost_map_.find P = none ∧
      s'.mru_ghost_ = s.mru_ghost_ ∧ s'.mru_ghost_map_ = s.mru_ghost_map_ ∧
      s'.mru_ = s.mru_ ∧ s'.mru_map_ = s.mru_map_ ∧
      s'.mfu_ = F :: s.mfu_ ∧
      s'.alive_map_.find F = some ⟨P, F, true, ArcStatus.MFU⟩ ∧
      (∀ G, G ≠ F → s'.alive_map_.find G = s.alive_map_.find G) ∧
      s'.Size = s.Size + 1) ∧
    (∀ G, LookUpGhost s G P = LookUpGhost s F P) ∧
    ((LookUpGhost s F P).isSome = true ↔ P ∈ s.mru_ghost_ ∨ P ∈ s.mfu_ghost_) := by
  have hfind := h.find_none F hF
  have hmiss := LookUp_miss s F P hfind
  have hsz := h.size_incr hv
  have hB1 := (List.nodup_append.1 h.ghosts_nodup).1
  have hB2 := (List.nodup_append.1 h.ghosts_nodup).2.1
  have hdisj := (List.nodup_append.1 h.ghosts_nodup).2.2
  have ferase : (s.ghost_map_.erase P).find P = none := by
    rw [HMap.find_erase, if_pos rfl]
  have finsF : ∀ st : FrameStatus, (s.alive_map_.insert F st).find F = some st := by
    intro st; rw [HMap.find_insert, if_pos rfl]
  have finsG : ∀ (st : FrameStatus) (G : frame_id_t), G ≠ F →
      (s.alive_map_.insert F st).find G = s.alive_map_.find G := by
    intro st G hG; rw [HMap.find_insert, if_neg hG]
  refine ⟨?_, ?_, fun _ => rfl, ?_⟩
  · intro hP
    have hg : (LookUpGhost s F P).isSome = true :=
      h.ghost_has P (List.mem_append_left _ hP)
    have hmap : P ∈ s.mru_ghost_map_ := by rw [h.mru_ghost_keys, List.mem_toFinset]; exact hP
    have hlen : s.mru_ghost_.length ≠ 0 := by
      have := List.length_pos_of_mem hP; omega
    have step : ∀ p', ∃ s', MoveGhost2First { s with mru_target_size_ := p' } F P = .ok () s' ∧
        s'.mru_ghost_ = s.mru_ghost_.erase P ∧ P ∉ s'.mru_ghost_ ∧
        s'.mru_ghost_map_ = s.mru_ghost_map_.erase P ∧
        s'.ghost_map_ = s.ghost_map_.erase P ∧ s'.ghost_map_.find P = none ∧
        s'.mfu_ghost_ = s.mfu_ghost_ ∧ s'.mfu_ghost_map_ = s.mfu_ghost_map_ ∧
        s'.mru_ = s.mru_ ∧ s'.mru_map_ = s.mru_map_ ∧
        s'.mfu_ = F :: s.mfu_ ∧
        s'.alive_map_.find F = some ⟨P, F, true, ArcStatus.MFU⟩ ∧
        (∀ G, G ≠ F → s'.alive_map_.find G = s.alive_map_.find G) ∧
        s'.Size = s.Size + 1 := by
      intro p'
      refine ⟨{ s with
          mru_target_size_ := p'
          mru_ghost_ := s.mru_ghost_.erase P
          mfu_ := F :: s.mfu_
          mfu_map_ := insert F s.mfu_map_
          alive_map_ := s.alive_map_.insert F ⟨P, F, true, ArcStatus.MFU⟩
          curr_size_ := sizeIncr s.curr_size_
          ghost_map_ := s.ghost_map_.erase P
          mru_ghost_map_ := s.mru_ghost_map_.erase P },
        ?_, rfl, ?_, rfl, rfl, ferase, rfl, rfl, rfl, rfl, rfl, finsF _, finsG _, hsz⟩
      · unfold MoveGhost2First
        rw [if_pos hmap]
      · exact fun hm => (hB1.mem_erase_iff.1 hm).1 rfl
    unfold RecordAccess
    rw [if_neg hmiss, if_pos hg, if_pos hmap]
    by_cases h2 : s.mru_ghost_.length ≥ s.mfu_ghost_.length
    · rw [if_pos h2]
      exact step _
    · rw [if_neg h2, if_neg hlen]
      exact step _
  · intro hP
    have hg : (LookUpGhost s F P).isSome = true :=
      h.ghost_has P (List.mem_append_right _ hP)
    have hmap : P ∈ s.mfu_ghost_map_ := by rw [h.mfu_ghost_keys, List.mem_toFinset]; exact hP
    have hnot : P ∉ s.mru_ghost_map_ := by
      rw [h.mru_ghost_keys, List.mem_toFinset]
      exact fun hm => hdisj hm hP
    have hlen : s.mfu_ghost_.length ≠ 0 := by
      have := List.length_pos_of_mem hP; omega
    have step : ∀ p', ∃ s', MoveGhost2First { s with mru_target_size_ := p' } F P = .ok () s' ∧
        s'.mfu_ghost_ = s.mfu_ghost_.erase P ∧ P ∉ s'.mfu_ghost_ ∧
        s'.mfu_ghost_map_ = s.mfu_ghost_map_.erase P ∧
        s'.ghost_map_ = s.ghost_map_.erase P ∧ s'.ghost_map_.find P = none ∧
        s'.mru_ghost_ = s.mru_ghost_ ∧ s'.mru_ghost_map_ = s.mru_ghost_map_ ∧
        s'.mru_ = s.mru_ ∧ s'.mru_map_ = s.mru_map_ ∧
        s'.mfu_ = F :: s.mfu_ ∧
        s'.alive_map_.find F = some ⟨P, F, true, ArcStatus.MFU⟩ ∧
        (∀ G, G ≠ F → s'.alive_map_.find G = s.alive_map_.find G) ∧
        s'.Size = s.Size + 1 := by
      intro p'
      refine ⟨{ s with
          mru_target_size_ := p'
          mfu_ghost_ := s.mfu_ghost_.erase P
          mfu_ := F :: s.mfu_
          mfu_map_ := insert F s.mfu_map_
          alive_map_ := s.alive_map_.insert F ⟨P, F, true, ArcStatus.MFU⟩
          curr_size_ := sizeIncr s.curr_size_
          ghost_map_ := s.ghost_map_.erase P
          mfu_ghost_map_ := s.mfu_ghost_map_.erase P },
        ?_, rfl, ?_, rfl, rfl, ferase, rfl, rfl, rfl, rfl, rfl, finsF _, finsG _, hsz⟩
      · unfold MoveGhost2First
        rw [if_neg hnot, if_pos hmap]
      · exact fun hm => (hB2.mem_erase_iff.1 hm).1 rfl
    unfold RecordAccess
    rw [if_neg hmiss, if_pos hg, if_neg hnot, if_pos hmap]
    by_cases h2 : s.mfu_ghost_.length ≥ s.mru_ghost_.length
    · rw [if_pos h2]
      exact step _
    · rw [if_neg h2, if_neg hlen]
      exact step _
  · constructor
    · intro hg
      obtain ⟨e, he, rfl⟩ := (HMap.find_isSome_iff s.ghost_map_ _).1 hg
      exact List.mem_append.1 (h.ghost_only e he)
    · intro hP
      exact h.ghost_has P (List.mem_append.2 hP)

/-- C16 at `sampleMid` (page 3 in `B1`, frame 4 not resident). -/
theorem RecordAccess_ghost_hit_effect_witness :
    WellFormed sampleMid ∧ (∀ f ∈ sampleMid.mru_ ++ sampleMid.mfu_, validFrameId f) ∧
    (4 : Int) ∉ sampleMid.mru_ ++ sampleMid.mfu_ ∧ (3 : Int) ∈ sampleMid.mru_ghost_ ∧
    ∃ s', RecordAccess sampleMid 4 3 AccessType.Unknown = .ok () s' ∧
      s'.mru_ghost_ = sampleMid.mru_ghost_.erase 3 ∧ (3 : Int) ∉ s'.mru_ghost_ ∧
      s'.mru_ghost_map_ = sampleMid.mru_ghost_map_.erase 3 ∧
      s'.ghost_map_ = sampleMid.ghost_map_.erase 3 ∧ s'.ghost_map_.find 3 = none ∧
      s'.mfu_ghost_ = sampleMid.mfu_ghost_ ∧ s'.mfu_ghost_map_ = sampleMid.mfu_ghost_map_ ∧
      s'.mru_ = sampleMid.mru_ ∧ s'.mru_map_ = sampleMid.mru_map_ ∧
      s'.mfu_ = 4 :: sampleMid.mfu_ ∧
      s'.alive_map_.find 4 = some ⟨3, 4, true, ArcStatus.MFU⟩ ∧
      (∀ G, G ≠ 4 → s'.alive_map_.find G = sampleMid.alive_map_.find G) ∧
      s'.Size = sampleMid.Size + 1 :=
  ⟨by decide, by decide, by decide, by decide,
    (RecordAccess_ghost_hit_effect sampleMid 4 3 AccessType.Unknown (by decide) (by decide)
      (by decide)).1 (by decide)⟩

theorem getLast_of_length_pos (l : List Int) (h : 0 < l.length) :
    ∃ last, l.getLast? = some last := by
  cases hl : l.getLast? with
  | some last => exact ⟨last, rfl⟩
  | none =>
    rw [List.getLast?_eq_none_iff] at hl
    subst hl
    simp at h

/-- C15, as stated, fails: a fresh replacer of capacity `2 ^ 63` satisfies the
invariants of §3.1 and has room, frame 1 is not resident and page 1 is in no
list, yet `RecordAccess(1, 1)` does not complete: with no list holding
`C` entries it compares the total size 0 with `2 * replacer_size_`, which is 0
in `size_t`, and takes the tail of the empty `mfu_ghost_`. -/
theorem RecordAccess_miss_pops_empty_ghost :
    SpecInvariants (ArcReplacer.new 9223372036854775808) ∧
    (ArcReplacer.new 9223372036854775808).mru_.length +
        (ArcReplacer.new 9223372036854775808).mfu_.length <
      (ArcReplacer.new 9223372036854775808).replacer_size_ ∧
    (1 : Int) ∉ (ArcReplacer.new 9223372036854775808).mru_ ++
      (ArcReplacer.new 9223372036854775808).mfu_ ∧
    (1 : Int) ∉ allPages (ArcReplacer.new 9223372036854775808) ∧
    (ArcReplacer.new 9223372036854775808).mfu_ghost_ = [] ∧
    RecordAccess (ArcReplacer.new 9223372036854775808) 1 1 AccessType.Unknown =
      .raise Fault.undefined (ArcReplacer.new 9223372036854775808) := by
  decide

/-- C15 (amended): in a state satisfying the invariants of §3.1 whose capacity
`C` has `2C < 2 ^ 64`, with room made (`|T1| + |T2| < C`), `F` not resident and
`P` in none of the four lists, `RecordAccess(F, P)` completes.  If
`|T1| + |B1| = C`, `B1` is not empty and exactly its tail is dropped, from the
list, from `mru_ghost_map_` and from `ghost_map_`; else if
`|T1| + |T2| + |B1| + |B2| = 2C`, `B2` is not empty and exactly its tail is
dropped likewise; otherwise the ghost lists and maps are unchanged.  Then `F`
is the head of `T1` with the status `(P, F, evictable, MRU)`, no other frame's
status changes, `T2` and `p` are unchanged and `Size()` grows by exactly 1. -/
theorem RecordAccess_miss_effect (s : ArcReplacer) (F : frame_id_t) (P : page_id_t)
    (a : AccessType) (h : SpecInvariants s) (hcap : 2 * s.replacer_size_ < SIZE_MOD)
    (hroom : s.mru_.length + s.mfu_.length < s.replacer_size_)
    (hF : F ∉ s.mru_ ++ s.mfu_) (hP : P ∉ allPages s) :
    ∃ s', RecordAccess s F P a = .ok () s' ∧
      (s.mru_.length + s.mru_ghost_.length = s.replacer_size_ →
        ∃ last, s.mru_ghost_.getLast? = some last ∧
          s'.mru_ghost_ = s.mru_ghost_.dropLast ∧
          s'.mru_ghost_map_ = s.mru_ghost_map_.erase last ∧
          s'.ghost_map_ = s.ghost_map_.erase last ∧
          s'.mfu_ghost_ = s.mfu_ghost_ ∧ s'.mfu_ghost_map_ = s.mfu_ghost_map_) ∧
      (s.mru_.length + s.mru_ghost_.length ≠ s.replacer_size_ →
        totalSize s = 2 * s.replacer_size_ →
        ∃ last, s.mfu_ghost_.getLast? = some last ∧
          s'.mfu_ghost_ = s.mfu_ghost_.dropLast ∧
          s'.mfu_ghost_map_ = s.mfu_ghost_map_.erase last ∧
          s'.ghost_map_ = s.ghost_map_.erase last ∧
          s'.mru_ghost_ = s.mru_ghost_ ∧ s'.mru_ghost_map_ = s.mru_ghost_map_) ∧
      (s.mru_.length + s.mru_ghost_.length ≠ s.replacer_size_ →
        totalSize s ≠ 2 * s.replacer_size_ →
        s'.mru_ghost_ = s.mru_ghost_ ∧ s'.mru_ghost_map_ = s.mru_ghost_map_ ∧
          s'.mfu_ghost_ = s.mfu_ghost_ ∧ s'.mfu_ghost_map_ = s.mfu_ghost_map_ ∧
          s'.ghost_map_ = s.ghost_map_) ∧
      s'.mru_ = F :: s.mru_ ∧
      s'.alive_map_.find F = some ⟨P, F, true, ArcStatus.MRU⟩ ∧
      (∀ G, G ≠ F → s'.alive_map_.find G = s.alive_map_.find G) ∧
      s'.mfu_ = s.mfu_ ∧ s'.mru_target_size_ = s.mru_target_size_ ∧
      s'.Size = s.Size + 1 := by
  have hfind := h.wf.find_none F hF
  have hmiss := LookUp_miss s F P hfind
  have hPg : P ∉ s.mru_ghost_ ++ s.mfu_ghost_ := fun hm => hP (List.mem_append_right _ hm)
  have hg : ¬ (LookUpGhost s F P).isSome = true := by
    unfold LookUpGhost
    rw [h.wf.ghost_find_none P hPg]
    simp
  have hsz : sizeIncr s.curr_size_ = s.curr_size_ + 1 := by
    apply sizeIncr_of_lt
    have h1 := evictableCount_le s
    rw [h.wf.size_counts]
    omega
  have hmod : (2 * s.replacer_size_) % SIZE_MOD = 2 * s.replacer_size_ :=
    Nat.mod_eq_of_lt hcap
  have hrec := h.bound_recency
  have finsF : ∀ (m : HMap FrameStatus) (st : FrameStatus), (m.insert F st).find F = some st := by
    intro m st; rw [HMap.find_insert, if_pos rfl]
  have finsG : ∀ (m : HMap FrameStatus) (st : FrameStatus) (G : frame_id_t), G ≠ F →
      (m.insert F st).find G = m.find G := by
    intro m st G hG; rw [HMap.find_insert, if_neg hG]
  unfold RecordAccess
  rw [if_neg hmiss, if_neg hg]
  by_cases h1 : s.mru_.length + s.mru_ghost_.length = s.replacer_size_
  · rw [if_pos h1]
    obtain ⟨last, hl⟩ := getLast_of_length_pos s.mru_ghost_ (by omega)
    rw [hl]
    exact ⟨_, rfl, fun _ => ⟨last, rfl, rfl, rfl, rfl, rfl, rfl⟩, fun hn => absurd h1 hn,
      fun hn => absurd h1 hn, rfl, finsF _ _, finsG _ _, rfl, rfl, hsz⟩
  · have h2 : s.mru_.length + s.mru_ghost_.length < s.replacer_size_ := by omega
    rw [if_neg h1, if_pos h2]
    dsimp only
    rw [hmod]
    by_cases h3 : s.mru_.length + s.mru_ghost_.length + s.mfu_.length +
        s.mfu_ghost_.length = 2 * s.replacer_size_
    · rw [if_pos h3]
      obtain ⟨last, hl⟩ := getLast_of_length_pos s.mfu_ghost_ (by omega)
      rw [hl]
      refine ⟨_, rfl, fun hn => absurd hn h1, fun _ _ => ⟨last, rfl, rfl, rfl, rfl, rfl, rfl⟩,
        fun _ hn => ?_, rfl, finsF _ _, finsG _ _, rfl, rfl, hsz⟩
      exfalso
      apply hn
      unfold totalSize
      omega
    · rw [if_neg h3]
      refine ⟨_, rfl, fun hn => absurd hn h1, fun _ ht => ?_,
        fun _ _ => ⟨rfl, rfl, rfl, rfl, rfl⟩, rfl, finsF _ _, finsG _ _, rfl, rfl, hsz⟩
      exfalso
      apply h3
      unfold totalSize at ht
      omega

/-- C15 (amended) at `recencyFullState` (`C = 2`, frame 2 in `T1`, page 1 in
`B1`): `RecordAccess(3, 3)` drops page 1, the tail of `B1`. -/
theorem RecordAccess_miss_effect_witness :
    SpecInvariants recencyFullState ∧
    recencyFullState.mru_.length + recencyFullState.mru_ghost_.length =
      recencyFullState.replacer_size_ ∧
    ∃ s', RecordAccess recencyFullState 3 3 AccessType.Unknown = .ok () s' ∧
      s'.mru_ghost_ = [] ∧ s'.mru_ghost_map_ = ∅ ∧ s'.ghost_map_ = [] ∧
      s'.mru_ = [3, 2] ∧
      s'.alive_map_.find 3 = some ⟨3, 3, true, ArcStatus.MRU⟩ ∧
      s'.mfu_ = [] ∧ s'.mru_target_size_ = 0 ∧ s'.Size = 2 := by
  obtain ⟨s', hr, h1, _, _, h4, h5, _, h7, h8, h9⟩ :=
    RecordAccess_miss_effect recencyFullState 3 3 AccessType.Unknown (by decide) (by decide)
      (by decide) (by decide) (by decide)
  obtain ⟨last, hl, e1, e2, e3, _, _⟩ := h1 (by decide)
  have hlast : last = 1 := by
    have : recencyFullState.mru_ghost_.getLast? = some 1 := by decide
    rw [this] at hl
    injection hl with hl
    exact hl.symm
  subst hlast
  refine ⟨by decide, by decide, s', hr, ?_, ?_, ?_, h4, h5, h7, h8, h9⟩
  · rw [e1]; decide
  · rw [e2]; decide
  · rw [e3]; decide

end ArcReplacer

/-! ## Disjointness of the four lists (C19) -/

namespace ArcReplacer

theorem pageOf_insert_self (m : HMap FrameStatus) (F : frame_id_t) (st : FrameStatus) :
    pageOf (m.insert F st) F = some st.page_id_ := by
  unfold pageOf
  rw [HMap.find_insert, if_pos rfl]
  rfl

theorem pageOf_insert_ne (m : HMap FrameStatus) (F g : frame_id_t) (st : FrameStatus)
    (h : g ≠ F) : pageOf (m.insert F st) g = pageOf m g := by
  unfold pageOf
  rw [HMap.find_insert, if_neg h]

theorem pageOf_erase_ne (m : HMap FrameStatus) (F g : frame_id_t) (h : g ≠ F) :
    pageOf (m.erase F) g = pageOf m g := by
  unfold pageOf
  rw [HMap.find_erase, if_neg h]

theorem pageOf_modify (m : HMap FrameStatus) (F g : frame_id_t) (b : Bool) :
    pageOf (m.modify F (fun st0 => { st0 with evictable_ := b })) g = pageOf m g := by
  unfold pageOf
  rw [HMap.find_modify]
  by_cases h : g = F
  · subst h
    rw [if_pos rfl]
    cases m.find g <;> rfl
  · rw [if_neg h]

theorem filterMap_pageOf_congr (m m' : HMap FrameStatus) (l : List frame_id_t)
    (h : ∀ g ∈ l, pageOf m' g = pageOf m g) :
    l.filterMap (pageOf m') = l.filterMap (pageOf m) := by
  induction l with
  | nil => rfl
  | cons x t ih =>
    rw [List.filterMap_cons, List.filterMap_cons, h x (List.mem_cons_self _ _),
      ih (fun g hg => h g (List.mem_cons_of_mem _ hg))]

theorem filterMap_pageOf_insert (m : HMap FrameStatus) (F : frame_id_t) (st : FrameStatus)
    (l : List frame_id_t) (hF : F ∉ l) :
    l.filterMap (pageOf (m.insert F st)) = l.filterMap (pageOf m) :=
  filterMap_pageOf_congr _ _ _
    (fun g hg => pageOf_insert_ne m F g st (fun e => hF (e ▸ hg)))

theorem filterMap_pageOf_erase (m : HMap FrameStatus) (F : frame_id_t)
    (l : List frame_id_t) (hF : F ∉ l) :
    l.filterMap (pageOf (m.erase F)) = l.filterMap (pageOf m) :=
  filterMap_pageOf_congr _ _ _
    (fun g hg => pageOf_erase_ne m F g (fun e => hF (e ▸ hg)))

theorem dropLast_eq_erase {l : List Int} {last : Int} (hn : l.Nodup)
    (hl : l.getLast? = some last) : l.dropLast = l.erase last := by
  have e := List.dropLast_append_getLast? last hl
  have hn' : (l.dropLast ++ [last]).Nodup := by rw [e]; exact hn
  have hnot : last ∉ l.dropLast := fun hm =>
    (List.nodup_append.1 hn').2.2 hm (List.mem_singleton_self last)
  conv_rhs => rw [← e]
  rw [List.erase_append_right _ hnot]
  simp

theorem mem_of_getLast {l : List Int} {last : Int} (hl : l.getLast? = some last) :
    last ∈ l := by
  have e := List.dropLast_append_getLast? last hl
  rw [← e]
  simp

theorem PageInv.ghosts_nodup {s : ArcReplacer} (h : PageInv s) :
    (s.mru_ghost_ ++ s.mfu_ghost_).Nodup :=
  (List.nodup_append.1 h.pages_nodup).2.1

theorem PageInv.with_target {s : ArcReplacer} (h : PageInv s) (p' : Nat) :
    PageInv { s with mru_target_size_ := p' } :=
  ⟨h.pages_nodup, h.mru_ghost_keys, h.mfu_ghost_keys, h.ghost_has, h.ghost_only⟩

theorem ResidentInv.with_new_target {s : ArcReplacer} (h : ResidentInv s) (p' : Nat) :
    ResidentInv { s with mru_target_size_ := p' } :=
  h.congr rfl rfl rfl rfl rfl rfl

/-- Erasing a page of `B1` from the ghost structures keeps them keyed alike. -/
theorem PageInv.erase_mru_ghost {s : ArcReplacer} (h : PageInv s) (Q : page_id_t)
    (hQ : Q ∈ s.mru_ghost_) :
    s.mru_ghost_map_.erase Q = (s.mru_ghost_.erase Q).toFinset ∧
    (∀ p ∈ s.mru_ghost_.erase Q ++ s.mfu_ghost_, ((s.ghost_map_.erase Q).find p).isSome = true) ∧
    (∀ e ∈ s.ghost_map_.erase Q, e.1 ∈ s.mru_ghost_.erase Q ++ s.mfu_ghost_) := by
  have hn := h.ghosts_nodup
  have hB1 := (List.nodup_append.1 hn).1
  have hdisj := (List.nodup_append.1 hn).2.2
  refine ⟨?_, ?_, ?_⟩
  · rw [toFinset_erase_of_nodup _ _ hB1, h.mru_ghost_keys]
  · intro p hp
    have hne : p ≠ Q := by
      rcases List.mem_append.1 hp with hm | hm
      · exact (hB1.mem_erase_iff.1 hm).1
      · exact fun e => hdisj hQ (e ▸ hm)
    rw [HMap.find_erase, if_neg hne]
    apply h.ghost_has
    rcases List.mem_append.1 hp with hm | hm
    · exact List.mem_append_left _ (List.mem_of_mem_erase hm)
    · exact List.mem_append_right _ hm
  · intro e he
    rw [HMap.mem_erase] at he
    rcases List.mem_append.1 (h.ghost_only e he.1) with hm | hm
    · exact List.mem_append_left _ ((List.mem_erase_of_ne he.2).2 hm)
    · exact List.mem_append_right _ hm

/-- Erasing a page of `B2` from the ghost structures keeps them keyed alike. -/
theorem PageInv.erase_mfu_ghost {s : ArcReplacer} (h : PageInv s) (Q : page_id_t)
    (hQ : Q ∈ s.mfu_ghost_) :
    s.mfu_ghost_map_.erase Q = (s.mfu_ghost_.erase Q).toFinset ∧
    (∀ p ∈ s.mru_ghost_ ++ s.mfu_ghost_.erase Q, ((s.ghost_map_.erase Q).find p).isSome = true) ∧
    (∀ e ∈ s.ghost_map_.erase Q, e.1 ∈ s.mru_ghost_ ++ s.mfu_ghost_.erase Q) := by
  have hn := h.ghosts_nodup
  have hB2 := (List.nodup_append.1 hn).2.1
  have hdisj := (List.nodup_append.1 hn).2.2
  refine ⟨?_, ?_, ?_⟩
  · rw [toFinset_erase_of_nodup _ _ hB2, h.mfu_ghost_keys]
  · intro p hp
    have hne : p ≠ Q := by
      rcases List.mem_append.1 hp with hm | hm
      · exact fun e => hdisj (e ▸ hm) hQ
      · exact (hB2.mem_erase_iff.1 hm).1
    rw [HMap.find_erase, if_neg hne]
    apply h.ghost_has
    rcases List.mem_append.1 hp with hm | hm
    · exact List.mem_append_left _ hm
    · exact List.mem_append_right _ (List.mem_of_mem_erase hm)
  · intro e he
    rw [HMap.mem_erase] at he
    rcases List.mem_append.1 (h.ghost_only e he.1) with hm | hm
    · exact List.mem_append_left _ hm
    · exact List.mem_append_right _ ((List.mem_erase_of_ne he.2).2 hm)

/-- Adding a page at the head of a ghost list keeps `ghost_map_` keyed alike. -/
theorem PageInv.insert_ghost {s : ArcReplacer} (h : PageInv s) (Q : page_id_t)
    (st : FrameStatus) (B : List page_id_t)
    (hB : ∀ p, p ∈ B ↔ p = Q ∨ p ∈ s.mru_ghost_ ++ s.mfu_ghost_) :
    (∀ p ∈ B, ((s.ghost_map_.insert Q st).find p).isSome = true) ∧
    (∀ e ∈ s.ghost_map_.insert Q st, e.1 ∈ B) := by
  refine ⟨?_, ?_⟩
  · intro p hp
    rw [HMap.find_insert]
    by_cases e : p = Q
    · rw [if_pos e]; rfl
    · rw [if_neg e]
      rcases (hB p).1 hp with hq | hm
      · exact absurd hq e
      · exact h.ghost_has p hm
  · intro e he
    rw [HMap.mem_insert] at he
    rcases he with rfl | ⟨hm, _⟩
    · exact (hB _).2 (Or.inl rfl)
    · exact (hB _).2 (Or.inr (h.ghost_only e hm))

theorem ResidentInv.not_mem_of_find_none {s : ArcReplacer} (h : ResidentInv s)
    (F : frame_id_t) (hF : s.alive_map_.find F = none) : F ∉ s.mru_ ++ s.mfu_ := by
  intro hm
  have := h.core.has F hm
  rw [hF] at this
  simp at this

theorem Move2First_pageInv (s s' : ArcReplacer) (F : frame_id_t) (hR : ResidentInv s)
    (h : PageInv s) (hr : Move2First s F = .ok () s') : PageInv s' := by
  rcases Move2First_ok s s' F hr with ⟨h1, rfl⟩ | ⟨_, h2, rfl⟩
  · have hF := (hR.mem_mru F).1 h1
    refine ⟨?_, h.mru_ghost_keys, h.mfu_ghost_keys, h.ghost_has, h.ghost_only⟩
    have hp : (s.mru_.erase F ++ F :: s.mfu_).Perm (s.mru_ ++ s.mfu_) :=
      List.perm_middle.trans (perm_erase_mru _ _ _ hF).symm
    exact ((hp.filterMap (pageOf s.alive_map_)).append_right _).nodup_iff.2 h.pages_nodup
  · have hF := (hR.mem_mfu F).1 h2
    refine ⟨?_, h.mru_ghost_keys, h.mfu_ghost_keys, h.ghost_has, h.ghost_only⟩
    have hp : (s.mru_ ++ F :: s.mfu_.erase F).Perm (s.mru_ ++ s.mfu_) :=
      List.Perm.append_left _ (List.perm_cons_erase hF).symm
    exact ((hp.filterMap (pageOf s.alive_map_)).append_right _).nodup_iff.2 h.pages_nodup

theorem MoveGhost2First_pageInv (s s' : ArcReplacer) (F : frame_id_t) (P : page_id_t)
    (hR : ResidentInv s) (h : PageInv s) (hF : s.alive_map_.find F = none)
    (hr : MoveGhost2First s F P = .ok () s') : PageInv s' := by
  have hnot := hR.not_mem_of_find_none F hF
  have hpages : ((s.mru_ ++ F :: s.mfu_).filterMap
      (pageOf (s.alive_map_.insert F ⟨P, F, true, ArcStatus.MFU⟩))).Perm
      (P :: (s.mru_ ++ s.mfu_).filterMap (pageOf s.alive_map_)) := by
    have hp : (s.mru_ ++ F :: s.mfu_).Perm (F :: (s.mru_ ++ s.mfu_)) := List.perm_middle
    have := hp.filterMap (pageOf (s.alive_map_.insert F ⟨P, F, true, ArcStatus.MFU⟩))
    rwa [List.filterMap_cons_some (pageOf_insert_self _ _ _),
      filterMap_pageOf_insert _ _ _ _ hnot] at this
  rcases MoveGhost2First_ok s s' F P hr with ⟨h1, rfl⟩ | ⟨_, h2, rfl⟩
  · have hP : P ∈ s.mru_ghost_ := by
      rw [h.mru_ghost_keys, List.mem_toFinset] at h1; exact h1
    obtain ⟨k1, k2, k3⟩ := h.erase_mru_ghost P hP
    refine ⟨?_, k1, h.mfu_ghost_keys, k2, k3⟩
    have hp2 : (P :: (s.mru_ ++ s.mfu_).filterMap (pageOf s.alive_map_) ++
        (s.mru_ghost_.erase P ++ s.mfu_ghost_)).Perm (allPages s) := by
      have e1 : (P :: s.mru_ghost_.erase P ++ s.mfu_ghost_).Perm
          (s.mru_ghost_ ++ s.mfu_ghost_) :=
        (List.perm_cons_erase hP).symm.append_right _
      exact List.perm_middle.symm.trans (e1.append_left _)
    exact ((hpages.append_right _).trans hp2).nodup_iff.2 h.pages_nodup
  · have hP : P ∈ s.mfu_ghost_ := by
      rw [h.mfu_ghost_keys, List.mem_toFinset] at h2; exact h2
    obtain ⟨k1, k2, k3⟩ := h.erase_mfu_ghost P hP
    refine ⟨?_, h.mru_ghost_keys, k1, k2, k3⟩
    have hp2 : (P :: (s.mru_ ++ s.mfu_).filterMap (pageOf s.alive_map_) ++
        (s.mru_ghost_ ++ s.mfu_ghost_.erase P)).Perm (allPages s) := by
      have e1 : (P :: (s.mru_ghost_ ++ s.mfu_ghost_.erase P)).Perm
          (s.mru_ghost_ ++ s.mfu_ghost_) :=
        List.perm_middle.symm.trans ((List.perm_cons_erase hP).symm.append_left _)
      exact List.perm_middle.symm.trans (e1.append_left _)
    exact ((hpages.append_right _).trans hp2).nodup_iff.2 h.pages_nodup

/-- The miss path: a sublist of the ghost pages is kept and `(F, P)` is pushed. -/
theorem pushMru_pages (s : ArcReplacer) (F : frame_id_t) (P : page_id_t)
    (B1 B2 : List page_id_t) (hR : ResidentInv s) (h : PageInv s)
    (hF : s.alive_map_.find F = none)
    (hfree : ∀ g ∈ s.mru_ ++ s.mfu_, g ≠ F → pageOf s.alive_map_ g ≠ some P)
    (hg : s.ghost_map_.find P = none)
    (hsub : (B1 ++ B2).Sublist (s.mru_ghost_ ++ s.mfu_ghost_)) :
    (((F :: s.mru_) ++ s.mfu_).filterMap
      (pageOf (s.alive_map_.insert F ⟨P, F, true, ArcStatus.MRU⟩)) ++ (B1 ++ B2)).Nodup := by
  have hnot := hR.not_mem_of_find_none F hF
  rw [List.cons_append, List.filterMap_cons_some (pageOf_insert_self _ _ _),
    filterMap_pageOf_insert _ _ _ _ hnot, List.cons_append]
  refine List.Nodup.cons ?_ (h.pages_nodup.sublist ((List.Sublist.refl _).append hsub))
  intro hm
  rcases List.mem_append.1 hm with hm | hm
  · obtain ⟨g, hgm, hgp⟩ := List.mem_filterMap.1 hm
    exact hfree g hgm (fun e => hnot (e ▸ hgm)) hgp
  · have := h.ghost_has P (hsub.subset hm)
    rw [hg] at this
    simp at this

theorem RecordAccess_pageInv (s s' : ArcReplacer) (F : frame_id_t) (P : page_id_t)
    (a : AccessType) (hR : ResidentInv s) (h : PageInv s)
    (hc : consistentCall s (Op.RecordAccess F P a))
    (hr : RecordAccess s F P a = .ok () s') : PageInv s' := by
  have hfree : ∀ g ∈ s.mru_ ++ s.mfu_, g ≠ F → pageOf s.alive_map_ g ≠ some P := hc.2
  have hFnone : (LookUp s F P).isSome = false → s.alive_map_.find F = none := by
    intro hhit
    cases hfind : s.alive_map_.find F with
    | none => rfl
    | some st =>
      exfalso
      have hp := hc.1
      simp only [pairedCall, hfind] at hp
      rw [LookUp_hit s F P st hfind hp] at hhit
      simp at hhit
  have hB1 := (List.nodup_append.1 h.ghosts_nodup).1
  have hB2 := (List.nodup_append.1 h.ghosts_nodup).2.1
  rcases RecordAccess_ok s s' F P a hr with ⟨_, hm⟩ | ⟨hl, _, p', hm⟩ |
    ⟨hl, hg, ⟨_, last, hlast, rfl⟩ | ⟨_, _, last, hlast, rfl⟩ | ⟨_, _, rfl⟩⟩
  · exact Move2First_pageInv s s' F hR h hm
  · exact MoveGhost2First_pageInv _ s' F P (hR.with_new_target p') (h.with_target p') (hFnone hl) hm
  · have hg' : s.ghost_map_.find P = none := by
      cases hf : s.ghost_map_.find P with
      | none => rfl
      | some st => rw [hf] at hg; simp at hg
    obtain ⟨k1, k2, k3⟩ := h.erase_mru_ghost last (mem_of_getLast hlast)
    have e := dropLast_eq_erase hB1 hlast
    refine ⟨?_, ?_, h.mfu_ghost_keys, ?_, ?_⟩
    · exact pushMru_pages s F P _ _ hR h (hFnone hl) hfree hg'
        ((List.dropLast_sublist _).append (List.Sublist.refl _))
    · show s.mru_ghost_map_.erase last = s.mru_ghost_.dropLast.toFinset
      rw [e]; exact k1
    · show ∀ p ∈ s.mru_ghost_.dropLast ++ s.mfu_ghost_,
        ((s.ghost_map_.erase last).find p).isSome = true
      rw [e]; exact k2
    · show ∀ e ∈ s.ghost_map_.erase last, e.1 ∈ s.mru_ghost_.dropLast ++ s.mfu_ghost_
      rw [e]; exact k3
  · have hg' : s.ghost_map_.find P = none := by
      cases hf : s.ghost_map_.find P with
      | none => rfl
      | some st => rw [hf] at hg; simp at hg
    obtain ⟨k1, k2, k3⟩ := h.erase_mfu_ghost last (mem_of_getLast hlast)
    have e := dropLast_eq_erase hB2 hlast
    refine ⟨?_, h.mru_ghost_keys, ?_, ?_, ?_⟩
    · exact pushMru_pages s F P _ _ hR h (hFnone hl) hfree hg'
        ((List.Sublist.refl _).append (List.dropLast_sublist _))
    · show s.mfu_ghost_map_.erase last = s.mfu_ghost_.dropLast.toFinset
      rw [e]; exact k1
    · show ∀ p ∈ s.mru_ghost_ ++ s.mfu_ghost_.dropLast,
        ((s.ghost_map_.erase last).find p).isSome = true
      rw [e]; exact k2
    · show ∀ e ∈ s.ghost_map_.erase last, e.1 ∈ s.mru_ghost_ ++ s.mfu_ghost_.dropLast
      rw [e]; exact k3
  · have hg' : s.ghost_map_.find P = none := by
      cases hf : s.ghost_map_.find P with
      | none => rfl
      | some st => rw [hf] at hg; simp at hg
    exact ⟨pushMru_pages s F P _ _ hR h (hFnone hl) hfree hg' (List.Sublist.refl _),
      h.mru_ghost_keys, h.mfu_ghost_keys, h.ghost_has, h.ghost_only⟩

theorem SetEvictable_pageInv (s s' : ArcReplacer) (F : frame_id_t) (b : Bool)
    (h : PageInv s) (hr : SetEvictable s F b = .ok () s') : PageInv s' := by
  obtain ⟨z, rfl⟩ := SetEvictable_ok s s' F b hr
  refine ⟨?_, h.mru_ghost_keys, h.mfu_ghost_keys, h.ghost_has, h.ghost_only⟩
  have e := filterMap_pageOf_congr s.alive_map_
    (s.alive_map_.modify F (fun st0 => { st0 with evictable_ := b })) (s.mru_ ++ s.mfu_)
    (fun g _ => pageOf_modify s.alive_map_ F g b)
  show ((s.mru_ ++ s.mfu_).filterMap
    (pageOf (s.alive_map_.modify F (fun st0 => { st0 with evictable_ := b }))) ++
    (s.mru_ghost_ ++ s.mfu_ghost_)).Nodup
  rw [e]
  exact h.pages_nodup

theorem Evict_pageInv (s s' : ArcReplacer) (v : Option frame_id_t) (hR : ResidentInv s)
    (h : PageInv s) (hr : Evict s = .ok v s') : PageInv s' := by
  have hn := hR.core.nodup
  rcases Evict_ok s s' v hr with ⟨_, rfl, _, _⟩ | ⟨F, _, hv⟩ | ⟨F, _, hv⟩
  · exact h
  · obtain ⟨st, hfind, _, hF, _, rfl⟩ := evictVictim_mru_ok s s' F v hv
    have hmem := (hR.mem_mru F).1 hF
    have hperm := perm_erase_mru s.mru_ s.mfu_ F hmem
    have hnot : F ∉ s.mru_.erase F ++ s.mfu_ :=
      (List.nodup_cons.1 (hperm.nodup_iff.1 hn)).1
    have hpage : pageOf s.alive_map_ F = some st.page_id_ := by
      unfold pageOf; rw [hfind]; rfl
    have hX : ((s.mru_ ++ s.mfu_).filterMap (pageOf s.alive_map_)).Perm
        (st.page_id_ :: (s.mru_.erase F ++ s.mfu_).filterMap
          (pageOf (s.alive_map_.erase F))) := by
      have := hperm.filterMap (pageOf s.alive_map_)
      rwa [List.filterMap_cons_some hpage, ← filterMap_pageOf_erase _ F _ hnot] at this
    obtain ⟨k2, k3⟩ := h.insert_ghost st.page_id_ st
      (st.page_id_ :: s.mru_ghost_ ++ s.mfu_ghost_) (fun p => by simp)
    refine ⟨?_, ?_, h.mfu_ghost_keys, k2, k3⟩
    · have hp : (allPages s).Perm
          ((s.mru_.erase F ++ s.mfu_).filterMap (pageOf (s.alive_map_.erase F)) ++
            (st.page_id_ :: s.mru_ghost_ ++ s.mfu_ghost_)) :=
        (hX.append_right _).trans List.perm_middle.symm
      exact hp.nodup_iff.1 h.pages_nodup
    · show insert st.page_id_ s.mru_ghost_map_ = (st.page_id_ :: s.mru_ghost_).toFinset
      rw [List.toFinset_cons, h.mru_ghost_keys]
  · obtain ⟨st, hfind, _, hF, _, rfl⟩ := evictVictim_mfu_ok s s' F v hv
    have hmem := (hR.mem_mfu F).1 hF
    have hperm := perm_erase_mfu s.mru_ s.mfu_ F hmem (hR.not_mem_mru_of_mfu F hmem)
    have hnot : F ∉ s.mru_ ++ s.mfu_.erase F :=
      (List.nodup_cons.1 (hperm.nodup_iff.1 hn)).1
    have hpage : pageOf s.alive_map_ F = some st.page_id_ := by
      unfold pageOf; rw [hfind]; rfl
    have hX : ((s.mru_ ++ s.mfu_).filterMap (pageOf s.alive_map_)).Perm
        (st.page_id_ :: (s.mru_ ++ s.mfu_.erase F).filterMap
          (pageOf (s.alive_map_.erase F))) := by
      have := hperm.filterMap (pageOf s.alive_map_)
      rwa [List.filterMap_cons_some hpage, ← filterMap_pageOf_erase _ F _ hnot] at this
    obtain ⟨k2, k3⟩ := h.insert_ghost st.page_id_ st
      (s.mru_ghost_ ++ st.page_id_ :: s.mfu_ghost_) (fun p => by simp; tauto)
    refine ⟨?_, h.mru_ghost_keys, ?_, k2, k3⟩
    · have hp : (allPages s).Perm
          ((s.mru_ ++ s.mfu_.erase F).filterMap (pageOf (s.alive_map_.erase F)) ++
            (s.mru_ghost_ ++ st.page_id_ :: s.mfu_ghost_)) :=
        ((hX.append_right _).trans List.perm_middle.symm).trans
          (List.perm_middle.symm.append_left _)
      exact hp.nodup_iff.1 h.pages_nodup
    · show insert st.page_id_ s.mfu_ghost_map_ = (st.page_id_ :: s.mfu_ghost_).toFinset
      rw [List.toFinset_cons, h.mfu_ghost_keys]

theorem Remove_pageInv (s s' : ArcReplacer) (F : frame_id_t) (hR : ResidentInv s)
    (h : PageInv s) (hr : Remove s F = .ok () s') : PageInv s' := by
  have hn := hR.core.nodup
  rcases Remove_ok s s' F hr with ⟨_, rfl⟩ | ⟨hsome, ⟨hF, rfl⟩ | ⟨hF1, hF, rfl⟩ | ⟨hF1, hF2, rfl⟩⟩
  · exact h
  · have hmem := (hR.mem_mru F).1 hF
    have hperm := perm_erase_mru s.mru_ s.mfu_ F hmem
    have hnot : F ∉ s.mru_.erase F ++ s.mfu_ :=
      (List.nodup_cons.1 (hperm.nodup_iff.1 hn)).1
    refine ⟨?_, h.mru_ghost_keys, h.mfu_ghost_keys, h.ghost_has, h.ghost_only⟩
    show ((s.mru_.erase F ++ s.mfu_).filterMap (pageOf (s.alive_map_.erase F)) ++
      (s.mru_ghost_ ++ s.mfu_ghost_)).Nodup
    rw [filterMap_pageOf_erase _ F _ hnot]
    exact h.pages_nodup.sublist
      ((((List.erase_sublist F s.mru_).append (List.Sublist.refl _)).filterMap _).append
        (List.Sublist.refl _))
  · have hmem := (hR.mem_mfu F).1 hF
    have hperm := perm_erase_mfu s.mru_ s.mfu_ F hmem (hR.not_mem_mru_of_mfu F hmem)
    have hnot : F ∉ s.mru_ ++ s.mfu_.erase F :=
      (List.nodup_cons.1 (hperm.nodup_iff.1 hn)).1
    refine ⟨?_, h.mru_ghost_keys, h.mfu_ghost_keys, h.ghost_has, h.ghost_only⟩
    show ((s.mru_ ++ s.mfu_.erase F).filterMap (pageOf (s.alive_map_.erase F)) ++
      (s.mru_ghost_ ++ s.mfu_ghost_)).Nodup
    rw [filterMap_pageOf_erase _ F _ hnot]
    exact h.pages_nodup.sublist
      ((((List.Sublist.refl _).append (List.erase_sublist F s.mfu_)).filterMap _).append
        (List.Sublist.refl _))
  · exfalso
    obtain ⟨e, he, rfl⟩ := (HMap.find_isSome_iff s.alive_map_ F).1 hsome
    rcases List.mem_append.1 (hR.core.only e he) with hm | hm
    · exact hF1 ((hR.mem_mru _).2 hm)
    · exact hF2 ((hR.mem_mfu _).2 hm)

theorem call_pageInv (s s' : ArcReplacer) (op : Op) (hR : ResidentInv s) (h : PageInv s)
    (hc : consistentCall s op) (hr : call s op = some s') : PageInv s' := by
  cases op with
  | RecordAccess f p a =>
    exact RecordAccess_pageInv s s' f p a hR h hc (call_RecordAccess_ok s s' f p a hr)
  | SetEvictable f b =>
    exact SetEvictable_pageInv s s' f b h (call_SetEvictable_ok s s' f b hr)
  | Evict =>
    obtain ⟨v, hv⟩ := call_Evict_ok s s' hr
    exact Evict_pageInv s s' v hR h hv
  | Remove f => exact Remove_pageInv s s' f hR h (call_Remove_ok s s' f hr)

theorem run_pageInv (ops : List Op) : ∀ (s s' : ArcReplacer), ResidentInv s → PageInv s →
    consistentRun s ops → (∀ op ∈ ops, frameInRange op) → run s ops = some s' →
    ResidentInv s' ∧ PageInv s' := by
  induction ops with
  | nil =>
    intro s s' hR h _ _ hr
    simp only [run] at hr
    injection hr with hr
    subst hr
    exact ⟨hR, h⟩
  | cons op rest ih =>
    intro s s' hR h hc hv hr
    simp only [run] at hr
    simp only [consistentRun] at hc
    cases hcall : call s op with
    | none => rw [hcall] at hr; simp at hr
    | some s1 =>
      rw [hcall] at hr hc
      exact ih s1 s' (call_inv s s1 op hR hc.1.1 (hv op (List.mem_cons_self _ _)) hcall)
        (call_pageInv s s1 op hR h hc.1 hcall) hc.2
        (fun o ho => hv o (List.mem_cons_of_mem _ ho)) hr

theorem pageInv_new (C : Nat) : PageInv (ArcReplacer.new C) := by
  refine ⟨?_, ?_, ?_, ?_, ?_⟩ <;> simp [ArcReplacer.new, allPages, pagesIn]

/-- C19, as stated, fails.  On a fresh replacer of capacity 2 the calls
`RecordAccess(1, 1)`, `RecordAccess(1, 2)` complete and leave frame 1 twice in
`mru_`.  On a fresh replacer of capacity 3 the calls `RecordAccess(1, 1)`,
`RecordAccess(2, 1)`, `Evict()` complete and leave page 1 both in `T1` (held by
frame 2) and in `B1`. -/
theorem lists_overlap_on_reused_ids :
    (run (ArcReplacer.new 2)
        [Op.RecordAccess 1 1 AccessType.Unknown, Op.RecordAccess 1 2 AccessType.Unknown]
      = some reusedFrameState ∧
      reusedFrameState.mru_ = [1, 1] ∧
      ¬ (reusedFrameState.mru_ ++ reusedFrameState.mfu_).Nodup) ∧
    (run (ArcReplacer.new 3)
        [Op.RecordAccess 1 1 AccessType.Unknown, Op.RecordAccess 2 1 AccessType.Unknown,
          Op.Evict] = some ghostedPageState ∧
      (1 : Int) ∈ pagesIn ghostedPageState ghostedPageState.mru_ ∧
      (1 : Int) ∈ ghostedPageState.mru_ghost_) := by
  decide

/-- C19 (amended): for every capacity and every finite sequence of public calls
with 32-bit frame ids on a fresh replacer, all completing without raising, in
which no `RecordAccess(F, P)` is issued while `F` is resident holding a page
other than `P` or while another resident frame holds `P`: no frame id occurs
twice in `mru_ ++ mfu_`; no page id occurs twice in the pages of `T1`, the
pages of `T2`, `B1` and `B2` taken together (so none is in two of them); the
keys of `alive_map_` are exactly the frames of `T1 ∪ T2` and the keys of
`ghost_map_` exactly the pages of `B1 ∪ B2`. -/
theorem lists_disjoint_of_consistent_calls (C : Nat) (ops : List Op) (s : ArcReplacer)
    (hv : ∀ op ∈ ops, frameInRange op) (hc : consistentRun (ArcReplacer.new C) ops)
    (hrun : run (ArcReplacer.new C) ops = some s) :
    (s.mru_ ++ s.mfu_).Nodup ∧
    (pagesIn s s.mru_ ++ pagesIn s s.mfu_ ++ s.mru_ghost_ ++ s.mfu_ghost_).Nodup ∧
    (∀ f, (s.alive_map_.find f).isSome = true ↔ f ∈ s.mru_ ∨ f ∈ s.mfu_) ∧
    (∀ p, (s.ghost_map_.find p).isSome = true ↔ p ∈ s.mru_ghost_ ∨ p ∈ s.mfu_ghost_) := by
  obtain ⟨hR, h⟩ := run_pageInv ops _ s (ResidentInv.new C) (pageInv_new C) hc hv hrun
  refine ⟨hR.core.nodup, ?_, ?_, ?_⟩
  · have := h.pages_nodup
    unfold allPages pagesIn at this
    unfold pagesIn
    rw [List.filterMap_append] at this
    simpa [List.append_assoc] using this
  · intro f
    constructor
    · intro hf
      obtain ⟨e, he, rfl⟩ := (HMap.find_isSome_iff s.alive_map_ _).1 hf
      exact List.mem_append.1 (hR.core.only e he)
    · intro hf
      exact hR.core.has f (List.mem_append.2 hf)
  · intro p
    constructor
    · intro hp
      obtain ⟨e, he, rfl⟩ := (HMap.find_isSome_iff s.ghost_map_ _).1 hp
      exact List.mem_append.1 (h.ghost_only e he)
    · intro hp
      exact h.ghost_has p (List.mem_append.2 hp)

/-- C19 (amended) on the calls of `sampleCalls`, which respect the pairing of
frames and pages and all complete on a fresh replacer of capacity 3. -/
theorem lists_disjoint_of_consistent_calls_witness :
    (∀ op ∈ sampleCalls, frameInRange op) ∧ consistentRun (ArcReplacer.new 3) sampleCalls ∧
    run (ArcReplacer.new 3) sampleCalls = some sampleFinal ∧
    (sampleFinal.mru_ ++ sampleFinal.mfu_).Nodup ∧
    (pagesIn sampleFinal sampleFinal.mru_ ++ pagesIn sampleFinal sampleFinal.mfu_ ++
      sampleFinal.mru_ghost_ ++ sampleFinal.mfu_ghost_).Nodup ∧
    (∀ f, (sampleFinal.alive_map_.find f).isSome = true ↔
      f ∈ sampleFinal.mru_ ∨ f ∈ sampleFinal.mfu_) ∧
    (∀ p, (sampleFinal.ghost_map_.find p).isSome = true ↔
      p ∈ sampleFinal.mru_ghost_ ∨ p ∈ sampleFinal.mfu_ghost_) :=
  ⟨by decide, by decide, by decide,
    lists_disjoint_of_consistent_calls 3 sampleCalls sampleFinal (by decide) (by decide)
      (by decide)⟩

end ArcReplacer

/-! ## `SetEvictable` on the states public calls produce (C4) -/

namespace ArcReplacer

theorem HMap.erase_of_not_key {β : Type} (m : HMap β) (k : Int)
    (h : k ∉ m.map Prod.fst) : HMap.erase m k = m := by
  unfold HMap.erase
  apply List.filter_eq_self.2
  intro e he
  have : e.1 ≠ k := fun e1 => h (List.mem_map.2 ⟨e, he, e1⟩)
  simpa using this

theorem HMap.modify_of_not_key {β : Type} (m : HMap β) (k : Int) (g : β → β)
    (h : k ∉ m.map Prod.fst) : HMap.modify m k g = m := by
  unfold HMap.modify
  conv_rhs => rw [← List.map_id m]
  apply List.map_congr_left
  intro e he
  have : e.1 ≠ k := fun e1 => h (List.mem_map.2 ⟨e, he, e1⟩)
  rw [if_neg this]
  rfl

theorem HMap.keys_erase {β : Type} (m : HMap β) (k : Int)
    (h : (m.map Prod.fst).Nodup) : ((HMap.erase m k).map Prod.fst).Nodup :=
  h.sublist ((List.filter_sublist m).map Prod.fst)

theorem HMap.keys_insert {β : Type} (m : HMap β) (k : Int) (v : β)
    (h : (m.map Prod.fst).Nodup) : ((HMap.insert m k v).map Prod.fst).Nodup := by
  unfold HMap.insert
  rw [List.map_cons, List.nodup_cons]
  refine ⟨?_, HMap.keys_erase m k h⟩
  intro hm
  obtain ⟨e, he, e1⟩ := List.mem_map.1 hm
  exact ((HMap.mem_erase m k e).1 he).2 e1

theorem HMap.keys_modify {β : Type} (m : HMap β) (k : Int) (g : β → β) :
    (HMap.modify m k g).map Prod.fst = m.map Prod.fst := by
  unfold HMap.modify
  rw [List.map_map]
  apply List.map_congr_left
  intro e _
  by_cases h : e.1 = k
  · simp [Function.comp, h]
  · simp [Function.comp, h]

theorem HMap.countP_erase_le {β : Type} (m : HMap β) (k : Int) (p : Int × β → Bool) :
    (HMap.erase m k).countP p ≤ m.countP p :=
  (List.filter_sublist m).countP_le p

theorem HMap.countP_insert_le {β : Type} (m : HMap β) (k : Int) (v : β)
    (p : Int × β → Bool) : (HMap.insert m k v).countP p ≤ m.countP p + 1 := by
  unfold HMap.insert
  rw [List.countP_cons]
  have := HMap.countP_erase_le m k p
  split <;> omega

theorem HMap.countP_insert_of_false {β : Type} (m : HMap β) (k : Int) (v : β)
    (p : Int × β → Bool) (hp : p (k, v) = false) :
    (HMap.insert m k v).countP p ≤ m.countP p := by
  unfold HMap.insert
  rw [List.countP_cons, hp]
  have := HMap.countP_erase_le m k p
  simpa using this

/-- Erasing a key whose binding satisfies `p` removes at least one entry that
satisfies `p`. -/
theorem HMap.countP_erase_lt {β : Type} (m : HMap β) (k : Int) (v : β)
    (p : β → Bool) (hf : m.find k = some v) (hp : p v = true) :
    (HMap.erase m k).countP (fun e => p e.2) + 1 ≤ m.countP (fun e => p e.2) := by
  induction m with
  | nil => simp [HMap.find] at hf
  | cons e t ih =>
    obtain ⟨a, w⟩ := e
    rw [HMap.find_cons] at hf
    by_cases ha : a = k
    · rw [if_pos ha] at hf
      injection hf with hf
      subst hf
      have e1 : HMap.erase ((a, w) :: t) k = HMap.erase t k := by
        unfold HMap.erase
        rw [List.filter_cons_of_neg (by simpa using ha)]
      rw [e1, List.countP_cons_of_pos _ _ (by simpa using hp)]
      have := HMap.countP_erase_le t k (fun e => p e.2)
      omega
    · rw [if_neg ha] at hf
      have e1 : HMap.erase ((a, w) :: t) k = (a, w) :: HMap.erase t k := by
        unfold HMap.erase
        rw [List.filter_cons_of_pos (by simpa using ha)]
      rw [e1, List.countP_cons, List.countP_cons]
      have := ih hf
      omega

/-- With distinct keys, updating the binding of `k` moves exactly one entry. -/
theorem HMap.countP_modify {β : Type} (m : HMap β) (k : Int) (g : β → β) (v : β)
    (p : β → Bool) (hn : (m.map Prod.fst).Nodup) (hf : m.find k = some v) :
    (HMap.modify m k g).countP (fun e => p e.2) + (if p v = true then 1 else 0) =
      m.countP (fun e => p e.2) + (if p (g v) = true then 1 else 0) := by
  induction m with
  | nil => simp [HMap.find] at hf
  | cons e t ih =>
    obtain ⟨a, w⟩ := e
    rw [List.map_cons, List.nodup_cons] at hn
    rw [HMap.find_cons] at hf
    rw [HMap.modify_cons]
    by_cases ha : a = k
    · rw [if_pos ha] at hf
      injection hf with hf
      subst hf
      subst ha
      rw [if_pos rfl, HMap.modify_of_not_key t a g hn.1, List.countP_cons, List.countP_cons]
      dsimp only
      omega
    · rw [if_neg ha] at hf
      rw [if_neg ha, List.countP_cons, List.countP_cons]
      have := ih hn.2 hf
      omega

theorem flagInv_new (C : Nat) : FlagInv (ArcReplacer.new C) := by
  refine ⟨?_, ?_, ?_⟩ <;> simp [ArcReplacer.new]

theorem SizeInv.resident_lt {s : ArcReplacer} (h : SizeInv s) :
    s.mru_.length + s.mfu_.length < SIZE_MOD := by
  have h2 := h.total
  have h3 : (2 * s.replacer_size_) % SIZE_MOD < SIZE_MOD :=
    Nat.mod_lt _ (by unfold SIZE_MOD; norm_num)
  omega

theorem FlagInv.size_lt {s : ArcReplacer} (h : FlagInv s) (hs : SizeInv s) :
    s.curr_size_ < SIZE_MOD := by
  have := h.upper
  have := hs.resident_lt
  omega

/-- A frame enters with a fresh evictable status and `++curr_size_`. -/
theorem FlagInv.enter {s : ArcReplacer} (h : FlagInv s) (F : frame_id_t) (st : FrameStatus)
    (hst : st.evictable_ = true) (hroom : s.mru_.length + s.mfu_.length + 1 < SIZE_MOD)
    (t : ArcReplacer) (e1 : t.alive_map_ = s.alive_map_.insert F st)
    (e2 : t.curr_size_ = sizeIncr s.curr_size_)
    (e3 : t.mru_.length + t.mfu_.length = s.mru_.length + s.mfu_.length + 1) :
    FlagInv t := by
  have hu := h.upper
  have hl := h.lower
  have hsz : sizeIncr s.curr_size_ = s.curr_size_ + 1 := sizeIncr_of_lt _ (by omega)
  refine ⟨?_, ?_, ?_⟩
  · rw [e1]; exact HMap.keys_insert _ _ _ h.keys_nodup
  · rw [e1, e2, hsz]
    have := HMap.countP_insert_le s.alive_map_ F st (fun e => e.2.evictable_)
    omega
  · rw [e1, e2, hsz, e3]
    have := HMap.countP_insert_of_false s.alive_map_ F st (fun e => !e.2.evictable_)
      (by simp [hst])
    omega

/-- An evictable frame leaves: its status is erased and `--curr_size_`. -/
theorem FlagInv.leave {s : ArcReplacer} (h : FlagInv s) (hs : SizeInv s) (F : frame_id_t)
    (st : FrameStatus) (hfind : s.alive_map_.find F = some st) (hst : st.evictable_ = true)
    (t : ArcReplacer) (e1 : t.alive_map_ = s.alive_map_.erase F)
    (e2 : t.curr_size_ = sizeDecr s.curr_size_)
    (e3 : s.mru_.length + s.mfu_.length ≤ t.mru_.length + t.mfu_.length + 1) :
    FlagInv t := by
  have hu := h.upper
  have hl := h.lower
  have hlt := h.size_lt hs
  have hc : (s.alive_map_.erase F).countP (fun e => e.2.evictable_) + 1 ≤
      s.alive_map_.countP (fun e => e.2.evictable_) :=
    HMap.countP_erase_lt s.alive_map_ F st (fun x => x.evictable_) hfind hst
  have hsz : sizeDecr s.curr_size_ = s.curr_size_ - 1 := sizeDecr_of_pos _ (by omega) hlt
  refine ⟨?_, ?_, ?_⟩
  · rw [e1]; exact HMap.keys_erase _ _ h.keys_nodup
  · rw [e1, e2, hsz]
    omega
  · rw [e1, e2, hsz]
    have := HMap.countP_erase_le s.alive_map_ F (fun e => !e.2.evictable_)
    omega

theorem FlagInv.unchanged {s : ArcReplacer} (h : FlagInv s) (t : ArcReplacer)
    (e1 : t.alive_map_ = s.alive_map_) (e2 : t.curr_size_ = s.curr_size_)
    (e3 : t.mru_.length + t.mfu_.length = s.mru_.length + s.mfu_.length) : FlagInv t := by
  refine ⟨?_, ?_, ?_⟩
  · rw [e1]; exact h.keys_nodup
  · rw [e1, e2]; exact h.lower
  · rw [e1, e2, e3]; exact h.upper

theorem Move2First_flagInv (s s' : ArcReplacer) (F : frame_id_t) (hs : SizeInv s)
    (h : FlagInv s) (hr : Move2First s F = .ok () s') : FlagInv s' := by
  rcases Move2First_ok s s' F hr with ⟨h1, rfl⟩ | ⟨_, h2, rfl⟩
  · have e := length_erase_add_one (hs.mru_sub F h1)
    refine h.unchanged _ rfl rfl ?_
    dsimp only [List.length_cons]; omega
  · have e := length_erase_add_one (hs.mfu_sub F h2)
    refine h.unchanged _ rfl rfl ?_
    dsimp only [List.length_cons]; omega

theorem MoveGhost2First_flagInv (s s' : ArcReplacer) (F : frame_id_t) (P : page_id_t)
    (hs : SizeInv s) (h : FlagInv s) (hr : MoveGhost2First s F P = .ok () s') :
    FlagInv s' := by
  have ht := hs.total
  have hm : (2 * s.replacer_size_) % SIZE_MOD < SIZE_MOD :=
    Nat.mod_lt _ (by unfold SIZE_MOD; norm_num)
  rcases MoveGhost2First_ok s s' F P hr with ⟨h1, rfl⟩ | ⟨_, h2, rfl⟩
  · have hpos := List.length_pos_of_mem (hs.mru_ghost_sub P h1)
    refine h.enter F _ rfl (by omega) _ rfl rfl ?_
    dsimp only [List.length_cons]; omega
  · have hpos := List.length_pos_of_mem (hs.mfu_ghost_sub P h2)
    refine h.enter F _ rfl (by omega) _ rfl rfl ?_
    dsimp only [List.length_cons]; omega

theorem RecordAccess_flagInv (s s' : ArcReplacer) (F : frame_id_t) (P : page_id_t)
    (a : AccessType) (hs : SizeInv s) (h : FlagInv s)
    (hr : RecordAccess s F P a = .ok () s') : FlagInv s' := by
  have ht := hs.total
  have hm : (2 * s.replacer_size_) % SIZE_MOD < SIZE_MOD :=
    Nat.mod_lt _ (by unfold SIZE_MOD; norm_num)
  rcases RecordAccess_ok s s' F P a hr with ⟨_, hmv⟩ | ⟨_, _, p', hmv⟩ |
    ⟨_, _, ⟨_, last, hl, rfl⟩ | ⟨_, _, last, hl, rfl⟩ | ⟨_, hne, rfl⟩⟩
  · exact Move2First_flagInv s s' F hs h hmv
  · have hs' : SizeInv { s with mru_target_size_ := p' } :=
      ⟨hs.recency, hs.total, hs.mru_sub, hs.mfu_sub, hs.mru_ghost_sub, hs.mfu_ghost_sub⟩
    have h' : FlagInv { s with mru_target_size_ := p' } := ⟨h.keys_nodup, h.lower, h.upper⟩
    exact MoveGhost2First_flagInv _ s' F P hs' h' hmv
  · have e := length_dropLast_of_getLast hl
    refine h.enter F _ rfl (by omega) _ rfl rfl ?_
    dsimp only [pushMru, List.length_cons]; omega
  · have e := length_dropLast_of_getLast hl
    refine h.enter F _ rfl (by omega) _ rfl rfl ?_
    dsimp only [pushMru, List.length_cons]; omega
  · refine h.enter F _ rfl (by omega) _ rfl rfl ?_
    dsimp only [pushMru, List.length_cons]; omega

theorem HMap.mem_pair_of_find {β : Type} (m : HMap β) (k : Int) (v : β)
    (hf : m.find k = some v) : (k, v) ∈ m := by
  induction m with
  | nil => simp [HMap.find] at hf
  | cons e t ih =>
    obtain ⟨a, w⟩ := e
    rw [HMap.find_cons] at hf
    by_cases ha : a = k
    · rw [if_pos ha] at hf
      injection hf with hf
      subst hf
      subst ha
      exact List.mem_cons_self _ _
    · rw [if_neg ha] at hf
      exact List.mem_cons_of_mem _ (ih hf)

/-- Where the flag accounting holds, `++curr_size_` on un-pinning a frame and
`--curr_size_` on pinning one do not wrap. -/
theorem FlagInv.flag_bounds {s : ArcReplacer} (h : FlagInv s) (hs : SizeInv s)
    (F : frame_id_t) (st : FrameStatus) (hfind : s.alive_map_.find F = some st) :
    (st.evictable_ = false → s.curr_size_ + 1 < SIZE_MOD) ∧
    (st.evictable_ = true → 0 < s.curr_size_) := by
  have hmem := HMap.mem_pair_of_find _ _ _ hfind
  have hu := h.upper
  have hl := h.lower
  have hr := hs.resident_lt
  constructor
  · intro hst
    have : 0 < s.alive_map_.countP (fun e => !e.2.evictable_) :=
      List.countP_pos_iff.2 ⟨(F, st), hmem, by simp [hst]⟩
    omega
  · intro hst
    have : 0 < s.alive_map_.countP (fun e => e.2.evictable_) :=
      List.countP_pos_iff.2 ⟨(F, st), hmem, by simp [hst]⟩
    omega

theorem SetEvictable_flagInv (s s' : ArcReplacer) (F : frame_id_t) (b : Bool)
    (hs : SizeInv s) (h : FlagInv s) (hr : SetEvictable s F b = .ok () s') :
    FlagInv s' := by
  unfold SetEvictable at hr
  cases hfind : s.alive_map_.find F with
  | none => rw [hfind] at hr; simp at hr
  | some st =>
    rw [hfind] at hr
    injection hr with _ hr
    subst hr
    have hlt := h.size_lt hs
    have hu := h.upper
    have hl := h.lower
    obtain ⟨b1, b2⟩ := h.flag_bounds hs F st hfind
    have c1 : (s.alive_map_.modify F (fun st0 => { st0 with evictable_ := b })).countP
        (fun e => e.2.evictable_) + (if st.evictable_ = true then 1 else 0) =
        s.alive_map_.countP (fun e => e.2.evictable_) + (if b = true then 1 else 0) :=
      HMap.countP_modify s.alive_map_ F _ st (fun x => x.evictable_) h.keys_nodup hfind
    have c2 : (s.alive_map_.modify F (fun st0 => { st0 with evictable_ := b })).countP
        (fun e => !e.2.evictable_) + (if (!st.evictable_) = true then 1 else 0) =
        s.alive_map_.countP (fun e => !e.2.evictable_) + (if (!b) = true then 1 else 0) :=
      HMap.countP_modify s.alive_map_ F _ st (fun x => !x.evictable_) h.keys_nodup hfind
    refine ⟨?_, ?_, ?_⟩
    · show ((s.alive_map_.modify F (fun st0 => { st0 with evictable_ := b })).map
        Prod.fst).Nodup
      rw [HMap.keys_modify]
      exact h.keys_nodup
    · dsimp only
      cases hse : st.evictable_ <;> cases b
      · rw [hse] at c1 c2; simp at c1 c2 ⊢; omega
      · rw [hse] at c1 c2
        have := sizeIncr_of_lt _ (b1 hse)
        simp at c1 c2 ⊢; omega
      · rw [hse] at c1 c2
        have := sizeDecr_of_pos _ (b2 hse) hlt
        simp at c1 c2 ⊢; omega
      · rw [hse] at c1 c2; simp at c1 c2 ⊢; omega
    · dsimp only
      cases hse : st.evictable_ <;> cases b
      · rw [hse] at c1 c2; simp at c1 c2 ⊢; omega
      · rw [hse] at c1 c2
        have := sizeIncr_of_lt _ (b1 hse)
        simp at c1 c2 ⊢; omega
      · rw [hse] at c1 c2
        have := sizeDecr_of_pos _ (b2 hse) hlt
        simp at c1 c2 ⊢; omega
      · rw [hse] at c1 c2; simp at c1 c2 ⊢; omega

theorem Evict_flagInv (s s' : ArcReplacer) (v : Option frame_id_t) (hs : SizeInv s)
    (h : FlagInv s) (hr : Evict s = .ok v s') : FlagInv s' := by
  rcases Evict_ok s s' v hr with ⟨_, rfl, _, _⟩ | ⟨F, hF, hv⟩ | ⟨F, hF, hv⟩
  · exact h
  · obtain ⟨_, hev⟩ := TryGetEvictableFrom_some s _ F hF
    obtain ⟨st, hfind, _, hm, _, rfl⟩ := evictVictim_mru_ok s s' F v hv
    rw [isEvictable_find s F st hfind] at hev
    have e := length_erase_add_one (hs.mru_sub F hm)
    refine h.leave hs F st hfind hev _ rfl rfl ?_
    dsimp only; omega
  · obtain ⟨_, hev⟩ := TryGetEvictableFrom_some s _ F hF
    obtain ⟨st, hfind, _, hm, _, rfl⟩ := evictVictim_mfu_ok s s' F v hv
    rw [isEvictable_find s F st hfind] at hev
    have e := length_erase_add_one (hs.mfu_sub F hm)
    refine h.leave hs F st hfind hev _ rfl rfl ?_
    dsimp only; omega

theorem Remove_evictable (s s' : ArcReplacer) (F : frame_id_t) (st : FrameStatus)
    (hfind : s.alive_map_.find F = some st) (hr : Remove s F = .ok () s') :
    st.evictable_ = true := by
  unfold Remove at hr
  rw [hfind] at hr
  simp only at hr
  by_cases hst : st.evictable_ = false
  · rw [if_pos hst] at hr; simp at hr
  · simpa using hst

theorem Remove_flagInv (s s' : ArcReplacer) (F : frame_id_t) (hs : SizeInv s)
    (h : FlagInv s) (hr : Remove s F = .ok () s') : FlagInv s' := by
  rcases Remove_ok s s' F hr with ⟨_, rfl⟩ | ⟨hsome, hcases⟩
  · exact h
  · cases hfind : s.alive_map_.find F with
    | none => rw [hfind] at hsome; simp at hsome
    | some st =>
      have hev := Remove_evictable s s' F st hfind hr
      rcases hcases with ⟨hF, rfl⟩ | ⟨_, hF, rfl⟩ | ⟨_, _, rfl⟩
      · have e := length_erase_add_one (hs.mru_sub F hF)
        refine h.leave hs F st hfind hev _ rfl rfl ?_
        dsimp only; omega
      · have e := length_erase_add_one (hs.mfu_sub F hF)
        refine h.leave hs F st hfind hev _ rfl rfl ?_
        dsimp only; omega
      · refine h.leave hs F st hfind hev _ rfl rfl ?_
        dsimp only; omega

theorem call_flagInv (s s' : ArcReplacer) (op : Op) (hs : SizeInv s) (h : FlagInv s)
    (hr : call s op = some s') : FlagInv s' := by
  cases op with
  | RecordAccess f p a =>
    exact RecordAccess_flagInv s s' f p a hs h (call_RecordAccess_ok s s' f p a hr)
  | SetEvictable f b =>
    exact SetEvictable_flagInv s s' f b hs h (call_SetEvictable_ok s s' f b hr)
  | Evict =>
    obtain ⟨v, hv⟩ := call_Evict_ok s s' hr
    exact Evict_flagInv s s' v hs h hv
  | Remove f => exact Remove_flagInv s s' f hs h (call_Remove_ok s s' f hr)

theorem run_flagInv (ops : List Op) : ∀ (s s' : ArcReplacer), SizeInv s → FlagInv s →
    run s ops = some s' → SizeInv s' ∧ FlagInv s' := by
  induction ops with
  | nil =>
    intro s s' hs h hr
    simp only [run] at hr
    injection hr with hr
    subst hr
    exact ⟨hs, h⟩
  | cons op rest ih =>
    intro s s' hs h hr
    simp only [run] at hr
    cases hc : call s op with
    | none => rw [hc] at hr; simp at hr
    | some s1 =>
      rw [hc] at hr
      exact ih s1 s' (call_sizeInv s s1 op hs hc) (call_flagInv s s1 op hs h hc) hr

/-- C4: in every state that public calls produce (any capacity, any finite
sequence of calls on a fresh replacer, all completing, with any frame and page
ids), for every frame id `F` and flag `b`: if `F` has no entry in `alive_map_`
then `SetEvictable(F, b)` raises and leaves the state unchanged; otherwise it
completes, sets the evictable flag of `F` to `b`, changes `Size()` by exactly +1
when the flag goes false→true, by exactly −1 when it goes true→false and not at
all when the flag already equals `b`, and leaves the four lists,
`mru_target_size_` and every other frame's status unchanged. -/
theorem SetEvictable_effect (C : Nat) (ops : List Op) (s : ArcReplacer)
    (hrun : run (ArcReplacer.new C) ops = some s) (F : frame_id_t) (b : Bool) :
    (s.alive_map_.find F = none → SetEvictable s F b = .raise Fault.state5 s) ∧
    (∀ st, s.alive_map_.find F = some st →
      ∃ s', SetEvictable s F b = .ok () s' ∧
        s'.alive_map_.find F = some { st with evictable_ := b } ∧
        (st.evictable_ = false → b = true → s'.Size = s.Size + 1) ∧
        (st.evictable_ = true → b = false → s'.Size + 1 = s.Size) ∧
        (st.evictable_ = b → s'.Size = s.Size) ∧
        s'.mru_ = s.mru_ ∧ s'.mfu_ = s.mfu_ ∧
        s'.mru_ghost_ = s.mru_ghost_ ∧ s'.mfu_ghost_ = s.mfu_ghost_ ∧
        s'.mru_target_size_ = s.mru_target_size_ ∧
        (∀ G, G ≠ F → s'.alive_map_.find G = s.alive_map_.find G)) := by
  obtain ⟨hs, h⟩ := run_flagInv ops _ s (sizeInv_new C) (flagInv_new C) hrun
  obtain ⟨hnone, hsome⟩ := SetEvictable_modular s F b
  refine ⟨hnone, ?_⟩
  intro st hfind
  obtain ⟨s', hr, hflag, hup, hdown, hsame, r1, r2, r3, r4, r5, r6⟩ := hsome st hfind
  obtain ⟨b1, b2⟩ := h.flag_bounds hs F st hfind
  exact ⟨s', hr, hflag, fun h1 h2 => (hup h1 h2).2 (b1 h1),
    fun h1 h2 => (hdown h1 h2).2 (b2 h1) (h.size_lt hs), hsame, r1, r2, r3, r4, r5, r6⟩

/-- C4 at `sampleMid`, the state after the first six calls of `sampleCalls` on a
fresh replacer of capacity 3, where frame 2 is resident and pinned:
`SetEvictable(2, true)` takes `Size()` from 1 to 2. -/
theorem SetEvictable_effect_witness :
    run (ArcReplacer.new 3) (sampleCalls.take 6) = some sampleMid ∧
    sampleMid.alive_map_.find 2 = some ⟨2, 2, false, ArcStatus.MRU⟩ ∧
    sampleMid.Size = 1 ∧
    ∃ s', SetEvictable sampleMid 2 true = .ok () s' ∧
      s'.alive_map_.find 2 = some ⟨2, 2, true, ArcStatus.MRU⟩ ∧
      s'.Size = 2 ∧
      s'.mru_ = sampleMid.mru_ ∧ s'.mfu_ = sampleMid.mfu_ ∧
      s'.mru_ghost_ = sampleMid.mru_ghost_ ∧ s'.mfu_ghost_ = sampleMid.mfu_ghost_ ∧
      s'.mru_target_size_ = sampleMid.mru_target_size_ ∧
      (∀ G, G ≠ 2 → s'.alive_map_.find G = sampleMid.alive_map_.find G) := by
  obtain ⟨s', hr, hflag, hup, _, _, r1, r2, r3, r4, r5, r6⟩ :=
    (SetEvictable_effect 3 (sampleCalls.take 6) sampleMid (by decide) 2 true).2
      ⟨2, 2, false, ArcStatus.MRU⟩ (by decide)
  exact ⟨by decide, by decide, by decide, s', hr, hflag, hup rfl rfl, r1, r2, r3, r4, r5, r6⟩

end ArcReplacer
